import Mathlib

/-!
Verification of the gogcli-sandbox broker (Go sources under internal/policy,
internal/redact, internal/gog, internal/broker) against its specification.

The Go code is shallowly embedded: JSON values become the inductive type
Json, Go maps of params become association lists in insertion order, the
regular expressions of policy.go and redact.go become explicit scanners over
lists of characters, and the broker pipeline becomes a pure function that
also returns the list of subprocess invocations it performed.
-/

namespace Gogcli

/-! ## Character and string utilities (ASCII models of the Go helpers) -/

/-- ASCII lower-casing of one character, as strings.ToLower does on ASCII. -/
def lowerChar (c : Char) : Char :=
  if 'A' ≤ c ∧ c ≤ 'Z' then Char.ofNat (c.toNat + 32) else c

/-- ASCII lower-casing of a string (model of strings.ToLower on ASCII data). -/
def lowerStr (s : String) : String :=
  (s.toList.map lowerChar).asString

/-- The white-space class of unicode.IsSpace restricted to ASCII, which is
what strings.TrimSpace uses on ASCII data. -/
def isWsGo (c : Char) : Bool :=
  c = ' ' ∨ c = '\t' ∨ c = '\n' ∨ c = '\x0b' ∨ c = '\x0c' ∨ c = '\r'

/-- Drop trailing characters satisfying p. -/
def dropTrailing (p : Char → Bool) (cs : List Char) : List Char :=
  ((cs.reverse).dropWhile p).reverse

/-- Model of strings.TrimSpace over character lists. -/
def goTrimList (cs : List Char) : List Char :=
  dropTrailing isWsGo (cs.dropWhile isWsGo)

/-- Model of strings.TrimSpace. -/
def goTrim (s : String) : String :=
  (goTrimList s.toList).asString

/-- Model of strings.EqualFold restricted to ASCII case folding. -/
def eqFold (a b : String) : Bool :=
  lowerStr a = lowerStr b

/-- Split a character list at a separator character (model of strings.Split). -/
def splitOnChar (sep : Char) (cs : List Char) : List (List Char) :=
  match cs with
  | [] => [[]]
  | c :: rest =>
      let tails := splitOnChar sep rest
      if c = sep then
        [] :: tails
      else
        match tails with
        | [] => [[c]]
        | t :: ts => (c :: t) :: ts

/-- Model of strings.Split for one-character separators. -/
def goSplit (s : String) (sep : Char) : List String :=
  (splitOnChar sep s.toList).map List.asString

/-- Model of strings.HasPrefix. -/
def goHasPrefix (s pre : String) : Bool :=
  pre.toList.isPrefixOf s.toList

/-- Model of strings.TrimPrefix: removes one leading occurrence when present. -/
def goTrimPrefix (s pre : String) : String :=
  if goHasPrefix s pre then (s.toList.drop pre.toList.length).asString else s

/-- Model of strings.Join with one-character separators folded into a string. -/
def goJoin (parts : List String) (sep : String) : String :=
  match parts with
  | [] => ""
  | p :: rest => rest.foldl (fun acc q => acc ++ sep ++ q) p

/-! ## Decimal digits (model of strconv.Itoa / strconv.Atoi on digit runs) -/

def isDigitChar (c : Char) : Bool := '0' ≤ c ∧ c ≤ '9'

def digitVal (c : Char) : Nat := c.toNat - 48

/-- Numeric value of a digit run, most significant first. -/
def digitsToNat (ds : List Char) : Nat :=
  ds.foldl (fun acc c => acc * 10 + digitVal c) 0

def digitChar (n : Nat) : Char := Char.ofNat (48 + n)

/-- Fuel-driven decimal printer; fuel at least n guarantees completion. -/
def natToDigitsAux : Nat → Nat → List Char → List Char
  | 0, _, acc => acc
  | _ + 1, n, acc =>
      if h : n < 10 then digitChar n :: acc
      else natToDigitsAux (n / 10) (n / 10) (digitChar (n % 10) :: acc)

/-- Decimal digits of a natural number (model of strconv.Itoa on naturals). -/
def natToDigits (n : Nat) : List Char :=
  natToDigitsAux (n + 1) n []

/-- Model of strconv.Itoa for the non-negative values this development needs. -/
def intToStr (n : Int) : String :=
  if n < 0 then "-" ++ (natToDigits n.natAbs).asString else (natToDigits n.toNat).asString

/-! ## JSON values and parameter maps -/

/-- Shallow embedding of the dynamically typed JSON trees that Go represents
as interface values: objects and arrays keep their (insertion) order. -/
inductive Json where
  | null : Json
  | b : Bool → Json
  | num : Int → Json
  | str : String → Json
  | arr : List Json → Json
  | obj : List (String × Json) → Json
  deriving Repr

/-- A request parameter map, in insertion order. -/
abbrev Params := List (String × Json)

/-- Map lookup. -/
def lookupP (params : Params) (key : String) : Option Json :=
  match params with
  | [] => none
  | (k, v) :: rest => if k = key then some v else lookupP rest key

/-- Map assignment: replaces in place when the key exists, appends otherwise. -/
def setP (params : Params) (key : String) (v : Json) : Params :=
  match params with
  | [] => [(key, v)]
  | (k, w) :: rest => if k = key then (k, v) :: rest else (k, w) :: setP rest key v

/-- Map deletion. -/
def delP (params : Params) (key : String) : Params :=
  match params with
  | [] => []
  | (k, w) :: rest => if k = key then delP rest key else (k, w) :: delP rest key

/-- Key presence. -/
def hasKey (params : Params) (key : String) : Bool :=
  (lookupP params key).isSome

/-- Association-list lookup for string-valued maps (the label maps). -/
def lookupS (m : List (String × String)) (key : String) : Option String :=
  match m with
  | [] => none
  | (k, v) :: rest => if k = key then some v else lookupS rest key

/-- Association-list assignment for string-valued maps. -/
def setS (m : List (String × String)) (key v : String) : List (String × String) :=
  match m with
  | [] => [(key, v)]
  | (k, w) :: rest => if k = key then (k, v) :: rest else (k, w) :: setS rest key v

/-! ## Policy data model (internal/policy/policy.go) -/

/-- GmailPolicy from policy.go. -/
structure GmailPolicy where
  allowedReadLabels : List String
  allowedAddLabels : List String
  allowedRemoveLabels : List String
  allowedSenders : List String
  allowedSendRecipients : List String
  maxDays : Int
  allowBody : Bool
  allowLinks : Bool
  draftOnly : Bool
  allowAttachments : Bool
  deriving Repr

/-- CalendarPolicy from policy.go. -/
structure CalendarPolicy where
  allowedCalendars : List String
  allowDetails : Bool
  maxDays : Int
  deriving Repr

/-- Policy from policy.go.  The two label maps are the runtime fields written
by SetLabelMap (already normalized: lower-cased keys, trimmed entries). -/
structure Policy where
  allowedActions : List String
  gmail : Option GmailPolicy
  calendar : Option CalendarPolicy
  labelIDToName : List (String × String)
  labelNameToID : List (String × String)
  deriving Repr

/-- Policy.SetLabelMap: trims and drops empty pairs, lower-cases the keys of
both directions of the map. -/
def setLabelMap (p : Policy) (idToName : List (String × String)) : Policy :=
  let cleaned := idToName.filterMap (fun kv =>
    let id := goTrim kv.1
    let name := goTrim kv.2
    if id = "" ∨ name = "" then none else some (id, name))
  { p with
    labelIDToName := cleaned.foldl (fun m kv => setS m (lowerStr kv.1) kv.2) []
    labelNameToID := cleaned.foldl (fun m kv => setS m (lowerStr kv.2) kv.1) [] }

/-- Policy.LabelNameForID. -/
def labelNameForID (p : Policy) (id : String) : Option String :=
  lookupS p.labelIDToName (lowerStr (goTrim id))

/-- Policy.LabelIDForName. -/
def labelIDForName (p : Policy) (name : String) : Option String :=
  lookupS p.labelNameToID (lowerStr (goTrim name))

/-- Policy.IsActionAllowed: membership in the set that Validate builds from
the trimmed allowed_actions entries. -/
def isActionAllowed (p : Policy) (action : String) : Bool :=
  p.allowedActions.any (fun a => goTrim a = action)

/-! ## Param getters (policy.go getString and friends) -/

/-- getString: only genuine JSON strings count. -/
def getString (params : Params) (key : String) : Option String :=
  match lookupP params key with
  | some (Json.str s) => some s
  | _ => none

/-- getStringAny: first key that getString accepts. -/
def getStringAny (params : Params) (keys : List String) : Option String :=
  match keys with
  | [] => none
  | k :: rest =>
      match getString params k with
      | some v => some v
      | none => getStringAny params rest

/-- getBool: booleans, or the exact strings true and false. -/
def getBool (params : Params) (key : String) : Option Bool :=
  match lookupP params key with
  | some (Json.b v) => some v
  | some (Json.str s) => if s = "true" then some true else if s = "false" then some false else none
  | _ => none

/-- Model of strconv.Atoi (decimal, optional sign). -/
def parseIntStr (s : String) : Option Int :=
  match s.toList with
  | [] => none
  | '-' :: ds =>
      if ds ≠ [] ∧ ds.all isDigitChar then some (-(digitsToNat ds : Int)) else none
  | ds =>
      if ds.all isDigitChar then some (digitsToNat ds : Int) else none

/-- getInt: numbers, or strings that strconv.Atoi accepts. -/
def getInt (params : Params) (key : String) : Option Int :=
  match lookupP params key with
  | some (Json.num n) => some n
  | some (Json.str s) => parseIntStr s
  | _ => none

/-- getStringSlice: a comma-separated string is split, trimmed and cleaned of
empties; an array keeps exactly its string elements untouched.  An empty
result counts as absent. -/
def getStringSlice (params : Params) (key : String) : Option (List String) :=
  match lookupP params key with
  | some (Json.str s) =>
      let out := ((goSplit s ',').map goTrim).filter (fun part => part ≠ "")
      if out = [] then none else some out
  | some (Json.arr items) =>
      let out := items.filterMap (fun item =>
        match item with
        | Json.str s => some s
        | _ => none)
      if out = [] then none else some out
  | _ => none

/-- stringInSlice: exact membership. -/
def stringInSlice (s : String) (list : List String) : Bool :=
  list.contains s

/-! ## Label allow-list checks (policy.go isLabelAllowed / validateLabels) -/

/-- Policy.isLabelAllowed: case-insensitive match of the literal label, its
mapped id (name to id) or its mapped name (id to name) against the allow
list. -/
def isLabelAllowed (p : Policy) (label : String) (allowed : List String) : Bool :=
  if p.gmail.isNone then false
  else if allowed = [] then false
  else
    let label := goTrim label
    if label = "" then false
    else
      let labelLower := lowerStr label
      let allowedSet := ((allowed.map goTrim).filter (fun a => a ≠ "")).map lowerStr
      if allowedSet.contains labelLower then true
      else
        let viaID :=
          match labelIDForName p label with
          | some id => allowedSet.contains (lowerStr id)
          | none => false
        if viaID then true
        else
          match labelNameForID p label with
          | some name => allowedSet.contains (lowerStr name)
          | none => false

/-- The per-label loop of Policy.validateLabels. -/
def validateLabelsLoop (p : Policy) (labels : List String) (allowed : List String) :
    Except String Unit :=
  match labels with
  | [] => Except.ok ()
  | label :: rest =>
      let label := goTrim label
      if label = "" then validateLabelsLoop p rest allowed
      else if isLabelAllowed p label allowed then validateLabelsLoop p rest allowed
      else Except.error ("label not allowed: " ++ label)

/-- Policy.validateLabels: an empty allow list permits everything when
allowEmpty is set and nothing otherwise. -/
def validateLabels (p : Policy) (labels : List String) (allowed : List String)
    (mode : String) (allowEmpty : Bool) : Except String Unit :=
  if labels = [] then Except.ok ()
  else if p.gmail.isNone then Except.error "gmail policy missing"
  else if allowed = [] then
    if allowEmpty then Except.ok () else Except.error ("no labels allowed for " ++ mode)
  else validateLabelsLoop p labels allowed

/-! ## The two query regular expressions of policy.go

newerThanRe is (case-insensitively) a word boundary, the literal
newer_than:, one or more digits and the letter d; afterRe is a word
boundary, the literal after: and a date written with four, two and two
digits separated by slashes.  Both are compiled regular expressions in Go;
here they are explicit left-to-right scanners with the same semantics
(leftmost match, ASCII word boundary). -/

def isWordChar (c : Char) : Bool :=
  isDigitChar c ∨ ('a' ≤ lowerChar c ∧ lowerChar c ≤ 'z') ∨ c = '_'

/-- Case-insensitive literal match at the head; returns the remainder. -/
def matchLitCI : List Char → List Char → Option (List Char)
  | [], rest => some rest
  | _ :: _, [] => none
  | l :: ls, c :: cs => if lowerChar c = l then matchLitCI ls cs else none

/-- A newer_than clause at the head: the literal, a nonempty digit run and a
letter d (case folded). -/
def newerAt (cs : List Char) : Option Nat :=
  match matchLitCI "newer_than:".toList cs with
  | none => none
  | some rest =>
      let ds := rest.takeWhile isDigitChar
      if ds = [] then none
      else
        match rest.dropWhile isDigitChar with
        | c :: _ => if lowerChar c = 'd' then some (digitsToNat ds) else none
        | [] => none

/-- Leftmost scan for a newer_than clause; the boolean carries whether the
previous character was a word character (the word-boundary test). -/
def scanNewer : Bool → List Char → Option Nat
  | _, [] => none
  | prevWord, c :: cs =>
      if prevWord then scanNewer (isWordChar c) cs
      else
        match newerAt (c :: cs) with
        | some n => some n
        | none => scanNewer (isWordChar c) cs

/-- extractNewerThanDays: the leftmost clause value, unless strconv.Atoi
would overflow a 64-bit int, in which case the clause is ignored. -/
def extractNewerThanDays (q : String) : Option Nat :=
  match scanNewer false q.toList with
  | some n => if n ≤ 9223372036854775807 then some n else none
  | none => none

/-- Exactly n digits at the head, returning them and the remainder. -/
def takeExactDigits : Nat → List Char → Option (List Char × List Char)
  | 0, cs => some ([], cs)
  | _ + 1, [] => none
  | n + 1, c :: cs =>
      if isDigitChar c then
        match takeExactDigits n cs with
        | some (ds, rest) => some (c :: ds, rest)
        | none => none
      else none

/-- An after clause at the head: the literal and a slash-separated 4-2-2
digit date. -/
def afterAt (cs : List Char) : Option (Nat × Nat × Nat) :=
  match matchLitCI "after:".toList cs with
  | none => none
  | some rest =>
      match takeExactDigits 4 rest with
      | some (ys, r1) =>
          match r1 with
          | '/' :: r2 =>
              match takeExactDigits 2 r2 with
              | some (ms, r3) =>
                  match r3 with
                  | '/' :: r4 =>
                      match takeExactDigits 2 r4 with
                      | some (ds, _) => some (digitsToNat ys, digitsToNat ms, digitsToNat ds)
                      | none => none
                  | _ => none
              | none => none
          | _ => none
      | none => none

/-- Leftmost scan for an after clause. -/
def scanAfter : Bool → List Char → Option (Nat × Nat × Nat)
  | _, [] => none
  | prevWord, c :: cs =>
      if prevWord then scanAfter (isWordChar c) cs
      else
        match afterAt (c :: cs) with
        | some ymd => some ymd
        | none => scanAfter (isWordChar c) cs

/-! ## Dates (model of time.Parse with layout 2006-01-02) -/

structure Date where
  year : Nat
  month : Nat
  day : Nat
  deriving Repr, DecidableEq

def isLeapYear (y : Nat) : Bool :=
  y % 4 = 0 ∧ (y % 100 ≠ 0 ∨ y % 400 = 0)

def daysInMonth (y m : Nat) : Nat :=
  if m = 2 then (if isLeapYear y then 29 else 28)
  else if m = 4 ∨ m = 6 ∨ m = 9 ∨ m = 11 then 30
  else 31

/-- The range checks time.Parse performs on a calendar date. -/
def validDate (y m d : Nat) : Bool :=
  1 ≤ m ∧ m ≤ 12 ∧ 1 ≤ d ∧ d ≤ daysInMonth y m

/-- extractAfterDate: leftmost after clause whose date time.Parse accepts. -/
def extractAfterDate (q : String) : Option Date :=
  match scanAfter false q.toList with
  | some (y, m, d) => if validDate y m d then some (Date.mk y m d) else none
  | none => none

/-- Days from the Unix epoch of a civil date (standard civil-days formula);
used to compare the parsed after date, a UTC midnight, with other instants. -/
def daysFromCivil (date : Date) : Int :=
  let y : Int := if date.month ≤ 2 then (date.year : Int) - 1 else (date.year : Int)
  let era : Int := (if 0 ≤ y then y else y - 399) / 400
  let yoe : Int := y - era * 400
  let m : Int := (date.month : Int)
  let doy : Int := (153 * (if 2 < m then m - 3 else m + 9) + 2) / 5 + (date.day : Int) - 1
  let doe : Int := yoe * 365 + yoe / 4 - yoe / 100 + doy
  era * 146097 + doe - 719468

def nsPerDay : Int := 86400000000000

/-- The instant (nanoseconds since the Unix epoch) of the UTC midnight that
time.Parse 2006-01-02 returns for a date. -/
def dateNs (date : Date) : Int :=
  daysFromCivil date * nsPerDay

/-- A clause for the matcher f present in cs at a word boundary: the text
splits as pre ++ rest with pre empty or ending in a non-word character, and
f recognises the clause at the head of rest with value v. -/
def clauseAt {α : Type} (f : List Char → Option α) (cs : List Char) (v : α) : Prop :=
  ∃ pre rest, cs = pre ++ rest ∧
    (pre = [] ∨ ∃ c, pre.getLast? = some c ∧ isWordChar c = false) ∧
    f rest = some v

/-! ## Gmail query rewrite (policy.go rewriteGmailQuery) -/

/-- appendSenderRestriction: appends a parenthesised OR of from: terms built
from the trimmed, at-prefixed sender domains; a list that trims to nothing
leaves the query untouched. -/
def appendSenderRestriction (query : String) (senders : List String) : String :=
  let parts := senders.filterMap (fun sender =>
    let sender := goTrim sender
    if sender = "" then none
    else some ("from:" ++ (if goHasPrefix sender "@" then sender else "@" ++ sender)))
  if parts = [] then query
  else goTrim (query ++ " (" ++ goJoin parts " OR " ++ ")")

/-- Policy.rewriteGmailQuery.  limitNs is the instant that the Go code
computes as time.Now().AddDate(0, 0, -maxDays) when it checks an after
clause. -/
def rewriteGmailQuery (p : Policy) (limitNs : Int) (params : Params)
    (warnings : List String) : Except String (Params × List String) :=
  match getString params "query" with
  | none => Except.error "params.query is required"
  | some q0 =>
      if goTrim q0 = "" then Except.error "params.query is required"
      else
        match p.gmail with
        | none => Except.ok (setP params "query" (Json.str q0), warnings)
        | some g =>
            let step1 : Except String (String × List String) :=
              if 0 < g.maxDays then
                match extractNewerThanDays q0 with
                | some days =>
                    if g.maxDays < (days : Int) then
                      Except.error ("query newer_than exceeds max_days (" ++ intToStr g.maxDays ++ ")")
                    else Except.ok (q0, warnings)
                | none =>
                    match extractAfterDate q0 with
                    | some date =>
                        if dateNs date < limitNs then
                          Except.error ("query after date exceeds max_days (" ++ intToStr g.maxDays ++ ")")
                        else Except.ok (q0, warnings)
                    | none =>
                        Except.ok (goTrim (q0 ++ " newer_than:" ++ intToStr g.maxDays ++ "d"),
                          warnings ++ ["query_rewritten:newer_than"])
              else Except.ok (q0, warnings)
            match step1 with
            | Except.error e => Except.error e
            | Except.ok (q1, w1) =>
                if g.allowedSenders ≠ [] then
                  Except.ok (setP params "query" (Json.str (appendSenderRestriction q1 g.allowedSenders)),
                    w1 ++ ["query_rewritten:sender_restriction"])
                else Except.ok (setP params "query" (Json.str q1), w1)

/-! ## The remaining Gmail rewriters of policy.go -/

/-- Policy.rewriteGmailThreadGet: accepts id or thread_id (in that order) and
stores the value under thread_id.  The id key itself is left in place. -/
def rewriteGmailThreadGet (params : Params) (warnings : List String) :
    Except String (Params × List String) :=
  match getString params "id" with
  | some v => Except.ok (setP params "thread_id" (Json.str v), warnings)
  | none =>
      match getString params "thread_id" with
      | some v => Except.ok (setP params "thread_id" (Json.str v), warnings)
      | none => Except.error "params.id or params.thread_id is required"

/-- Policy.rewriteGmailGet: coerces id or message_id to message_id, rejects
any explicit string format other than empty or metadata, forces
format=metadata and strips headers with a warning. -/
def rewriteGmailGet (params : Params) (warnings : List String) :
    Except String (Params × List String) :=
  let withID : Except String Params :=
    match getString params "id" with
    | some v => Except.ok (setP params "message_id" (Json.str v))
    | none =>
        match getString params "message_id" with
        | some v => Except.ok (setP params "message_id" (Json.str v))
        | none => Except.error "params.id or params.message_id is required"
  match withID with
  | Except.error e => Except.error e
  | Except.ok p1 =>
      let formatBad : Bool :=
        match getString p1 "format" with
        | some format => decide (format ≠ "" ∧ format ≠ "metadata")
        | none => false
      if formatBad then Except.error "format must be metadata"
      else
        let p2 := setP p1 "format" (Json.str "metadata")
        if hasKey p2 "headers" then
          Except.ok (delP p2 "headers", warnings ++ ["headers_ignored:default"])
        else Except.ok (p2, warnings)

/-! ## Recipients (policy.go collectRecipients / splitRecipients) -/

/-- Modelled from the spec: net/mail.ParseAddress performs RFC 5322 address
parsing (standard library, not part of this repository).  The model accepts
a bare address or a display name followed by an address in angle brackets,
requiring exactly one at sign with nonempty local part and domain and no
white space or angle brackets inside the address. -/
def parseAddressModel (s : String) : Option String :=
  let cs := goTrimList s.toList
  let core : List Char :=
    match cs.getLast? with
    | some '>' =>
        let inner := (cs.dropLast).reverse.takeWhile (fun c => c ≠ '<')
        if inner.length < cs.dropLast.length then inner.reverse else []
    | _ => cs
  let okAddr :=
    core ≠ [] ∧
    (core.filter (fun c => c = '@')).length = 1 ∧
    core.head? ≠ some '@' ∧ core.getLast? ≠ some '@' ∧
    core.all (fun c => ¬ isWsGo c ∧ c ≠ '<' ∧ c ≠ '>' ∧ c ≠ ',')
  if okAddr then some core.asString else none

/-- policy.go splitRecipients: split on commas, trim, parse each item as an
address when possible, lower-case everything. -/
def splitRecipients (input : String) : List String :=
  (goSplit input ',').filterMap (fun part =>
    let part := goTrim part
    if part = "" then none
    else
      match parseAddressModel part with
      | some addr => if addr ≠ "" then some (lowerStr addr) else some (lowerStr part)
      | none => some (lowerStr part))

/-- policy.go collectRecipients over the to, cc and bcc keys. -/
def collectRecipients (params : Params) : Option (List String) :=
  let recipients := (["to", "cc", "bcc"].map (fun key =>
    match lookupP params key with
    | some (Json.str s) => splitRecipients s
    | some (Json.arr items) =>
        items.flatMap (fun item =>
          match item with
          | Json.str s => splitRecipients s
          | _ => [])
    | _ => [])).flatten
  if recipients = [] then none else some recipients

/-- policy.go recipientsAllowed: every recipient must be in the lowered,
trimmed allow list. -/
def recipientsAllowed (recipients : List String) (allowed : List String) : Bool :=
  let allowedSet := ((allowed.map (fun a => lowerStr (goTrim a))).filter (fun a => a ≠ ""))
  recipients.all (fun rcpt => allowedSet.contains (lowerStr rcpt))

/-- Policy.draftSendReason: the first applicable of policy,
recipients_missing, recipient_not_allowed, else the empty string. -/
def draftSendReason (p : Policy) (params : Params) : String :=
  match p.gmail with
  | none => ""
  | some g =>
      if g.draftOnly then "policy"
      else if g.allowedSendRecipients = [] then ""
      else
        match collectRecipients params with
        | none => "recipients_missing"
        | some recipients =>
            if recipientsAllowed recipients g.allowedSendRecipients then ""
            else "recipient_not_allowed"

/-- Policy.DraftSendRequired. -/
def draftSendRequired (p : Policy) (params : Params) : Bool :=
  draftSendReason p params ≠ ""

/-- Policy.rewriteGmailSend. -/
def rewriteGmailSend (p : Policy) (params : Params) (warnings : List String) :
    Except String (Params × List String) :=
  match p.gmail with
  | none => Except.error "gmail policy missing"
  | some g =>
      if hasKey params "track" then Except.error "tracking is not allowed"
      else if hasKey params "track_split" then Except.error "tracking is not allowed"
      else if hasKey params "reply_all" then Except.error "reply_all is not allowed"
      else if hasKey params "thread_id" ∧ g.draftOnly then
        Except.error "thread_id is not supported in draft_only mode"
      else if hasKey params "attach" ∧ ¬ g.allowAttachments then
        Except.error "attachments are not allowed"
      else
        let reason := draftSendReason p params
        if reason ≠ "" then Except.ok (params, warnings ++ ["draft_only:" ++ reason])
        else Except.ok (params, warnings)

/-- Policy.rewriteGmailDraftCreate. -/
def rewriteGmailDraftCreate (p : Policy) (params : Params) (warnings : List String) :
    Except String (Params × List String) :=
  match p.gmail with
  | none => Except.error "gmail policy missing"
  | some g =>
      if hasKey params "track" then Except.error "tracking is not allowed"
      else if hasKey params "track_split" then Except.error "tracking is not allowed"
      else if hasKey params "reply_all" then Except.error "reply_all is not allowed"
      else if hasKey params "thread_id" then
        Except.error "thread_id is not supported for draft creation"
      else if hasKey params "attach" ∧ ¬ g.allowAttachments then
        Except.error "attachments are not allowed"
      else Except.ok (params, warnings)

/-- Policy.rewriteGmailLabelsGet.  The Go code dereferences p.Gmail without a
nil check; on a nil gmail policy it would panic, which the embedding records
as an error (validated policies never reach that state). -/
def rewriteGmailLabelsGet (p : Policy) (params : Params) (warnings : List String) :
    Except String (Params × List String) :=
  match getStringAny params ["label", "label_id", "id"] with
  | none => Except.error "params.label is required"
  | some label0 =>
      if goTrim label0 = "" then Except.error "params.label is required"
      else
        let label := goTrim label0
        match p.gmail with
        | none => Except.error "nil pointer dereference"
        | some g =>
            match validateLabels p [label] g.allowedReadLabels "read" true with
            | Except.error e => Except.error e
            | Except.ok _ => Except.ok (setP params "label" (Json.str label), warnings)

/-- Policy.rewriteGmailThreadModify (same nil-panic convention as above). -/
def rewriteGmailThreadModify (p : Policy) (params : Params) (warnings : List String) :
    Except String (Params × List String) :=
  let threadIDOpt :=
    match getStringAny params ["thread_id", "id"] with
    | some tid => if goTrim tid = "" then none else some tid
    | none => none
  match threadIDOpt with
  | none => Except.error "params.thread_id is required"
  | some threadID =>
      let addLabels := (getStringSlice params "add").getD []
      let removeLabels := (getStringSlice params "remove").getD []
      if addLabels = [] ∧ removeLabels = [] then
        Except.error "params.add or params.remove is required"
      else
        match p.gmail with
        | none => Except.error "nil pointer dereference"
        | some g =>
            match validateLabels p addLabels g.allowedAddLabels "add" false with
            | Except.error e => Except.error e
            | Except.ok _ =>
                match validateLabels p removeLabels g.allowedRemoveLabels "remove" false with
                | Except.error e => Except.error e
                | Except.ok _ =>
                    let p1 := setP params "thread_id" (Json.str (goTrim threadID))
                    let p2 := if addLabels ≠ [] then setP p1 "add" (Json.str (goJoin addLabels ",")) else p1
                    let p3 := if removeLabels ≠ [] then setP p2 "remove" (Json.str (goJoin removeLabels ",")) else p2
                    Except.ok (p3, warnings)

/-- Policy.rewriteGmailLabelsModify (same nil-panic convention as above).
The Go code stores the thread id list as a typed string slice, which the
upstream adapter later rejects; the embedding stores a JSON array of
strings. -/
def rewriteGmailLabelsModify (p : Policy) (params : Params) (warnings : List String) :
    Except String (Params × List String) :=
  let threadIDs :=
    match getStringSlice params "thread_ids" with
    | some ids => ids
    | none =>
        match getStringAny params ["thread_id", "id"] with
        | some tid => [tid]
        | none => []
  if threadIDs = [] then Except.error "params.thread_ids is required"
  else
    let addLabels := (getStringSlice params "add").getD []
    let removeLabels := (getStringSlice params "remove").getD []
    if addLabels = [] ∧ removeLabels = [] then
      Except.error "params.add or params.remove is required"
    else
      match p.gmail with
      | none => Except.error "nil pointer dereference"
      | some g =>
          match validateLabels p addLabels g.allowedAddLabels "add" false with
          | Except.error e => Except.error e
          | Except.ok _ =>
              match validateLabels p removeLabels g.allowedRemoveLabels "remove" false with
              | Except.error e => Except.error e
              | Except.ok _ =>
                  let p1 := setP params "thread_ids" (Json.arr (threadIDs.map Json.str))
                  let p2 := if addLabels ≠ [] then setP p1 "add" (Json.str (goJoin addLabels ",")) else p1
                  let p3 := if removeLabels ≠ [] then setP p2 "remove" (Json.str (goJoin removeLabels ",")) else p2
                  Except.ok (p3, warnings)

/-! ## Calendar time range (policy.go resolveCalendarRange) -/

/-- policy.go parseAbsoluteTime, modelled for the RFC 3339 Zulu form
YYYY-MM-DDTHH:MM:SSZ and returning nanoseconds since the Unix epoch; other
layouts that the Go code accepts fall outside the inputs this development
reasons about and are reported as unparsed. -/
def parseAbsoluteTime (s : String) : Option Int :=
  let cs := goTrimList s.toList
  match takeExactDigits 4 cs with
  | some (ys, '-' :: r1) =>
      (match takeExactDigits 2 r1 with
       | some (ms, '-' :: r2) =>
           (match takeExactDigits 2 r2 with
            | some (ds, 'T' :: r3) =>
                (match takeExactDigits 2 r3 with
                 | some (hs, ':' :: r4) =>
                     (match takeExactDigits 2 r4 with
                      | some (mins, ':' :: r5) =>
                          (match takeExactDigits 2 r5 with
                           | some (ss, ['Z']) =>
                               let y := digitsToNat ys
                               let mo := digitsToNat ms
                               let d := digitsToNat ds
                               let h := digitsToNat hs
                               let mi := digitsToNat mins
                               let sec := digitsToNat ss
                               if validDate y mo d ∧ h ≤ 23 ∧ mi ≤ 59 ∧ sec ≤ 59 then
                                 some (dateNs (Date.mk y mo d) +
                                   ((h * 3600 + mi * 60 + sec : Nat) : Int) * 1000000000)
                               else none
                           | _ => none)
                      | _ => none)
                 | _ => none)
            | _ => none)
       | _ => none)
  | _ => none

/-- policy.go cleanupTimeParams calls itself unconditionally; the embedding
makes the recursion explicit through fuel, and exhausted fuel stands for
non-termination. -/
def cleanupTimeParams : Nat → Params → Option Params
  | 0, _ => none
  | fuel + 1, params => cleanupTimeParams fuel params

/-- The flags record read from params by resolveCalendarRange. -/
structure TimeFlags where
  from_ : String
  to_ : String
  today : Bool
  tomorrow : Bool
  week : Bool
  days : Int
  weekStart : String
  deriving Repr

/-- How a run of Policy.resolveCalendarRange ends in the embedding.  The
zone-provider branch (relative dates) is represented by needsZone, carrying
the params and flags it would hand to the timerange resolver; the claims
this development settles never enter it. -/
inductive CalResolve where
  | diverged : CalResolve
  | failed : String → CalResolve
  | fast : Params → CalResolve
  | needsZone : TimeFlags → Params → CalResolve
  deriving Repr

/-- Policy.resolveCalendarRange up to the zone-provider call, fuel feeding
the cleanupTimeParams recursion on the absolute-times path. -/
def resolveCalendarRange (p : Policy) (fuel : Nat) (params : Params)
    (require : Bool) : CalResolve :=
  match p.calendar with
  | none => CalResolve.failed "calendar policy missing"
  | some cal =>
      let flags : TimeFlags :=
        { from_ := (getStringAny params ["time_min", "from"]).getD ""
          to_ := (getStringAny params ["time_max", "to"]).getD ""
          today := (getBool params "today").getD false
          tomorrow := (getBool params "tomorrow").getD false
          week := (getBool params "week").getD false
          days := (getInt params "days").getD 0
          weekStart := (getString params "week_start").getD "" }
      let hasTimeFlags := flags.from_ ≠ "" ∨ flags.to_ ≠ "" ∨ flags.today ∨
        flags.tomorrow ∨ flags.week ∨ 0 < flags.days
      if require ∧ ¬ hasTimeFlags then
        CalResolve.failed "params.time_min and params.time_max are required"
      else
        let needsTZ := flags.today ∨ flags.tomorrow ∨ flags.week ∨ 0 < flags.days ∨
          flags.from_ = "" ∨ flags.to_ = ""
        if needsTZ then CalResolve.needsZone flags params
        else
          match parseAbsoluteTime flags.from_ with
          | none => CalResolve.needsZone flags params
          | some fromAbs =>
              match parseAbsoluteTime flags.to_ with
              | none => CalResolve.needsZone flags params
              | some toAbs =>
                  if toAbs < fromAbs then
                    CalResolve.failed "params.time_max must be after time_min"
                  else if 0 < cal.maxDays ∧ cal.maxDays * nsPerDay < toAbs - fromAbs then
                    CalResolve.failed "calendar range exceeds max_days"
                  else
                    let p1 := setP params "time_min" (Json.str flags.from_)
                    let p2 := setP p1 "time_max" (Json.str flags.to_)
                    match cleanupTimeParams fuel p2 with
                    | none => CalResolve.diverged
                    | some p3 => CalResolve.fast p3

/-- Policy.rewriteCalendarEvents, with the same embedding of termination as
resolveCalendarRange; Option none stands for non-termination. -/
def rewriteCalendarEvents (p : Policy) (fuel : Nat) (params : Params)
    (warnings : List String) : Option (Except String (Params × List String)) :=
  match getString params "calendar_id" with
  | none => some (Except.error "params.calendar_id is required")
  | some cal =>
      let denied : Bool :=
        match p.calendar with
        | some c => decide (c.allowedCalendars ≠ []) && ! stringInSlice cal c.allowedCalendars
        | none => false
      if denied then some (Except.error "calendar_id is not allowed")
      else
        match resolveCalendarRange p fuel params false with
        | CalResolve.diverged => none
        | CalResolve.failed e => some (Except.error e)
        | CalResolve.fast p3 => some (Except.ok (p3, warnings))
        | CalResolve.needsZone _ p3 => some (Except.ok (p3, warnings))

/-- Policy.rewriteCalendarFreeBusy, with the same conventions. -/
def rewriteCalendarFreeBusy (p : Policy) (fuel : Nat) (params : Params)
    (warnings : List String) : Option (Except String (Params × List String)) :=
  match resolveCalendarRange p fuel params true with
  | CalResolve.diverged => none
  | CalResolve.failed e => some (Except.error e)
  | CalResolve.fast p3 => resolveFreeBusyTail p p3 warnings
  | CalResolve.needsZone _ p3 => resolveFreeBusyTail p p3 warnings
where
  resolveFreeBusyTail (p : Policy) (p3 : Params) (warnings : List String) :
      Option (Except String (Params × List String)) :=
    match getStringSlice p3 "calendar_ids" with
    | none => some (Except.error "params.calendar_ids is required")
    | some calIDs =>
        let denied : Bool :=
          match p.calendar with
          | some c => decide (c.allowedCalendars ≠ []) &&
              calIDs.any (fun id => ! stringInSlice id c.allowedCalendars)
          | none => false
        if denied then some (Except.error "calendar_ids contains disallowed calendar")
        else some (Except.ok (p3, warnings))

/-- Policy.ValidateAndRewrite: the action dispatch.  Option none stands for
non-termination (reachable only through the calendar paths); limitNs is the
after-clause cutoff instant described at rewriteGmailQuery. -/
def validateAndRewrite (p : Policy) (limitNs : Int) (fuel : Nat) (action : String)
    (params : Params) : Option (Except String (Params × List String)) :=
  let warnings : List String := []
  match action with
  | "gmail.search" => some (rewriteGmailQuery p limitNs params warnings)
  | "gmail.thread.list" => some (rewriteGmailQuery p limitNs params warnings)
  | "gmail.thread.get" => some (rewriteGmailThreadGet params warnings)
  | "gmail.thread.modify" => some (rewriteGmailThreadModify p params warnings)
  | "gmail.get" => some (rewriteGmailGet params warnings)
  | "gmail.send" => some (rewriteGmailSend p params warnings)
  | "gmail.drafts.create" => some (rewriteGmailDraftCreate p params warnings)
  | "gmail.labels.list" => some (Except.ok (params, warnings))
  | "gmail.labels.get" => some (rewriteGmailLabelsGet p params warnings)
  | "gmail.labels.modify" => some (rewriteGmailLabelsModify p params warnings)
  | "calendar.list" => some (Except.ok (params, warnings))
  | "calendar.events" => rewriteCalendarEvents p fuel params warnings
  | "calendar.freebusy" => rewriteCalendarFreeBusy p fuel params warnings
  | "policy.actions" =>
      if params.isEmpty then some (Except.ok (params, warnings))
      else some (Except.error "params must be empty")
  | _ => some (Except.error ("unsupported action: " ++ action))

/-! ## Upstream adapter (internal/gog) -/

/-- gog.ActionSpec: base command words, ordered positional keys, single-value
flags and repeated multi-value flags.  The two flag tables are Go maps; the
embedding lists them in source order, which only fixes the argument order
that Go leaves to map iteration. -/
structure ActionSpec where
  command : List String
  positional : List String
  paramFlags : List (String × String)
  multiValueFlag : List (String × String)
  deriving Repr

/-- The actionSpecs table of gog. -/
def actionSpecs (action : String) : Option ActionSpec :=
  match action with
  | "gmail.search" =>
      some { command := ["gmail", "search"], positional := ["query"],
             paramFlags := [("max", "--max"), ("page", "--page"), ("oldest", "--oldest")],
             multiValueFlag := [] }
  | "gmail.thread.list" =>
      some { command := ["gmail", "search"], positional := ["query"],
             paramFlags := [("max", "--max"), ("page", "--page"), ("oldest", "--oldest")],
             multiValueFlag := [] }
  | "gmail.thread.get" =>
      some { command := ["gmail", "thread", "get"], positional := ["thread_id"],
             paramFlags := [], multiValueFlag := [] }
  | "gmail.thread.modify" =>
      some { command := ["gmail", "thread", "modify"], positional := ["thread_id"],
             paramFlags := [("add", "--add"), ("remove", "--remove")], multiValueFlag := [] }
  | "gmail.get" =>
      some { command := ["gmail", "get"], positional := ["message_id"],
             paramFlags := [("format", "--format"), ("headers", "--headers")],
             multiValueFlag := [] }
  | "gmail.send" =>
      some { command := ["gmail", "send"], positional := [],
             paramFlags := [("to", "--to"), ("cc", "--cc"), ("bcc", "--bcc"),
               ("subject", "--subject"), ("body", "--body"), ("body_html", "--body-html"),
               ("reply_to_message_id", "--reply-to-message-id"), ("thread_id", "--thread-id"),
               ("reply_all", "--reply-all"), ("reply_to", "--reply-to"), ("from", "--from"),
               ("track", "--track"), ("track_split", "--track-split")],
             multiValueFlag := [("attach", "--attach")] }
  | "gmail.drafts.create" =>
      some { command := ["gmail", "drafts", "create"], positional := [],
             paramFlags := [("to", "--to"), ("cc", "--cc"), ("bcc", "--bcc"),
               ("subject", "--subject"), ("body", "--body"), ("body_html", "--body-html"),
               ("reply_to_message_id", "--reply-to-message-id"), ("reply_to", "--reply-to"),
               ("from", "--from")],
             multiValueFlag := [("attach", "--attach")] }
  | "gmail.labels.list" =>
      some { command := ["gmail", "labels", "list"], positional := [],
             paramFlags := [], multiValueFlag := [] }
  | "gmail.labels.get" =>
      some { command := ["gmail", "labels", "get"], positional := ["label"],
             paramFlags := [], multiValueFlag := [] }
  | "gmail.labels.modify" =>
      some { command := ["gmail", "labels", "modify"], positional := ["thread_ids"],
             paramFlags := [("add", "--add"), ("remove", "--remove")], multiValueFlag := [] }
  | "calendar.list" =>
      some { command := ["calendar", "calendars"], positional := [],
             paramFlags := [("max", "--max"), ("page", "--page")], multiValueFlag := [] }
  | "calendar.events" =>
      some { command := ["calendar", "events"], positional := ["calendar_id"],
             paramFlags := [("time_min", "--from"), ("time_max", "--to"), ("max", "--max"),
               ("page", "--page"), ("query", "--query")],
             multiValueFlag := [] }
  | "calendar.freebusy" =>
      some { command := ["calendar", "freebusy"], positional := ["calendar_ids"],
             paramFlags := [("time_min", "--from"), ("time_max", "--to")],
             multiValueFlag := [] }
  | _ => none

mutual

/-- gog normalizeValue: strings pass through, numbers print as integers,
booleans print as words, arrays concatenate their normalized elements, and
any other type is fatal. -/
def normalizeValue (val : Json) : Except String (List String) :=
  match val with
  | Json.str s => Except.ok [s]
  | Json.num n => Except.ok [intToStr n]
  | Json.b v => Except.ok (if v then ["true"] else ["false"])
  | Json.arr items => normalizeList items
  | _ => Except.error "unsupported value type"

def normalizeList (items : List Json) : Except String (List String) :=
  match items with
  | [] => Except.ok []
  | item :: rest =>
      match normalizeValue item with
      | Except.error e => Except.error e
      | Except.ok vals =>
          match normalizeList rest with
          | Except.error e => Except.error e
          | Except.ok out => Except.ok (vals ++ out)

end

/-- gog normalizePositional: like normalizeValue, but an empty result is
fatal and calendar_ids joins into one comma-separated argument. -/
def normalizePositional (key : String) (val : Json) : Except String (List String) :=
  match normalizeValue val with
  | Except.error e => Except.error e
  | Except.ok vals =>
      if vals = [] then Except.error "empty value"
      else if key = "calendar_ids" then Except.ok [goJoin vals ","]
      else Except.ok vals

/-- The positional loop of gog buildArgs: args so far and seen keys. -/
def buildPositional (positional : List String) (params : Params) :
    Except String (List String × List String) :=
  match positional with
  | [] => Except.ok ([], [])
  | key :: rest =>
      match lookupP params key with
      | none => Except.error ("missing required param: " ++ key)
      | some val =>
          match normalizePositional key val with
          | Except.error e => Except.error ("param " ++ key ++ ": " ++ e)
          | Except.ok argVals =>
              match buildPositional rest params with
              | Except.error e => Except.error e
              | Except.ok (args, seen) => Except.ok (argVals ++ args, key :: seen)

/-- The single-value-flag loop of gog buildArgs: a boolean true appends the
bare flag, a boolean false appends nothing, anything else appends the flag
and the first normalized value; a value normalizing to nothing is skipped
without being marked seen. -/
def buildFlags (flags : List (String × String)) (params : Params) :
    Except String (List String × List String) :=
  match flags with
  | [] => Except.ok ([], [])
  | (key, flag) :: rest =>
      match lookupP params key with
      | none => buildFlags rest params
      | some val =>
          let here : Except String (List String × List String) :=
            match val with
            | Json.b true => Except.ok ([flag], [key])
            | Json.b false => Except.ok ([], [key])
            | _ =>
                match normalizeValue val with
                | Except.error e => Except.error ("param " ++ key ++ ": " ++ e)
                | Except.ok [] => Except.ok ([], [])
                | Except.ok (v :: _) => Except.ok ([flag, v], [key])
          match here with
          | Except.error e => Except.error e
          | Except.ok (args1, seen1) =>
              match buildFlags rest params with
              | Except.error e => Except.error e
              | Except.ok (args2, seen2) => Except.ok (args1 ++ args2, seen1 ++ seen2)

/-- The multi-value-flag loop of gog buildArgs. -/
def buildMulti (flags : List (String × String)) (params : Params) :
    Except String (List String × List String) :=
  match flags with
  | [] => Except.ok ([], [])
  | (key, flag) :: rest =>
      match lookupP params key with
      | none => buildMulti rest params
      | some val =>
          match normalizeValue val with
          | Except.error e => Except.error ("param " ++ key ++ ": " ++ e)
          | Except.ok vals =>
              match buildMulti rest params with
              | Except.error e => Except.error e
              | Except.ok (args2, seen2) =>
                  Except.ok (vals.flatMap (fun v => [flag, v]) ++ args2, key :: seen2)

/-- Insertion sort on strings, modelling sort.Strings for the error text. -/
def insertSorted (s : String) (l : List String) : List String :=
  match l with
  | [] => [s]
  | x :: rest => if s ≤ x then s :: x :: rest else x :: insertSorted s rest

def sortStrings (l : List String) : List String :=
  l.foldr insertSorted []

/-- gog buildArgs: positionals in order, then single-value flags, then
multi-value flags, then rejection of any key outside the spec tables. -/
def buildArgs (spec : ActionSpec) (params : Params) : Except String (List String) :=
  match buildPositional spec.positional params with
  | Except.error e => Except.error e
  | Except.ok (posArgs, posSeen) =>
      match buildFlags spec.paramFlags params with
      | Except.error e => Except.error e
      | Except.ok (flagArgs, flagSeen) =>
          match buildMulti spec.multiValueFlag params with
          | Except.error e => Except.error e
          | Except.ok (multiArgs, multiSeen) =>
              let seen := posSeen ++ flagSeen ++ multiSeen
              let unknown := (params.map Prod.fst).filter (fun key =>
                ! (seen.contains key || (spec.paramFlags.map Prod.fst).contains key ||
                   (spec.multiValueFlag.map Prod.fst).contains key))
              if unknown = [] then Except.ok (posArgs ++ flagArgs ++ multiArgs)
              else Except.error ("unknown params: " ++ goJoin (sortStrings unknown) ", ")

/-- One recorded subprocess invocation: the account the runner was bound to,
the action and the spec-built argument list. -/
structure Invocation where
  account : String
  action : String
  args : List String
  deriving Repr

/-- The oracle standing for the gog subprocess: what parsed JSON (or which
error) the upstream answers for a given account, action and argument list. -/
abbrev GogOracle := String → String → List String → Except String Json

/-- GogRunner.Run: spec lookup, argument construction, then the subprocess.
The returned list records the subprocess invocations that actually ran;
argument-construction failures spawn nothing. -/
def runGog (oracle : GogOracle) (account : String) (action : String)
    (params : Params) : Except String Json × List Invocation :=
  match actionSpecs action with
  | none => (Except.error ("no command mapping for action: " ++ action), [])
  | some spec =>
      match buildArgs spec params with
      | Except.error e => (Except.error e, [])
      | Except.ok args =>
          (oracle account action args, [Invocation.mk account action args])

/-! ## Redactor (internal/redact/redact.go)

urlRe is https or http, colon-slash-slash, one or more non-space characters
(case sensitive, with the \S class of the Go regexp package); emailRe is a
nonempty run of local-part characters, an at sign, and a domain of
domain-part characters containing a dot followed by at least two letters
(case insensitive).  Both replacements scan left to right for the leftmost
match, exactly like regexp ReplaceAll; the embeddings below are explicit
scanners with those semantics. -/

/-- The \s class of the Go regexp package (space, tab, newline, form feed,
carriage return). -/
def reSpace (c : Char) : Bool :=
  c = ' ' ∨ c = '\t' ∨ c = '\n' ∨ c = '\x0c' ∨ c = '\r'

def redactedList : List Char := "[redacted]".toList

/-- Length of the url literal at the head, if present. -/
def urlLitLen (cs : List Char) : Option Nat :=
  if ['h', 't', 't', 'p', 's', ':', '/', '/'].isPrefixOf cs then some 8
  else if ['h', 't', 't', 'p', ':', '/', '/'].isPrefixOf cs then some 7
  else none

/-- Whether a urlRe match starts at the head: the literal followed by at
least one non-space character. -/
def isUrlStart (cs : List Char) : Bool :=
  match urlLitLen cs with
  | some n =>
      match cs.drop n with
      | c :: _ => ! reSpace c
      | [] => false
  | none => false

/-- Scanner state for the url replacement: copying, silently dropping the
remaining literal characters of a match, or consuming the non-space run of
a match. -/
inductive UrlMode where
  | copy : UrlMode
  | dropRem : Nat → UrlMode
  | run : UrlMode
  deriving Repr

/-- Left-to-right replacement of every urlRe match by the redaction marker
(model of urlRe.ReplaceAllString with replacement text). -/
def replaceUrlsGo : UrlMode → List Char → List Char
  | _, [] => []
  | UrlMode.dropRem m, _ :: cs =>
      if m ≤ 1 then replaceUrlsGo UrlMode.run cs else replaceUrlsGo (UrlMode.dropRem (m - 1)) cs
  | UrlMode.run, c :: cs =>
      if reSpace c then c :: replaceUrlsGo UrlMode.copy cs else replaceUrlsGo UrlMode.run cs
  | UrlMode.copy, c :: cs =>
      if isUrlStart (c :: cs) then
        redactedList ++ replaceUrlsGo (UrlMode.dropRem ((urlLitLen (c :: cs)).getD 7 - 1)) cs
      else c :: replaceUrlsGo UrlMode.copy cs

def replaceUrls (s : String) : String :=
  (replaceUrlsGo UrlMode.copy s.toList).asString

/-- The local-part character class of emailRe. -/
def isLocalChar (c : Char) : Bool :=
  isDigitChar c ∨ ('a' ≤ lowerChar c ∧ lowerChar c ≤ 'z') ∨
  c = '.' ∨ c = '_' ∨ c = '%' ∨ c = '+' ∨ c = '-'

/-- The domain-part character class of emailRe. -/
def isDomChar (c : Char) : Bool :=
  isDigitChar c ∨ ('a' ≤ lowerChar c ∧ lowerChar c ≤ 'z') ∨ c = '.' ∨ c = '-'

def isLetterChar (c : Char) : Bool :=
  'a' ≤ lowerChar c ∧ lowerChar c ≤ 'z'

/-- Length of the letter run of D starting at index i. -/
def letterRunFrom (D : List Char) (i : Nat) : Nat :=
  ((D.drop i).takeWhile isLetterChar).length

/-- Largest split of the maximal domain run D into a nonempty first part, a
dot and at least two letters, as the greedy backtracking of emailRe finds
it; returns the length of the matched domain. -/
def domSplitAux (D : List Char) : Nat → Option Nat
  | 0 => none
  | i + 1 =>
      if D.get? (i + 1) = some '.' ∧ 2 ≤ letterRunFrom D (i + 2) then
        some (i + 2 + letterRunFrom D (i + 2))
      else domSplitAux D i

def domainMatchLen (D : List Char) : Option Nat :=
  domSplitAux D (D.length - 1)

/-- An emailRe match at the head: the match length and the matched domain. -/
def emailMatchAt (cs : List Char) : Option (Nat × String) :=
  let locals := cs.takeWhile isLocalChar
  if locals = [] then none
  else
    match cs.drop locals.length with
    | '@' :: rest =>
        let D := rest.takeWhile isDomChar
        match domainMatchLen D with
        | some dl => some (locals.length + 1 + dl, (D.take dl).asString)
        | none => none
    | _ => none

/-- Left-to-right emailRe replacement with the keep-or-redact callback of
maskEmails; fuel at least the length of the input guarantees completion. -/
def maskEmailsFuel : Nat → List String → List Char → List Char
  | 0, _, cs => cs
  | _ + 1, _, [] => []
  | fuel + 1, allowed, c :: cs =>
      match emailMatchAt (c :: cs) with
      | some (len, domain) =>
          let repl := if allowed.contains (lowerStr domain) then (c :: cs).take len else redactedList
          repl ++ maskEmailsFuel fuel allowed ((c :: cs).drop len)
      | none => c :: maskEmailsFuel fuel allowed cs

/-- redact.go maskEmails: the allow set lower-cases each domain after
removing a leading at sign. -/
def maskEmails (s : String) (allowedDomains : List String) : String :=
  let allowed := allowedDomains.map (fun d => lowerStr (goTrimPrefix d "@"))
  (maskEmailsFuel s.toList.length allowed s.toList).asString

/-- redact.go sanitizeString: url removal under the gmail links switch, then
email masking under allowed_senders, then url removal again under the
calendar details switch. -/
def sanitizeString (input : String) (pol : Policy) : String :=
  let o1 :=
    match pol.gmail with
    | some g => if g.allowLinks then input else replaceUrls input
    | none => input
  let o2 :=
    match pol.gmail with
    | some g => if g.allowedSenders ≠ [] then maskEmails o1 g.allowedSenders else o1
    | none => o1
  match pol.calendar with
  | some c => if c.allowDetails then o2 else replaceUrls o2
  | none => o2

def alwaysDropKeys : List String := ["attachment", "attachments"]

def snippetKeys : List String := ["snippetHtml", "snippet_html"]

def bodyKeys : List String := ["body", "payload", "parts", "raw", "html", "htmlbody", "mime", "mimeType"]

def calendarDetailKeys : List String := ["hangoutLink", "conferenceData", "location", "description", "htmlLink"]

/-- redact.go shouldDropKey. -/
def shouldDropKey (key : String) (pol : Policy) : Bool :=
  alwaysDropKeys.contains key || snippetKeys.contains key ||
  (match pol.gmail with
   | some g => ! g.allowBody && bodyKeys.contains key
   | none => false) ||
  (match pol.calendar with
   | some c => ! c.allowDetails && calendarDetailKeys.contains key
   | none => false)

mutual

/-- redact.go redactAny.  The Go function also returns an error value but no
code path produces one; the embedding therefore returns the cleaned value
and the warnings.  Go iterates objects in map order; the embedding iterates
them in field order, which fixes only the order of the warnings. -/
def redactJson (j : Json) (pol : Policy) : Json × List String :=
  match j with
  | Json.obj fs =>
      let (fs2, w) := redactFields fs pol
      (Json.obj fs2, w)
  | Json.arr xs =>
      let (xs2, w) := redactList xs pol
      (Json.arr xs2, w)
  | Json.str s =>
      let clean := sanitizeString s pol
      if clean ≠ s then (Json.str clean, ["redacted:string"]) else (Json.str s, [])
  | x => (x, [])

def redactList (xs : List Json) (pol : Policy) : List Json × List String :=
  match xs with
  | [] => ([], [])
  | x :: rest =>
      let (x2, w1) := redactJson x pol
      let (r2, w2) := redactList rest pol
      (x2 :: r2, w1 ++ w2)

def redactFields (fs : List (String × Json)) (pol : Policy) :
    List (String × Json) × List String :=
  match fs with
  | [] => ([], [])
  | (k, v) :: rest =>
      if shouldDropKey k pol then
        let (r2, w2) := redactFields rest pol
        (r2, ("redacted:" ++ k) :: w2)
      else
        let (v2, w1) := redactJson v pol
        let (r2, w2) := redactFields rest pol
        ((k, v2) :: r2, w1 ++ w2)

end

/-- The case-folded key comparison of hasAllowedLabelIDs. -/
def labelKeyFold (k : String) : Bool :=
  eqFold k "labelIds" || eqFold k "label_ids"

/-- The string elements of a JSON array. -/
def stringsOf (items : List Json) : List String :=
  items.filterMap (fun x =>
    match x with
    | Json.str s => some s
    | _ => none)

mutual

/-- redact.go hasAllowedLabelIDs over a value; set is the lowered allow
list the Go code rebuilds at each call.  First component: some labelIds or
label_ids array of strings was found; second: its scan hit the allow
list. -/
def hasAllowedJson (set : List String) (v : Json) : Bool × Bool :=
  match v with
  | Json.obj fs => hasAllowedFields set fs
  | Json.arr items => hasAllowedItems set items
  | _ => (false, false)

def hasAllowedFields (set : List String) (fs : List (String × Json)) : Bool × Bool :=
  match fs with
  | [] => (false, false)
  | (k, item) :: rest =>
      let keyHit : Option (Bool × Bool) :=
        if labelKeyFold k then
          match item with
          | Json.arr items =>
              let strs := stringsOf items
              if strs.any (fun s => set.contains (lowerStr s)) then some (true, true)
              else if strs ≠ [] then some (true, false)
              else none
          | _ => none
        else none
      match keyHit with
      | some r => r
      | none =>
          match hasAllowedJson set item with
          | (true, ok) => (true, ok)
          | (false, _) => hasAllowedFields set rest

def hasAllowedItems (set : List String) (items : List Json) : Bool × Bool :=
  match items with
  | [] => (false, false)
  | item :: rest =>
      match hasAllowedJson set item with
      | (true, ok) => (true, ok)
      | (false, _) => hasAllowedItems set rest

end

/-- redact.go hasAllowedLabelIDs. -/
def hasAllowedLabelIDs (val : Json) (allowed : List String) : Bool × Bool :=
  hasAllowedJson (allowed.map lowerStr) val

/-- redact.go coerceStringList: string elements of an array, trimmed, with
empties dropped. -/
def coerceStringList (val : Json) : List String :=
  match val with
  | Json.arr items =>
      (items.filterMap (fun item =>
        match item with
        | Json.str s => some (goTrim s)
        | _ => none)).filter (fun s => s ≠ "")
  | _ => []

/-- redact.go extractLabels: the first of the keys labels, labelIds,
label_ids whose value coerces to a nonempty string list. -/
def extractLabels (item : Json) : List String :=
  match item with
  | Json.obj fs =>
      let tryKey := fun (key : String) =>
        match lookupP fs key with
        | some val => coerceStringList val
        | none => []
      let l1 := tryKey "labels"
      if l1 ≠ [] then l1
      else
        let l2 := tryKey "labelIds"
        if l2 ≠ [] then l2 else tryKey "label_ids"
  | _ => []

/-- redact.go allowedLabelForItem: the item labels, case-insensitively,
against the allow list extended with the mapped display names. -/
def allowedLabelForItem (item : Json) (allowed : List String) (pol : Policy) : Bool :=
  let labels := extractLabels item
  if labels = [] then false
  else
    let allowedSet := (allowed.map goTrim).filter (fun l => l ≠ "") |>.flatMap (fun label =>
      lowerStr label ::
        (match labelNameForID pol label with
         | some name => [lowerStr name]
         | none => []))
    labels.any (fun label => allowedSet.contains (lowerStr label))

/-- redact.go filterSearchResults. -/
def filterSearchResults (data : Json) (allowed : List String) (pol : Policy) :
    Json × List String :=
  if allowed = [] then (data, [])
  else
    match data with
    | Json.obj root =>
        (match lookupP root "threads" with
         | some (Json.arr items) =>
             let filtered := items.filter (fun item => allowedLabelForItem item allowed pol)
             if filtered.length ≠ items.length then
               (Json.obj (setP root "threads" (Json.arr filtered)), ["filtered:labels"])
             else (Json.obj root, [])
         | _ => (Json.obj root, []))
    | _ => (data, [])

/-- redact.go filterLabelsList. -/
def filterLabelsList (data : Json) (allowed : List String) : Json × List String :=
  if allowed = [] then (data, [])
  else
    let set := ((allowed.map goTrim).filter (fun l => l ≠ "")).map lowerStr
    match data with
    | Json.obj root =>
        (match lookupP root "labels" with
         | some (Json.arr items) =>
             let filtered := items.filter (fun item =>
               match item with
               | Json.obj m =>
                   let id := match lookupP m "id" with | some (Json.str s) => s | _ => ""
                   let name := match lookupP m "name" with | some (Json.str s) => s | _ => ""
                   set.contains (lowerStr id) || set.contains (lowerStr name)
               | _ => false)
             if filtered.length ≠ items.length then
               (Json.obj (setP root "labels" (Json.arr filtered)), ["filtered:labels"])
             else (Json.obj root, [])
         | _ => (Json.obj root, []))
    | _ => (data, [])

/-- redact.go allowedLabelUnion: the deduplicated union of the three label
allow lists, trimmed and lowered. -/
def allowedLabelUnion (g : GmailPolicy) : List String :=
  ((((g.allowedReadLabels ++ g.allowedAddLabels ++ g.allowedRemoveLabels).map goTrim).filter
      (fun v => v ≠ "")).map lowerStr).dedup

/-- redact.go filterCalendarList. -/
def filterCalendarList (data : Json) (allowed : List String) : Json × List String :=
  if allowed = [] then (data, [])
  else
    let set := ((allowed.map goTrim).filter (fun l => l ≠ "")).map lowerStr
    match data with
    | Json.obj root =>
        (match lookupP root "calendars" with
         | some (Json.arr items) =>
             let filtered := items.filter (fun item =>
               match item with
               | Json.obj m =>
                   (match lookupP m "id" with
                    | some (Json.str id) => set.contains (lowerStr id)
                    | _ => false)
               | _ => false)
             if filtered.length ≠ items.length then
               (Json.obj (setP root "calendars" (Json.arr filtered)), ["filtered:calendars"])
             else (Json.obj root, [])
         | _ => (Json.obj root, []))
    | _ => (data, [])

def gmailActions : List String :=
  ["gmail.search", "gmail.thread.list", "gmail.thread.get", "gmail.thread.modify",
   "gmail.get", "gmail.send", "gmail.drafts.create", "gmail.labels.list",
   "gmail.labels.get", "gmail.labels.modify"]

def calendarActions : List String := ["calendar.list", "calendar.events", "calendar.freebusy"]

/-- redact.go Redact: the recursive pass, then the per-action filters and
the allowed-label integrity check. -/
def Redact (action : String) (data : Json) (pol : Policy) :
    Except String (Json × List String) :=
  if gmailActions.contains action then
    match pol.gmail with
    | none => Except.error "gmail policy missing"
    | some g =>
        let (clean, w) := redactJson data pol
        let readAllowed := g.allowedReadLabels
        let labelUnion := allowedLabelUnion g
        if action = "gmail.search" ∨ action = "gmail.thread.list" then
          if readAllowed ≠ [] then
            let (filtered, fw) := filterSearchResults clean readAllowed pol
            Except.ok (filtered, w ++ fw)
          else Except.ok (clean, w)
        else if action = "gmail.labels.list" then
          if labelUnion ≠ [] then
            let (filtered, fw) := filterLabelsList clean labelUnion
            Except.ok (filtered, w ++ fw)
          else Except.ok (clean, w)
        else if action = "gmail.send" ∨ action = "gmail.drafts.create" then
          Except.ok (clean, w)
        else
          if readAllowed ≠ [] then
            match hasAllowedLabelIDs clean readAllowed with
            | (true, false) => Except.error "response does not include allowed labels"
            | _ => Except.ok (clean, w)
          else Except.ok (clean, w)
  else if calendarActions.contains action then
    match pol.calendar with
    | none => Except.error "calendar policy missing"
    | some c =>
        let (clean, w) := redactJson data pol
        if action = "calendar.list" ∧ c.allowedCalendars ≠ [] then
          let (filtered, fw) := filterCalendarList clean c.allowedCalendars
          Except.ok (filtered, w ++ fw)
        else Except.ok (clean, w)
  else Except.ok (data, [])

/-! ## Broker (internal/broker/broker.go, the PolicySet variant) -/

/-- types.Request. -/
structure Request where
  id : String
  action : String
  account : String
  params : Params
  deriving Repr

/-- types.Error. -/
structure ErrorObj where
  code : String
  message : String
  details : String
  deriving Repr

/-- types.Response.  Warnings is the accumulated list; the Go code leaves
the field nil when the list is empty, which the embedding renders as the
empty list. -/
structure Response where
  id : String
  ok : Bool
  data : Option Json
  warnings : List String
  error : Option ErrorObj
  deriving Repr

/-- policy.PolicySet. -/
structure PolicySet where
  defaultAccount : String
  accounts : List (String × Policy)

/-- Account lookup in a policy set. -/
def lookupPol (m : List (String × Policy)) (key : String) : Option Policy :=
  match m with
  | [] => none
  | (k, v) :: rest => if k = key then some v else lookupPol rest key

/-- policy.go normalizeAccount. -/
def normalizeAccount (account : String) : String :=
  lowerStr (goTrim account)

/-- The errors PolicySet.Resolve can return. -/
inductive ResolveErr where
  | accountRequired : ResolveErr
  | accountNotAllowed : ResolveErr
  deriving Repr, DecidableEq

def resolveErrMessage : ResolveErr → String
  | ResolveErr.accountRequired => "account is required"
  | ResolveErr.accountNotAllowed => "account not allowed"

/-- PolicySet.Resolve: normalize, then fall back to the default account, the
broker fallback, or the sole account. -/
def resolveSet (s : PolicySet) (account : String) (fallback : String) :
    Except ResolveErr (Policy × String) :=
  let normalized := normalizeAccount account
  let normalized :=
    if normalized = "" then
      if s.defaultAccount ≠ "" then s.defaultAccount
      else if normalizeAccount fallback ≠ "" then normalizeAccount fallback
      else if s.accounts.length = 1 then
        match s.accounts with
        | (key, _) :: _ => key
        | [] => ""
      else ""
    else normalized
  if normalized = "" then Except.error ResolveErr.accountRequired
  else
    match lookupPol s.accounts normalized with
    | some pol => Except.ok (pol, normalized)
    | none => Except.error ResolveErr.accountNotAllowed

/-- Modelled from the spec: the broker consults a gmail field named
AllowedLabels that is absent from the policy source in this tree; section
4.F of the specification describes the trigger as the policy having any
label allow list non-empty, which is what this predicate captures. -/
def anyLabelAllowlist (g : GmailPolicy) : Bool :=
  g.allowedReadLabels ≠ [] ∨ g.allowedAddLabels ≠ [] ∨ g.allowedRemoveLabels ≠ []

/-- Broker.ensureLabelMap for one request on a fresh broker: run the
upstream labels list, extract the id-name pairs, reject an empty map, and
install the label map on the policy.  Returns the updated policy (or the
latched error) together with the invocations performed. -/
def ensureLabelMap (oracle : GogOracle) (account : String) (pol : Policy) :
    Except String Policy × List Invocation :=
  let (result, trace) := runGog oracle account "gmail.labels.list" []
  match result with
  | Except.error e => (Except.error e, trace)
  | Except.ok data =>
      match data with
      | Json.obj root =>
          (match lookupP root "labels" with
           | none => (Except.error "labels missing", trace)
           | some (Json.arr items) =>
               let idToName := items.foldl (fun m item =>
                 match item with
                 | Json.obj fields =>
                     let id := match lookupP fields "id" with | some (Json.str s) => s | _ => ""
                     let name := match lookupP fields "name" with | some (Json.str s) => s | _ => ""
                     if id ≠ "" ∧ name ≠ "" then setS m id name else m
                 | _ => m) []
               if idToName = [] then (Except.error "labels empty", trace)
               else (Except.ok (setLabelMap pol idToName), trace)
           | some _ => (Except.error "labels invalid", trace))
      | _ => (Except.error "invalid labels response", trace)

/-- A bad-request or error response as Handle builds them. -/
def errResponse (id : String) (code message : String) : Response :=
  Response.mk id false none [] (some (ErrorObj.mk code message ""))

/-- The stages of Broker.Handle that follow account resolution, the action
allow-list gate and the label-map step: rewrite, draft substitution, the
policy.actions shortcut, the upstream run and redaction.  pol1 is the
policy after the label-map step and trace0 the invocations it recorded. -/
def handleCore (oracle : GogOracle) (req : Request) (limitNs : Int) (fuel : Nat)
    (account : String) (pol1 : Policy) (trace0 : List Invocation) :
    Option (Response × List Invocation) :=
  match validateAndRewrite pol1 limitNs fuel req.action req.params with
  | none => none
  | some (Except.error e) =>
      some (errResponse req.id "forbidden" e, trace0)
  | some (Except.ok (params1, warnings1)) =>
      let substitute := req.action = "gmail.send" ∧ draftSendRequired pol1 params1
      let runAction := if substitute then "gmail.drafts.create" else req.action
      let warnings2 :=
        if substitute then warnings1 ++ ["action_rewritten:gmail.drafts.create"]
        else warnings1
      if req.action = "policy.actions" then
        let actions := sortStrings pol1.allowedActions
        let data := Json.obj [("account", Json.str account),
          ("actions", Json.arr (actions.map Json.str))]
        some (Response.mk req.id true (some data) warnings2 none, trace0)
      else
        match runGog oracle account runAction params1 with
        | (Except.error e, trace1) =>
            some (errResponse req.id "upstream_error" e, trace0 ++ trace1)
        | (Except.ok data, trace1) =>
            match Redact req.action data pol1 with
            | Except.error e =>
                some (errResponse req.id "redaction_error" e, trace0 ++ trace1)
            | Except.ok (clean, rw) =>
                some (Response.mk req.id true (some clean) (warnings2 ++ rw) none,
                  trace0 ++ trace1)

/-- Broker.Handle for a single request on a fresh broker.  The limitNs and
fuel parameters feed validateAndRewrite as described there; the outer
Option is none when the rewrite diverges (the calendar cleanup recursion).
The invocation list records every subprocess run during the request,
including the label-map build. -/
def Handle (oracle : GogOracle) (set : PolicySet) (defaultAccount : String)
    (limitNs : Int) (fuel : Nat) (req : Request) :
    Option (Response × List Invocation) :=
  if req.id = "" then some (errResponse "" "bad_request" "id is required", [])
  else if req.action = "" then some (errResponse req.id "bad_request" "action is required", [])
  else
    match resolveSet set req.account defaultAccount with
    | Except.error e =>
        let code := if e = ResolveErr.accountRequired then "bad_request" else "forbidden"
        some (errResponse req.id code (resolveErrMessage e), [])
    | Except.ok (pol, account) =>
        if ¬ isActionAllowed pol req.action then
          some (errResponse req.id "forbidden" "action not allowed", [])
        else
          let gmailHasAllowlist : Bool :=
            match pol.gmail with
            | some g => anyLabelAllowlist g
            | none => false
          let labelStep : Except String Policy × List Invocation :=
            if (req.action = "gmail.search" ∨ req.action = "gmail.thread.list") ∧
               gmailHasAllowlist then
              ensureLabelMap oracle account pol
            else (Except.ok pol, [])
          match labelStep with
          | (Except.error _, trace0) =>
              some (errResponse req.id "upstream_error" "failed to resolve label ids", trace0)
          | (Except.ok pol1, trace0) =>
              handleCore oracle req limitNs fuel account pol1 trace0

mutual

/-- The first labelIds or label_ids array of strings in the traversal order
of hasAllowedLabelIDs, with its string elements; none when the tree has no
such array.  The traversal mirrors hasAllowedJson exactly. -/
def firstLabelJson (v : Json) : Option (List String) :=
  match v with
  | Json.obj fs => firstLabelFields fs
  | Json.arr items => firstLabelItems items
  | _ => none

def firstLabelFields (fs : List (String × Json)) : Option (List String) :=
  match fs with
  | [] => none
  | (k, item) :: rest =>
      let keyHit : Option (List String) :=
        if labelKeyFold k then
          match item with
          | Json.arr items => if stringsOf items ≠ [] then some (stringsOf items) else none
          | _ => none
        else none
      match keyHit with
      | some ss => some ss
      | none =>
          match firstLabelJson item with
          | some ss => some ss
          | none => firstLabelFields rest

def firstLabelItems (items : List Json) : Option (List String) :=
  match items with
  | [] => none
  | item :: rest =>
      match firstLabelJson item with
      | some ss => some ss
      | none => firstLabelItems rest

end

/-- The relation between the url scan output and its input: equal, or equal
up to a first divergence where the output has the bracket of a redaction
marker and the input the h of a url match. -/
def agreeShape (X Y : List Char) : Prop :=
  X = Y ∨ ∃ j, X.take j = Y.take j ∧ X[j]? = some '[' ∧ Y[j]? = some 'h'

/- Cleanliness: a Json tree the redactor leaves unchanged; it characterises
redactJson fixpoints. -/
mutual

def cleanJson (pol : Policy) : Json → Bool
  | Json.obj fs => cleanFields pol fs
  | Json.arr xs => cleanList pol xs
  | Json.str s => sanitizeString s pol == s
  | _ => true

def cleanFields (pol : Policy) : List (String × Json) → Bool
  | [] => true
  | (k, v) :: rest =>
      !shouldDropKey k pol && cleanJson pol v && cleanFields pol rest

def cleanList (pol : Policy) : List Json → Bool
  | [] => true
  | x :: rest => cleanJson pol x && cleanList pol rest

end

/-- The policy of the C9 counterexample: an allowed sender domain that ends
in "http", links allowed, calendar details hidden. -/
def cexPol9 : Policy :=
  Policy.mk []
    (some (GmailPolicy.mk [] [] [] ["ok.iohttp"] [] 0 true true false true))
    (some (CalendarPolicy.mk [] false 0))
    [] []

/-! ## Theorems -/

/-- The cleanup helper never returns, whatever the recursion depth. -/
theorem cleanupTimeParams_none (fuel : Nat) (params : Params) :
    cleanupTimeParams fuel params = none := by
  induction fuel with
  | zero => rfl
  | succ n ih => simpa [cleanupTimeParams] using ih

/-- C8.  The claim says that a calendar.events or calendar.freebusy request
with absolute, ordered, in-window time stamps is rewritten successfully:
the rewrite terminates with RFC3339 time_min and time_max and without
consulting the zone provider.  The code instead calls the helper
cleanupTimeParams on exactly this path, and that helper calls itself
unconditionally, so the rewrite never terminates: for every recursion depth
the embedding reports divergence.  The first conjunct shows the helper
itself never returns; the second shows resolveCalendarRange diverges under
the claim hypotheses; the third lifts this to validate_and_rewrite for
calendar.events. -/
theorem C8_absolute_range_rewrite_diverges (p : Policy) (cal : CalendarPolicy)
    (params : Params) (fromS toS : String) (fromNs toNs : Int) :
    p.calendar = some cal →
    getStringAny params ["time_min", "from"] = some fromS →
    getStringAny params ["time_max", "to"] = some toS →
    (getBool params "today").getD false = false →
    (getBool params "tomorrow").getD false = false →
    (getBool params "week").getD false = false →
    (getInt params "days").getD 0 ≤ 0 →
    parseAbsoluteTime fromS = some fromNs →
    parseAbsoluteTime toS = some toNs →
    ¬ toNs < fromNs →
    ¬ (0 < cal.maxDays ∧ cal.maxDays * nsPerDay < toNs - fromNs) →
    (∀ fuel require, resolveCalendarRange p fuel params require = CalResolve.diverged) ∧
    (∀ limitNs fuel, getString params "calendar_id" = some "primary" →
      (match p.calendar with
       | some c => c.allowedCalendars = []
       | none => False) →
      validateAndRewrite p limitNs fuel "calendar.events" params = none) := by
  intro hcal hfrom hto htoday htom hweek hdays hpf hpt hord hwin
  have hfromNe : fromS ≠ "" := by
    intro h; rw [h] at hpf; exact Option.noConfusion hpf
  have htoNe : toS ≠ "" := by
    intro h; rw [h] at hpt; exact Option.noConfusion hpt
  have hdays2 : ¬ 0 < (getInt params "days").getD 0 := by omega
  have hresolve : ∀ fuel require, resolveCalendarRange p fuel params require = CalResolve.diverged := by
    intro fuel require
    unfold resolveCalendarRange
    rw [hcal]
    simp only [hfrom, hto, htoday, htom, hweek, Option.getD_some, hpf, hpt,
      cleanupTimeParams_none, hfromNe, htoNe, hdays2]
    rw [if_neg (by simp [hfromNe])]
    rw [if_neg (by simp [hdays2, hfromNe, htoNe])]
    rw [if_neg hord, if_neg hwin]
  refine ⟨hresolve, ?_⟩
  intro limitNs fuel hcalID hallowed
  rw [hcal] at hallowed
  simp only at hallowed
  unfold validateAndRewrite rewriteCalendarEvents
  rw [hcalID, hcal]
  simp [hallowed, hresolve]

/-- C7 (a code bug).  The specification table says a gmail.thread.get
request may supply the thread id under the key id, which the rewrite
coerces to thread_id.  The rewrite indeed copies the value to thread_id but
leaves the id key in the map, and the upstream adapter then rejects the
leftover key, so the invocation is never built: the broker answers
upstream_error with the message unknown params: id instead of behaving like
the same request written with thread_id.  The conjuncts evaluate the
pipeline at the failing input id = t1: the rewrite succeeds and coerces,
the argument build fails, a thread_id request succeeds, and the whole
broker pipeline returns upstream_error with no subprocess spawned. -/
theorem C7_thread_get_id_alias_rejected_upstream :
    rewriteGmailThreadGet [("id", Json.str "t1")] [] =
      Except.ok ([("id", Json.str "t1"), ("thread_id", Json.str "t1")], []) ∧
    (match actionSpecs "gmail.thread.get" with
     | some spec => buildArgs spec [("id", Json.str "t1"), ("thread_id", Json.str "t1")]
     | none => Except.ok []) = Except.error "unknown params: id" ∧
    (match actionSpecs "gmail.thread.get" with
     | some spec => buildArgs spec [("thread_id", Json.str "t1")]
     | none => Except.error "") = Except.ok ["t1"] ∧
    Handle (fun _ _ _ => Except.ok Json.null)
      (PolicySet.mk "" [("a@x.com",
        Policy.mk ["gmail.thread.get"]
          (some (GmailPolicy.mk [] [] [] [] [] 0 false false false false)) none [] [])])
      "" 0 1
      (Request.mk "r1" "gmail.thread.get" "" [("id", Json.str "t1")]) =
      some (errResponse "r1" "upstream_error" "unknown params: id", []) := by
  exact ⟨rfl, rfl, rfl, rfl⟩

/-- Witness for C8: a concrete calendar.events request with absolute
in-window times makes the range resolver diverge at every recursion
depth. -/
theorem C8_absolute_range_rewrite_diverges_witness :
    parseAbsoluteTime "2024-01-01T00:00:00Z" = some 1704067200000000000 ∧
    parseAbsoluteTime "2024-01-02T00:00:00Z" = some 1704153600000000000 ∧
    (∀ fuel require,
      resolveCalendarRange
        (Policy.mk ["calendar.events"] none (some (CalendarPolicy.mk [] false 7)) [] [])
        fuel
        [("calendar_id", Json.str "primary"),
         ("time_min", Json.str "2024-01-01T00:00:00Z"),
         ("time_max", Json.str "2024-01-02T00:00:00Z")] require = CalResolve.diverged) := by
  refine ⟨by rfl, by rfl, ?_⟩
  exact (C8_absolute_range_rewrite_diverges
    (Policy.mk ["calendar.events"] none (some (CalendarPolicy.mk [] false 7)) [] [])
    (CalendarPolicy.mk [] false 7)
    [("calendar_id", Json.str "primary"),
     ("time_min", Json.str "2024-01-01T00:00:00Z"),
     ("time_max", Json.str "2024-01-02T00:00:00Z")]
    "2024-01-01T00:00:00Z" "2024-01-02T00:00:00Z"
    1704067200000000000 1704153600000000000
    rfl rfl rfl rfl rfl rfl (by decide) rfl rfl (by decide) (by decide)).1

/-- getStringSlice only ever returns a nonempty list. -/
theorem getStringSlice_ne_nil (params : Params) (key : String) (l : List String)
    (h : getStringSlice params key = some l) : l ≠ [] := by
  unfold getStringSlice at h
  rcases hv : lookupP params key with _ | v
  · rw [hv] at h; exact absurd h (by simp)
  · rw [hv] at h
    cases v <;> simp only at h
    case str s =>
      by_cases he : ((goSplit s ',').map goTrim).filter (fun part => part ≠ "") = []
      · rw [if_pos he] at h; exact absurd h (by simp)
      · rw [if_neg he] at h
        cases h; exact he
    case arr items =>
      by_cases he : items.filterMap (fun item =>
        match item with
        | Json.str s => some s
        | _ => none) = []
      · rw [if_pos he] at h; exact absurd h (by simp)
      · rw [if_neg he] at h
        cases h; exact he
    all_goals exact absurd h (by simp)

/-- C10.  For the two modify actions an empty modify allow list denies every
label: supplying any add (respectively remove) labels fails with the
no-labels-allowed error, whereas gmail.labels.get with an empty read allow
list accepts any label. -/
theorem C10_empty_modify_allowlist_denies_all :
    (∀ p g params tid adds, p.gmail = some g → g.allowedAddLabels = [] →
      getStringAny params ["thread_id", "id"] = some tid → goTrim tid ≠ "" →
      getStringSlice params "add" = some adds →
      rewriteGmailThreadModify p params [] = Except.error "no labels allowed for add") ∧
    (∀ p g params tid rems, p.gmail = some g → g.allowedRemoveLabels = [] →
      getStringAny params ["thread_id", "id"] = some tid → goTrim tid ≠ "" →
      getStringSlice params "add" = none →
      getStringSlice params "remove" = some rems →
      rewriteGmailThreadModify p params [] = Except.error "no labels allowed for remove") ∧
    (∀ p g params tids adds, p.gmail = some g → g.allowedAddLabels = [] →
      getStringSlice params "thread_ids" = some tids →
      getStringSlice params "add" = some adds →
      rewriteGmailLabelsModify p params [] = Except.error "no labels allowed for add") ∧
    (∀ p g params tids rems, p.gmail = some g → g.allowedRemoveLabels = [] →
      getStringSlice params "thread_ids" = some tids →
      getStringSlice params "add" = none →
      getStringSlice params "remove" = some rems →
      rewriteGmailLabelsModify p params [] = Except.error "no labels allowed for remove") ∧
    (∀ p g params label, p.gmail = some g → g.allowedReadLabels = [] →
      getStringAny params ["label", "label_id", "id"] = some label → goTrim label ≠ "" →
      rewriteGmailLabelsGet p params [] =
        Except.ok (setP params "label" (Json.str (goTrim label)), [])) := by
  refine ⟨?_, ?_, ?_, ?_, ?_⟩
  · intro p g params tid adds hg hempty htid htidne hadds
    have haddne := getStringSlice_ne_nil params "add" adds hadds
    unfold rewriteGmailThreadModify validateLabels
    rw [htid, hadds, hg]
    simp [htidne, haddne, hempty, hg]
  · intro p g params tid rems hg hempty htid htidne hadd hrems
    have hremne := getStringSlice_ne_nil params "remove" rems hrems
    unfold rewriteGmailThreadModify validateLabels
    rw [htid, hadd, hrems, hg]
    simp [htidne, hremne, hempty, hg]
  · intro p g params tids adds hg hempty htids hadds
    have haddne := getStringSlice_ne_nil params "add" adds hadds
    have htidne := getStringSlice_ne_nil params "thread_ids" tids htids
    unfold rewriteGmailLabelsModify validateLabels
    rw [htids, hadds, hg]
    simp [htidne, haddne, hempty, hg]
  · intro p g params tids rems hg hempty htids hadd hrems
    have hremne := getStringSlice_ne_nil params "remove" rems hrems
    have htidne := getStringSlice_ne_nil params "thread_ids" tids htids
    unfold rewriteGmailLabelsModify validateLabels
    rw [htids, hadd, hrems, hg]
    simp [htidne, hremne, hempty, hg]
  · intro p g params label hg hempty hlabel hlabelne
    unfold rewriteGmailLabelsGet validateLabels
    rw [hlabel, hg]
    simp [hlabelne, hempty, hg]

/-- Witness for C10: concrete modify requests against empty allow lists
fail with the no-labels-allowed error, and a labels.get against an empty
read allow list succeeds. -/
theorem C10_empty_modify_allowlist_denies_all_witness :
    rewriteGmailThreadModify
      (Policy.mk ["gmail.thread.modify"]
        (some (GmailPolicy.mk [] [] [] [] [] 0 false false false false)) none [] [])
      [("thread_id", Json.str "t1"), ("add", Json.str "X")] [] =
      Except.error "no labels allowed for add" ∧
    rewriteGmailLabelsGet
      (Policy.mk ["gmail.labels.get"]
        (some (GmailPolicy.mk [] [] [] [] [] 0 false false false false)) none [] [])
      [("label", Json.str "AnyLabel")] [] =
      Except.ok ([("label", Json.str "AnyLabel")], []) := by
  constructor
  · exact C10_empty_modify_allowlist_denies_all.1
      (Policy.mk ["gmail.thread.modify"]
        (some (GmailPolicy.mk [] [] [] [] [] 0 false false false false)) none [] [])
      (GmailPolicy.mk [] [] [] [] [] 0 false false false false)
      [("thread_id", Json.str "t1"), ("add", Json.str "X")]
      "t1" ["X"] rfl rfl rfl (by decide) rfl
  · exact C10_empty_modify_allowlist_denies_all.2.2.2.2
      (Policy.mk ["gmail.labels.get"]
        (some (GmailPolicy.mk [] [] [] [] [] 0 false false false false)) none [] [])
      (GmailPolicy.mk [] [] [] [] [] 0 false false false false)
      [("label", Json.str "AnyLabel")]
      "AnyLabel" rfl rfl rfl (by decide)

/-! ### Association-list lemmas shared by several claims -/

theorem lookupP_setP (params : Params) (k : String) (v : Json) (k2 : String) :
    lookupP (setP params k v) k2 = if k2 = k then some v else lookupP params k2 := by
  induction params with
  | nil =>
      show lookupP [(k, v)] k2 = _
      simp only [lookupP]
      by_cases h : k = k2
      · rw [if_pos h, if_pos h.symm]
      · rw [if_neg h, if_neg (fun hh => h hh.symm)]
  | cons kv rest ih =>
      obtain ⟨k1, v1⟩ := kv
      simp only [setP]
      by_cases h1 : k1 = k
      · rw [if_pos h1]
        subst h1
        simp only [lookupP]
        by_cases h2 : k1 = k2
        · rw [if_pos h2, if_pos h2.symm]
        · rw [if_neg h2, if_neg (fun hh => h2 hh.symm), if_neg h2]
      · rw [if_neg h1]
        simp only [lookupP, ih]
        by_cases h2 : k1 = k2
        · rw [if_pos h2, if_neg (fun hh => h1 (h2.trans hh)), if_pos h2]
        · rw [if_neg h2, if_neg h2]

theorem lookupP_delP (params : Params) (k k2 : String) :
    lookupP (delP params k) k2 = if k2 = k then none else lookupP params k2 := by
  induction params with
  | nil =>
      simp only [delP, lookupP]
      split_ifs <;> rfl
  | cons kv rest ih =>
      obtain ⟨k1, v1⟩ := kv
      simp only [delP]
      by_cases h1 : k1 = k
      · rw [if_pos h1, ih]
        by_cases h2 : k2 = k
        · rw [if_pos h2, if_pos h2]
        · rw [if_neg h2, if_neg h2]
          simp only [lookupP]
          rw [if_neg (fun hh => h2 (hh.symm.trans h1))]
      · rw [if_neg h1]
        simp only [lookupP, ih]
        by_cases h2 : k1 = k2
        · rw [if_pos h2, if_neg (fun hh => h1 (h2.trans hh)), if_pos h2]
        · rw [if_neg h2, if_neg h2]

theorem getString_setP (params : Params) (k : String) (v : Json) (k2 : String) (h : k2 ≠ k) :
    getString (setP params k v) k2 = getString params k2 := by
  unfold getString
  rw [lookupP_setP, if_neg h]

theorem getString_eq_some (params : Params) (k s : String)
    (h : getString params k = some s) : lookupP params k = some (Json.str s) := by
  unfold getString at h
  rcases hl : lookupP params k with _ | v <;> rw [hl] at h
  · exact absurd h (by simp)
  · cases v <;> simp_all

/-- C5 counterexample.  The claim says that a gmail.get request carrying an
explicit format other than metadata is rejected.  A format value that is
not a string, here the boolean true, is explicitly supplied and is not
metadata, yet the rewrite succeeds and silently overwrites it; the same
happens for the explicit empty-string format. -/
theorem C5_format_lock_counterexample :
    rewriteGmailGet [("message_id", Json.str "m1"), ("format", Json.b true)] [] =
      Except.ok ([("message_id", Json.str "m1"), ("format", Json.str "metadata")], []) ∧
    rewriteGmailGet [("message_id", Json.str "m1"), ("format", Json.str "")] [] =
      Except.ok ([("message_id", Json.str "m1"), ("format", Json.str "metadata")], []) := by
  exact ⟨rfl, rfl⟩

/-- C5 as amended.  A gmail.get rewrite rejects an explicit format only
when it is a string other than empty and other than metadata; any other
format value is overwritten with metadata.  On success the rewritten params
carry format metadata, no headers key (with the headers_ignored:default
warning exactly when headers was present), and a string message id; the
argument list that the upstream adapter then builds is exactly the message
id followed by the flag pair, so it contains the pair and contains the
headers flag only if the message id is that literal string. -/
theorem C5_format_lock :
    (∀ params f, getString params "format" = some f → f ≠ "" → f ≠ "metadata" →
      ((getString params "id").isSome ∨ (getString params "message_id").isSome) →
      rewriteGmailGet params [] = Except.error "format must be metadata") ∧
    (∀ params out w, rewriteGmailGet params [] = Except.ok (out, w) →
      getString out "format" = some "metadata" ∧
      lookupP out "headers" = none ∧
      (hasKey params "headers" = true → w = ["headers_ignored:default"]) ∧
      (hasKey params "headers" = false → w = []) ∧
      ∃ m, getString out "message_id" = some m) ∧
    (∀ out args m spec, actionSpecs "gmail.get" = some spec →
      getString out "message_id" = some m →
      getString out "format" = some "metadata" →
      lookupP out "headers" = none →
      buildArgs spec out = Except.ok args →
      args = [m, "--format", "metadata"]) := by
  refine ⟨?_, ?_, ?_⟩
  · intro params f hf hne hnm hid
    unfold rewriteGmailGet
    have hbad : ∀ p1, getString p1 "format" = some f →
        (match getString p1 "format" with
          | some format => decide (format ≠ "" ∧ format ≠ "metadata")
          | none => false) = true := by
      intro p1 h1
      rw [h1]
      simp [hne, hnm]
    rcases hidv : getString params "id" with _ | v
    · rcases hmid : getString params "message_id" with _ | v
      · rw [hidv, hmid] at hid
        simp at hid
      · simp only [hidv, hmid]
        rw [hbad _ (by rw [getString_setP _ _ _ _ (by decide)]; exact hf)]
        simp
    · simp only [hidv]
      rw [hbad _ (by rw [getString_setP _ _ _ _ (by decide)]; exact hf)]
      simp
  · intro params out w hok
    unfold rewriteGmailGet at hok
    have main : ∀ v p1, p1 = setP params "message_id" (Json.str v) →
        (let formatBad : Bool :=
          match getString p1 "format" with
          | some format => decide (format ≠ "" ∧ format ≠ "metadata")
          | none => false
        if formatBad then Except.error "format must be metadata"
        else
          let p2 := setP p1 "format" (Json.str "metadata")
          if hasKey p2 "headers" then
            Except.ok (delP p2 "headers", [] ++ ["headers_ignored:default"])
          else Except.ok (p2, ([] : List String))) = Except.ok (out, w) →
        getString out "format" = some "metadata" ∧
        lookupP out "headers" = none ∧
        (hasKey params "headers" = true → w = ["headers_ignored:default"]) ∧
        (hasKey params "headers" = false → w = []) ∧
        ∃ m, getString out "message_id" = some m := by
      intro v p1 hp1 h
      simp only at h
      have hkeys : hasKey (setP p1 "format" (Json.str "metadata")) "headers" = hasKey params "headers" := by
        unfold hasKey
        rw [lookupP_setP, if_neg (by decide), hp1, lookupP_setP, if_neg (by decide)]
      rcases hbadv : (match getString p1 "format" with
          | some format => decide (format ≠ "" ∧ format ≠ "metadata")
          | none => false) with _ | _
      · rw [hbadv] at h
        simp only [Bool.false_eq_true, if_false] at h
        rcases hhk : hasKey (setP p1 "format" (Json.str "metadata")) "headers" with _ | _
        · rw [hhk] at h
          simp only [Bool.false_eq_true, if_false] at h
          cases h
          refine ⟨?_, ?_, ?_, ?_, ⟨v, ?_⟩⟩
          · unfold getString
            rw [lookupP_setP, if_pos rfl]
          · rw [lookupP_setP, if_neg (by decide), hp1, lookupP_setP, if_neg (by decide)]
            have := hkeys.symm.trans hhk
            unfold hasKey at this
            rcases hl : lookupP params "headers" with _ | _
            · rfl
            · rw [hl] at this; simp at this
          · intro hcontra
            rw [hkeys] at hhk
            rw [hhk] at hcontra
            cases hcontra
          · intro _; rfl
          · unfold getString
            rw [lookupP_setP, if_neg (by decide), hp1, lookupP_setP, if_pos rfl]
        · rw [hhk] at h
          simp only [if_true] at h
          cases h
          refine ⟨?_, ?_, ?_, ?_, ⟨v, ?_⟩⟩
          · unfold getString
            rw [lookupP_delP, if_neg (by decide), lookupP_setP, if_pos rfl]
          · rw [lookupP_delP, if_pos rfl]
          · intro _; rfl
          · intro hcontra
            rw [hkeys] at hhk
            rw [hhk] at hcontra
            cases hcontra
          · unfold getString
            rw [lookupP_delP, if_neg (by decide), lookupP_setP, if_neg (by decide),
              hp1, lookupP_setP, if_pos rfl]
      · rw [hbadv] at h
        simp at h
    rcases hidv : getString params "id" with _ | v
    · rcases hmid : getString params "message_id" with _ | v
      · rw [hidv, hmid] at hok
        simp at hok
      · rw [hidv, hmid] at hok
        exact main v _ rfl hok
    · rw [hidv] at hok
      exact main v _ rfl hok
  · intro out args m spec hspec hm hfmt hhdr hargs
    have hspec2 : spec = ActionSpec.mk ["gmail", "get"] ["message_id"]
        [("format", "--format"), ("headers", "--headers")] [] := by
      have hconc : actionSpecs "gmail.get" = some (ActionSpec.mk ["gmail", "get"]
          ["message_id"] [("format", "--format"), ("headers", "--headers")] []) := rfl
      rw [hconc] at hspec
      exact (Option.some.inj hspec).symm
    subst hspec2
    have hlm := getString_eq_some out "message_id" m hm
    have hlf := getString_eq_some out "format" "metadata" hfmt
    unfold buildArgs at hargs
    simp only [buildPositional, buildFlags, buildMulti, hlm, hlf, hhdr,
      normalizePositional, normalizeValue] at hargs
    simp only [if_neg (by simp : ¬ ([m] : List String) = []),
      if_neg (by decide : ¬ "message_id" = "calendar_ids")] at hargs
    simp only [List.append_nil, List.nil_append] at hargs
    split at hargs
    · rw [Except.ok.injEq] at hargs
      exact hargs.symm
    · exact absurd hargs (by simp)

/-- Witness for C5: a string format raw is rejected; the rewritten params of
a plain request carry format metadata; and the argument list built from
them is exactly the message id and the format flag pair. -/
theorem C5_format_lock_witness :
    rewriteGmailGet [("id", Json.str "m5"), ("format", Json.str "raw")] [] =
      Except.error "format must be metadata" ∧
    getString [("message_id", Json.str "m1"), ("format", Json.str "metadata")] "format" =
      some "metadata" ∧
    (["m1", "--format", "metadata"] : List String) = ["m1", "--format", "metadata"] := by
  refine ⟨?_, ?_, ?_⟩
  · exact C5_format_lock.1 [("id", Json.str "m5"), ("format", Json.str "raw")] "raw"
      rfl (by decide) (by decide) (Or.inl (by decide))
  · exact (C5_format_lock.2.1 [("message_id", Json.str "m1"), ("headers", Json.str "From,To")]
      [("message_id", Json.str "m1"), ("format", Json.str "metadata")]
      ["headers_ignored:default"] rfl).1
  · exact C5_format_lock.2.2 [("message_id", Json.str "m1"), ("format", Json.str "metadata")]
      ["m1", "--format", "metadata"] "m1"
      (ActionSpec.mk ["gmail", "get"] ["message_id"]
        [("format", "--format"), ("headers", "--headers")] [])
      rfl rfl rfl rfl rfl

/-- C1.  A well-formed request whose action is outside the resolved account
policy allow list is answered ok false with error code forbidden, and no
subprocess at all is spawned for the request: the invocation trace is
empty, so in particular neither the label-map build nor the action runs the
upstream. -/
theorem C1_allowlist_soundness (oracle : GogOracle) (set : PolicySet)
    (defaultAccount : String) (limitNs : Int) (fuel : Nat) (req : Request)
    (pol : Policy) (account : String) :
    req.id ≠ "" → req.action ≠ "" →
    resolveSet set req.account defaultAccount = Except.ok (pol, account) →
    isActionAllowed pol req.action = false →
    Handle oracle set defaultAccount limitNs fuel req =
      some (errResponse req.id "forbidden" "action not allowed", []) := by
  intro hid haction hresolve hdenied
  unfold Handle
  rw [if_neg hid, if_neg haction, hresolve]
  simp [hdenied]

/-- Witness for C1: a concrete request for an action missing from the allow
list is denied with forbidden and an empty invocation trace. -/
theorem C1_allowlist_soundness_witness :
    Handle (fun _ _ _ => Except.ok Json.null)
      (PolicySet.mk "" [("a@x.com",
        Policy.mk ["gmail.search"]
          (some (GmailPolicy.mk ["INBOX"] [] [] [] [] 7 false false false false)) none [] [])])
      "" 0 1
      (Request.mk "r1" "gmail.send" "" []) =
      some (errResponse "r1" "forbidden" "action not allowed", []) := by
  exact C1_allowlist_soundness (fun _ _ _ => Except.ok Json.null)
    (PolicySet.mk "" [("a@x.com",
      Policy.mk ["gmail.search"]
        (some (GmailPolicy.mk ["INBOX"] [] [] [] [] 7 false false false false)) none [] [])])
    "" 0 1 (Request.mk "r1" "gmail.send" "" [])
    (Policy.mk ["gmail.search"]
      (some (GmailPolicy.mk ["INBOX"] [] [] [] [] 7 false false false false)) none [] [])
    "a@x.com" (by decide) (by decide) rfl (by decide)

/-- A successful label-map build installs a label map on the policy and its
trace is the single labels.list invocation. -/
theorem ensureLabelMap_spec (oracle : GogOracle) (account : String) (pol pol1 : Policy)
    (trace0 : List Invocation)
    (h : ensureLabelMap oracle account pol = (Except.ok pol1, trace0)) :
    (∃ m, pol1 = setLabelMap pol m) ∧
    ∀ inv, inv ∈ trace0 → inv.action = "gmail.labels.list" := by
  have hrg : runGog oracle account "gmail.labels.list" [] =
      (oracle account "gmail.labels.list" [], [Invocation.mk account "gmail.labels.list" []]) := rfl
  unfold ensureLabelMap at h
  rw [hrg] at h
  rcases horacle : oracle account "gmail.labels.list" [] with e | data <;> rw [horacle] at h
  · simp at h
  rcases data with _ | _ | _ | _ | _ | root <;> simp only at h
  · simp at h
  · simp at h
  · simp at h
  · simp at h
  · simp at h
  rcases hroot : lookupP root "labels" with _ | v <;> rw [hroot] at h
  · simp at h
  rcases v with _ | _ | _ | _ | items | _ <;> simp only at h
  · simp at h
  · simp at h
  · simp at h
  · simp at h
  · split at h
    · simp at h
    · rw [Prod.mk.injEq] at h
      obtain ⟨h1, h2⟩ := h
      refine ⟨⟨_, (Except.ok.inj h1).symm⟩, ?_⟩
      intro inv hinv
      rw [← h2] at hinv
      rw [List.mem_singleton] at hinv
      subst hinv
      rfl
  · simp at h

/-- Anatomy of an ok answer of the core pipeline (the stages after the
label-map step), for actions other than policy.actions. -/
theorem handleCore_ok_run (oracle : GogOracle) (req : Request) (limitNs : Int)
    (fuel : Nat) (account : String) (pol1 : Policy) (trace0 : List Invocation)
    (resp : Response) (trace : List Invocation)
    (h : handleCore oracle req limitNs fuel account pol1 trace0 = some (resp, trace))
    (hok : resp.ok = true) (hpa : req.action ≠ "policy.actions") :
    ∃ params1 w1 spec args data clean rw,
      validateAndRewrite pol1 limitNs fuel req.action req.params =
        some (Except.ok (params1, w1)) ∧
      actionSpecs (if req.action = "gmail.send" ∧ draftSendRequired pol1 params1
        then "gmail.drafts.create" else req.action) = some spec ∧
      buildArgs spec params1 = Except.ok args ∧
      oracle account (if req.action = "gmail.send" ∧ draftSendRequired pol1 params1
        then "gmail.drafts.create" else req.action) args = Except.ok data ∧
      Redact req.action data pol1 = Except.ok (clean, rw) ∧
      resp = Response.mk req.id true (some clean)
        ((if req.action = "gmail.send" ∧ draftSendRequired pol1 params1
          then w1 ++ ["action_rewritten:gmail.drafts.create"] else w1) ++ rw) none ∧
      trace = trace0 ++ [Invocation.mk account
        (if req.action = "gmail.send" ∧ draftSendRequired pol1 params1
         then "gmail.drafts.create" else req.action) args] := by
  unfold handleCore at h
  rcases hvr : validateAndRewrite pol1 limitNs fuel req.action req.params with _ | res
  · rw [hvr] at h; cases h
  rw [hvr] at h
  rcases res with e | pw
  · simp only at h
    cases h
    exact absurd hok (by simp [errResponse])
  obtain ⟨params1, w1⟩ := pw
  simp only at h
  rw [if_neg hpa] at h
  rcases hrg : runGog oracle account
      (if req.action = "gmail.send" ∧ draftSendRequired pol1 params1
       then "gmail.drafts.create" else req.action) params1 with ⟨r, trace1⟩
  rw [hrg] at h
  rcases r with e | data
  · simp only at h
    cases h
    exact absurd hok (by simp [errResponse])
  simp only at h
  rcases hred : Redact req.action data pol1 with e | cr
  · rw [hred] at h
    cases h
    exact absurd hok (by simp [errResponse])
  obtain ⟨clean, rw1⟩ := cr
  rw [hred] at h
  cases h
  unfold runGog at hrg
  rcases hspec : actionSpecs (if req.action = "gmail.send" ∧ draftSendRequired pol1 params1
      then "gmail.drafts.create" else req.action) with _ | spec <;> rw [hspec] at hrg <;>
    simp only at hrg
  · rw [Prod.mk.injEq] at hrg
    exact absurd hrg.1 (by simp)
  rcases hba : buildArgs spec params1 with e | args <;> rw [hba] at hrg <;>
    simp only at hrg
  · rw [Prod.mk.injEq] at hrg
    exact absurd hrg.1 (by simp)
  rw [Prod.mk.injEq] at hrg
  exact ⟨params1, w1, spec, args, data, clean, rw1, rfl, hspec, hba,
    hrg.1, hred, rfl, by rw [← hrg.2]⟩

/-- Anatomy of an ok broker answer that ran the upstream: every stage of the
pipeline succeeded, the one subprocess run for the action is recorded last
in the trace, the request action can only have been substituted to the
draft command, and the warnings are the rewrite warnings, the optional
substitution tag and the redaction warnings in that order. -/
theorem Handle_ok_run (oracle : GogOracle) (set : PolicySet) (defAcct : String)
    (limitNs : Int) (fuel : Nat) (req : Request) (resp : Response)
    (trace : List Invocation)
    (h : Handle oracle set defAcct limitNs fuel req = some (resp, trace))
    (hok : resp.ok = true) (hpa : req.action ≠ "policy.actions") :
    ∃ pol account pol1 trace0 params1 w1 spec args data clean rw,
      resolveSet set req.account defAcct = Except.ok (pol, account) ∧
      isActionAllowed pol req.action = true ∧
      validateAndRewrite pol1 limitNs fuel req.action req.params =
        some (Except.ok (params1, w1)) ∧
      (pol1 = pol ∨ ∃ m, pol1 = setLabelMap pol m) ∧
      (∀ inv, inv ∈ trace0 → inv.action = "gmail.labels.list") ∧
      actionSpecs (if req.action = "gmail.send" ∧ draftSendRequired pol1 params1
        then "gmail.drafts.create" else req.action) = some spec ∧
      buildArgs spec params1 = Except.ok args ∧
      oracle account (if req.action = "gmail.send" ∧ draftSendRequired pol1 params1
        then "gmail.drafts.create" else req.action) args = Except.ok data ∧
      Redact req.action data pol1 = Except.ok (clean, rw) ∧
      resp = Response.mk req.id true (some clean)
        ((if req.action = "gmail.send" ∧ draftSendRequired pol1 params1
          then w1 ++ ["action_rewritten:gmail.drafts.create"] else w1) ++ rw) none ∧
      trace = trace0 ++ [Invocation.mk account
        (if req.action = "gmail.send" ∧ draftSendRequired pol1 params1
         then "gmail.drafts.create" else req.action) args] := by
  unfold Handle at h
  by_cases hid : req.id = ""
  · rw [if_pos hid] at h
    cases h
    exact absurd hok (by simp [errResponse])
  rw [if_neg hid] at h
  by_cases hact : req.action = ""
  · rw [if_pos hact] at h
    cases h
    exact absurd hok (by simp [errResponse])
  rw [if_neg hact] at h
  rcases hres : resolveSet set req.account defAcct with e | polacct
  · rw [hres] at h
    simp only at h
    cases h
    exact absurd hok (by simp [errResponse])
  obtain ⟨pol, account⟩ := polacct
  rw [hres] at h
  simp only at h
  by_cases hallow : isActionAllowed pol req.action
  swap
  · rw [if_pos (by simpa using hallow)] at h
    cases h
    exact absurd hok (by simp [errResponse])
  rw [if_neg (by simpa using hallow)] at h
  by_cases hc : (req.action = "gmail.search" ∨ req.action = "gmail.thread.list") ∧
      (match pol.gmail with
       | some g => anyLabelAllowlist g
       | none => false) = true
  · rw [if_pos hc] at h
    rcases hlm : ensureLabelMap oracle account pol with ⟨lmres, tr0⟩
    rw [hlm] at h
    rcases lmres with e | pol1
    · simp only at h
      cases h
      exact absurd hok (by simp [errResponse])
    simp only at h
    obtain ⟨hmap, htr0⟩ := ensureLabelMap_spec oracle account pol pol1 tr0 hlm
    obtain ⟨params1, w1, spec, args, data, clean, rw1, hcore⟩ :=
      handleCore_ok_run oracle req limitNs fuel account pol1 tr0 resp trace h hok hpa
    exact ⟨pol, account, pol1, tr0, params1, w1, spec, args, data, clean, rw1,
      rfl, hallow, hcore.1, Or.inr hmap, htr0, hcore.2.1, hcore.2.2.1,
      hcore.2.2.2.1, hcore.2.2.2.2.1, hcore.2.2.2.2.2.1, hcore.2.2.2.2.2.2⟩
  · rw [if_neg hc] at h
    simp only at h
    obtain ⟨params1, w1, spec, args, data, clean, rw1, hcore⟩ :=
      handleCore_ok_run oracle req limitNs fuel account pol [] resp trace h hok hpa
    exact ⟨pol, account, pol, [], params1, w1, spec, args, data, clean, rw1,
      rfl, hallow, hcore.1, Or.inl rfl, (by intro inv hinv; cases hinv),
      hcore.2.1, hcore.2.2.1, hcore.2.2.2.1, hcore.2.2.2.2.1,
      hcore.2.2.2.2.2.1, hcore.2.2.2.2.2.2⟩

/-- A successful send rewrite returns its params untouched and appends only
the draft_only tag, when a draft reason applies. -/
theorem rewriteGmailSend_ok (p : Policy) (params : Params) (w : List String)
    (out : Params) (w2 : List String)
    (h : rewriteGmailSend p params w = Except.ok (out, w2)) :
    out = params ∧
    w2 = w ++ (if draftSendReason p params ≠ ""
      then ["draft_only:" ++ draftSendReason p params] else []) := by
  unfold rewriteGmailSend at h
  rcases hg : p.gmail with _ | g <;> rw [hg] at h
  · exact absurd h (by simp)
  · simp only at h
    split_ifs at h with h1 h2 h3 h4 h5 h6
    · rw [Except.ok.injEq] at h
      have hr : draftSendReason p params ≠ "" := h6
      obtain ⟨ho, hw⟩ := Prod.mk.injEq _ _ _ _ ▸ h
      exact ⟨ho.symm, by rw [if_pos hr, ← hw]⟩
    · rw [Except.ok.injEq] at h
      obtain ⟨ho, hw⟩ := Prod.mk.injEq _ _ _ _ ▸ h
      refine ⟨ho.symm, ?_⟩
      rw [if_neg h6, List.append_nil, ← hw]

/-- The label maps do not change the gmail section. -/
theorem setLabelMap_gmail (p : Policy) (m : List (String × String)) :
    (setLabelMap p m).gmail = p.gmail := rfl

/-- draftSendReason reads only the gmail section. -/
theorem draftSendReason_congr (p1 p2 : Policy) (params : Params)
    (h : p1.gmail = p2.gmail) :
    draftSendReason p1 params = draftSendReason p2 params := by
  unfold draftSendReason
  rw [h]

/-- Under the draft-substitute conditions of the claim, the reason is the
first applicable of policy, recipients_missing, recipient_not_allowed. -/
theorem draftSendReason_char (p : Policy) (g : GmailPolicy) (params : Params)
    (hg : p.gmail = some g)
    (hcond : g.draftOnly = true ∨
      (g.allowedSendRecipients ≠ [] ∧ collectRecipients params = none) ∨
      (g.allowedSendRecipients ≠ [] ∧ ∃ rs, collectRecipients params = some rs ∧
        recipientsAllowed rs g.allowedSendRecipients = false)) :
    draftSendReason p params = (if g.draftOnly then "policy"
      else if collectRecipients params = none then "recipients_missing"
      else "recipient_not_allowed") ∧
    draftSendReason p params ≠ "" := by
  unfold draftSendReason
  rw [hg]
  by_cases hd : g.draftOnly
  · simp [hd]
  · rcases hcond with hc | ⟨hne, hc⟩ | ⟨hne, rs, hrs, hbad⟩
    · exact absurd hc (by simpa using hd)
    · simp [hd, hne, hc]
    · simp [hd, hne, hrs, hbad]

/-- C3.  Whenever a gmail.send request is answered ok and the policy forces
a draft (draft_only, or a recipient allow list with missing or disallowed
recipients), the one upstream invocation executed for the action is
gmail.drafts.create, whose spec command words are gmail drafts create, no
gmail.send invocation ever runs, and the warnings carry the substitution
tag and the draft_only tag with the first applicable reason in the order
policy, recipients_missing, recipient_not_allowed. -/
theorem C3_draft_substitution (oracle : GogOracle) (set : PolicySet)
    (defAcct : String) (limitNs : Int) (fuel : Nat) (req : Request)
    (pol : Policy) (account : String) (g : GmailPolicy) (resp : Response)
    (trace : List Invocation) :
    req.action = "gmail.send" →
    resolveSet set req.account defAcct = Except.ok (pol, account) →
    pol.gmail = some g →
    (g.draftOnly = true ∨
      (g.allowedSendRecipients ≠ [] ∧ collectRecipients req.params = none) ∨
      (g.allowedSendRecipients ≠ [] ∧ ∃ rs, collectRecipients req.params = some rs ∧
        recipientsAllowed rs g.allowedSendRecipients = false)) →
    Handle oracle set defAcct limitNs fuel req = some (resp, trace) →
    resp.ok = true →
    (∃ args, Invocation.mk account "gmail.drafts.create" args ∈ trace) ∧
    (∀ inv, inv ∈ trace → inv.action ≠ "gmail.send") ∧
    (actionSpecs "gmail.drafts.create").map ActionSpec.command =
      some ["gmail", "drafts", "create"] ∧
    "action_rewritten:gmail.drafts.create" ∈ resp.warnings ∧
    ("draft_only:" ++ (if g.draftOnly then "policy"
      else if collectRecipients req.params = none then "recipients_missing"
      else "recipient_not_allowed")) ∈ resp.warnings := by
  intro hsend hres hg hcond h hok
  obtain ⟨pol', account', pol1, trace0, params1, w1, spec, args, data, clean, rw1,
    hres', hallow, hvr, hpol1, htr0, hspec, hba, horc, hredact, hresp, htrace⟩ :=
    Handle_ok_run oracle set defAcct limitNs fuel req resp trace h hok
      (by rw [hsend]; decide)
  rw [hres] at hres'
  rw [Except.ok.injEq, Prod.mk.injEq] at hres'
  obtain ⟨hpol, hacct⟩ := hres'
  subst hpol
  subst hacct
  have hg1 : pol1.gmail = some g := by
    rcases hpol1 with rfl | ⟨m, rfl⟩
    · exact hg
    · rw [setLabelMap_gmail]; exact hg
  rw [hsend] at hvr
  unfold validateAndRewrite at hvr
  simp only [Option.some.injEq] at hvr
  obtain ⟨hout, hw1⟩ := rewriteGmailSend_ok pol1 req.params [] params1 w1 hvr
  have hreason := draftSendReason_char pol1 g req.params hg1 hcond
  have hsub : draftSendRequired pol1 params1 = true := by
    rw [hout]
    unfold draftSendRequired
    simp [hreason.2]
  have hcondTrue : req.action = "gmail.send" ∧ draftSendRequired pol1 params1 = true :=
    ⟨hsend, hsub⟩
  rw [if_pos hcondTrue] at hspec horc htrace
  rw [if_pos hcondTrue] at hresp
  refine ⟨⟨args, ?_⟩, ?_, rfl, ?_, ?_⟩
  · rw [htrace]
    exact List.mem_append_right _ (List.mem_singleton.mpr rfl)
  · intro inv hinv
    rw [htrace, List.mem_append] at hinv
    rcases hinv with hinv | hinv
    · rw [htr0 inv hinv]; decide
    · rw [List.mem_singleton] at hinv
      subst hinv
      show "gmail.drafts.create" ≠ "gmail.send"
      decide
  · rw [hresp]
    simp
  · rw [hresp]
    simp only [Response.warnings]
    rw [hw1, hreason.1]
    rw [if_pos (by rw [← hreason.1]; exact hreason.2)]
    simp

/-- Witness for C3: a send to a recipient outside the allow list is executed
as gmail.drafts.create with the recipient_not_allowed reason. -/
theorem C3_draft_substitution_witness :
    (∃ args, Invocation.mk "a@x.com" "gmail.drafts.create" args ∈
      [Invocation.mk "a@x.com" "gmail.drafts.create"
        ["--to", "other@x.com", "--subject", "hi", "--body", "yo"]]) ∧
    (∀ inv, inv ∈ [Invocation.mk "a@x.com" "gmail.drafts.create"
        ["--to", "other@x.com", "--subject", "hi", "--body", "yo"]] →
      inv.action ≠ "gmail.send") ∧
    (actionSpecs "gmail.drafts.create").map ActionSpec.command =
      some ["gmail", "drafts", "create"] ∧
    "action_rewritten:gmail.drafts.create" ∈
      ["draft_only:recipient_not_allowed", "action_rewritten:gmail.drafts.create"] ∧
    "draft_only:recipient_not_allowed" ∈
      ["draft_only:recipient_not_allowed", "action_rewritten:gmail.drafts.create"] := by
  exact C3_draft_substitution
    (fun _ _ _ => Except.ok (Json.obj [("id", Json.str "d1")]))
    (PolicySet.mk "a@x.com" [("a@x.com", Policy.mk ["gmail.send"]
      (some (GmailPolicy.mk [] [] [] [] ["alice@x.com"] 0 false false false false))
      none [] [])])
    "" 0 1
    (Request.mk "r3" "gmail.send" ""
      [("to", Json.str "other@x.com"), ("subject", Json.str "hi"),
       ("body", Json.str "yo")])
    (Policy.mk ["gmail.send"]
      (some (GmailPolicy.mk [] [] [] [] ["alice@x.com"] 0 false false false false))
      none [] [])
    "a@x.com"
    (GmailPolicy.mk [] [] [] [] ["alice@x.com"] 0 false false false false)
    (Response.mk "r3" true (some (Json.obj [("id", Json.str "d1")]))
      ["draft_only:recipient_not_allowed", "action_rewritten:gmail.drafts.create"]
      none)
    [Invocation.mk "a@x.com" "gmail.drafts.create"
      ["--to", "other@x.com", "--subject", "hi", "--body", "yo"]]
    rfl rfl rfl
    (Or.inr (Or.inr ⟨List.cons_ne_nil _ _, ["other@x.com"], rfl, rfl⟩))
    rfl rfl


/-- The keys buildPositional marks as seen all come from the positional
table. -/
theorem buildPositional_seen (positional : List String) (params : Params)
    (args seen : List String)
    (h : buildPositional positional params = Except.ok (args, seen)) :
    ∀ k, k ∈ seen → k ∈ positional := by
  induction positional generalizing args seen with
  | nil =>
    unfold buildPositional at h
    rw [Except.ok.injEq, Prod.mk.injEq] at h
    intro k hk
    rw [← h.2] at hk
    cases hk
  | cons key rest ih =>
    unfold buildPositional at h
    rcases hl : lookupP params key with _ | val <;> rw [hl] at h <;> simp only at h
    · exact absurd h (by simp)
    rcases hn : normalizePositional key val with e | argVals <;> rw [hn] at h <;>
      simp only at h
    · exact absurd h (by simp)
    rcases hr : buildPositional rest params with e | pr <;> rw [hr] at h <;>
      simp only at h
    · exact absurd h (by simp)
    obtain ⟨a2, s2⟩ := pr
    simp only [Except.ok.injEq, Prod.mk.injEq] at h
    intro k hk
    rw [← h.2] at hk
    rcases List.mem_cons.mp hk with rfl | hk2
    · exact List.mem_cons_self _ _
    · exact List.mem_cons_of_mem _ (ih a2 s2 hr k hk2)

/-- The keys buildFlags marks as seen all come from the flag table. -/
theorem buildFlags_seen (flags : List (String × String)) (params : Params)
    (args seen : List String)
    (h : buildFlags flags params = Except.ok (args, seen)) :
    ∀ k, k ∈ seen → k ∈ flags.map Prod.fst := by
  induction flags generalizing args seen with
  | nil =>
    unfold buildFlags at h
    rw [Except.ok.injEq, Prod.mk.injEq] at h
    intro k hk
    rw [← h.2] at hk
    cases hk
  | cons kf rest ih =>
    obtain ⟨key, flag⟩ := kf
    unfold buildFlags at h
    rcases hl : lookupP params key with _ | val <;> rw [hl] at h <;> simp only at h
    · intro k hk
      simp only [List.map_cons]
      exact List.mem_cons_of_mem _ (ih args seen h k hk)
    split at h
    · exact absurd h (by simp)
    case _ args1 seen1 heq =>
      rcases hr : buildFlags rest params with e | pr <;> rw [hr] at h <;>
        simp only at h
      · exact absurd h (by simp)
      obtain ⟨a2, s2⟩ := pr
      simp only [Except.ok.injEq, Prod.mk.injEq] at h
      intro k hk
      rw [← h.2] at hk
      have hs1 : seen1 = [key] ∨ seen1 = [] := by
        split at heq
        · rw [Except.ok.injEq, Prod.mk.injEq] at heq
          exact Or.inl heq.2.symm
        · rw [Except.ok.injEq, Prod.mk.injEq] at heq
          exact Or.inl heq.2.symm
        · split at heq
          · exact absurd heq (by simp)
          · rw [Except.ok.injEq, Prod.mk.injEq] at heq
            exact Or.inr heq.2.symm
          · rw [Except.ok.injEq, Prod.mk.injEq] at heq
            exact Or.inl heq.2.symm
      rcases List.mem_append.mp hk with hk1 | hk2
      · rcases hs1 with rfl | rfl
        · rcases List.mem_singleton.mp hk1 with rfl
          simp only [List.map_cons]
          exact List.mem_cons_self _ _
        · cases hk1
      · simp only [List.map_cons]
        exact List.mem_cons_of_mem _ (ih a2 s2 hr k hk2)

/-- The keys buildMulti marks as seen all come from the multi-flag table. -/
theorem buildMulti_seen (flags : List (String × String)) (params : Params)
    (args seen : List String)
    (h : buildMulti flags params = Except.ok (args, seen)) :
    ∀ k, k ∈ seen → k ∈ flags.map Prod.fst := by
  induction flags generalizing args seen with
  | nil =>
    unfold buildMulti at h
    rw [Except.ok.injEq, Prod.mk.injEq] at h
    intro k hk
    rw [← h.2] at hk
    cases hk
  | cons kf rest ih =>
    obtain ⟨key, flag⟩ := kf
    unfold buildMulti at h
    rcases hl : lookupP params key with _ | val <;> rw [hl] at h <;> simp only at h
    · intro k hk
      simp only [List.map_cons]
      exact List.mem_cons_of_mem _ (ih args seen h k hk)
    rcases hn : normalizeValue val with e | vals <;> rw [hn] at h <;> simp only at h
    · exact absurd h (by simp)
    rcases hr : buildMulti rest params with e | pr <;> rw [hr] at h <;>
      simp only at h
    · exact absurd h (by simp)
    obtain ⟨a2, s2⟩ := pr
    simp only [Except.ok.injEq, Prod.mk.injEq] at h
    intro k hk
    rw [← h.2] at hk
    rcases List.mem_cons.mp hk with rfl | hk2
    · simp only [List.map_cons]
      exact List.mem_cons_self _ _
    · simp only [List.map_cons]
      exact List.mem_cons_of_mem _ (ih a2 s2 hr k hk2)

/-- A param key outside all three spec tables makes buildArgs fail. -/
theorem buildArgs_unknown (spec : ActionSpec) (params : Params) (k : String)
    (hk : k ∈ params.map Prod.fst)
    (hpos : k ∉ spec.positional)
    (hflag : k ∉ spec.paramFlags.map Prod.fst)
    (hmulti : k ∉ spec.multiValueFlag.map Prod.fst) :
    ∃ e, buildArgs spec params = Except.error e := by
  unfold buildArgs
  rcases hp : buildPositional spec.positional params with e | pr
  · exact ⟨e, rfl⟩
  obtain ⟨posArgs, posSeen⟩ := pr
  rcases hf : buildFlags spec.paramFlags params with e | pr2
  · exact ⟨e, rfl⟩
  obtain ⟨flagArgs, flagSeen⟩ := pr2
  rcases hm : buildMulti spec.multiValueFlag params with e | pr3
  · exact ⟨e, rfl⟩
  obtain ⟨multiArgs, multiSeen⟩ := pr3
  have hnotseen : k ∉ posSeen ++ flagSeen ++ multiSeen := by
    intro hmem
    rcases List.mem_append.mp hmem with hmem | hmem
    · rcases List.mem_append.mp hmem with hmem | hmem
      · exact hpos (buildPositional_seen spec.positional params posArgs posSeen hp k hmem)
      · exact hflag (buildFlags_seen spec.paramFlags params flagArgs flagSeen hf k hmem)
    · exact hmulti (buildMulti_seen spec.multiValueFlag params multiArgs multiSeen hm k hmem)
  have hkreject : k ∈ (params.map Prod.fst).filter (fun key =>
      ! ((posSeen ++ flagSeen ++ multiSeen).contains key ||
         (spec.paramFlags.map Prod.fst).contains key ||
         (spec.multiValueFlag.map Prod.fst).contains key)) := by
    rw [List.mem_filter]
    refine ⟨hk, ?_⟩
    simp only [Bool.not_eq_eq_eq_not, Bool.not_true, Bool.or_eq_false_iff]
    refine ⟨⟨?_, ?_⟩, ?_⟩
    · exact (Bool.not_eq_true _).mp (fun hc => hnotseen (List.mem_of_elem_eq_true hc))
    · exact (Bool.not_eq_true _).mp (fun hc => hflag (List.mem_of_elem_eq_true hc))
    · exact (Bool.not_eq_true _).mp (fun hc => hmulti (List.mem_of_elem_eq_true hc))
  exact ⟨_, if_neg (List.ne_nil_of_mem hkreject)⟩


/-- C4 as amended.  For every action other than policy.actions, when the
rewrite accepts the request and the accepted params still carry a key
outside the resolved action spec's positional, single-value-flag and
multi-value-flag tables, the broker answers with error code upstream_error
- not the bad_request the claim states - and no subprocess is spawned for
the action: the trace stays exactly the label-step trace.  The restriction
to keys surviving the rewrite is necessary: the rewrite may itself consume
or reject an out-of-table request param first (see the counterexample's
gmail.drafts.create track conjuncts). -/
theorem C4_unknown_params (oracle : GogOracle) (req : Request)
    (limitNs : Int) (fuel : Nat) (account : String) (pol1 : Policy)
    (trace0 : List Invocation) (params1 : Params) (w1 : List String)
    (spec : ActionSpec) (k : String) :
    validateAndRewrite pol1 limitNs fuel req.action req.params =
      some (Except.ok (params1, w1)) →
    req.action ≠ "policy.actions" →
    actionSpecs (if req.action = "gmail.send" ∧ draftSendRequired pol1 params1
      then "gmail.drafts.create" else req.action) = some spec →
    k ∈ params1.map Prod.fst →
    k ∉ spec.positional →
    k ∉ spec.paramFlags.map Prod.fst →
    k ∉ spec.multiValueFlag.map Prod.fst →
    ∃ e, handleCore oracle req limitNs fuel account pol1 trace0 =
      some (errResponse req.id "upstream_error" e, trace0) := by
  intro hvr hpa hspec hk hpos hflag hmulti
  obtain ⟨e, hba⟩ := buildArgs_unknown spec params1 k hk hpos hflag hmulti
  refine ⟨e, ?_⟩
  unfold handleCore
  rw [hvr]
  simp only
  rw [if_neg hpa]
  unfold runGog
  rw [hspec]
  simp only
  rw [hba]
  simp only
  rw [List.append_nil]


/-- Counterexample for C4: a gmail.search request with the unknown param
bogus is answered with code upstream_error, not bad_request.  The original
quantifier over raw request params is also wrong: an out-of-table param can
be intercepted by the rewrite before argument building, as the last two
conjuncts show for gmail.drafts.create with track, which is outside that
action's spec tables yet is answered forbidden by the rewrite, not
upstream_error by the argument builder. -/
theorem C4_unknown_params_counterexample :
    Handle (fun _ _ _ => Except.ok (Json.obj []))
      (PolicySet.mk "a@x.com" [("a@x.com", Policy.mk ["gmail.search"]
        (some (GmailPolicy.mk [] [] [] [] [] 0 false true false false)) none [] [])])
      "" 0 1
      (Request.mk "r1" "gmail.search" ""
        [("query", Json.str "x"), ("bogus", Json.str "y")]) =
      some (errResponse "r1" "upstream_error" "unknown params: bogus", []) ∧
    "upstream_error" ≠ "bad_request" ∧
    Handle (fun _ _ _ => Except.ok (Json.obj []))
      (PolicySet.mk "a@x.com" [("a@x.com", Policy.mk ["gmail.drafts.create"]
        (some (GmailPolicy.mk [] [] [] [] [] 0 false true false false)) none [] [])])
      "" 0 1
      (Request.mk "r2" "gmail.drafts.create" ""
        [("to", Json.str "b@y.com"), ("track", Json.b true)]) =
      some (errResponse "r2" "forbidden" "tracking is not allowed", []) ∧
    (match actionSpecs "gmail.drafts.create" with
     | some spec => decide ("track" ∈ spec.positional) ||
         decide ("track" ∈ spec.paramFlags.map Prod.fst) ||
         decide ("track" ∈ spec.multiValueFlag.map Prod.fst)
     | none => true) = false := ⟨rfl, by decide, rfl, rfl⟩

/-- Witness for C4 at the same concrete request. -/
theorem C4_unknown_params_witness :
    ∃ e, handleCore (fun _ _ _ => Except.ok (Json.obj []))
      (Request.mk "r1" "gmail.search" ""
        [("query", Json.str "x"), ("bogus", Json.str "y")])
      0 1 "a@x.com"
      (Policy.mk ["gmail.search"]
        (some (GmailPolicy.mk [] [] [] [] [] 0 false true false false)) none [] [])
      [] =
      some (errResponse "r1" "upstream_error" e, []) := by
  exact C4_unknown_params (fun _ _ _ => Except.ok (Json.obj []))
    (Request.mk "r1" "gmail.search" ""
      [("query", Json.str "x"), ("bogus", Json.str "y")])
    0 1 "a@x.com"
    (Policy.mk ["gmail.search"]
      (some (GmailPolicy.mk [] [] [] [] [] 0 false true false false)) none [] [])
    [] [("query", Json.str "x"), ("bogus", Json.str "y")] []
    (ActionSpec.mk ["gmail", "search"] ["query"]
      [("max", "--max"), ("page", "--page"), ("oldest", "--oldest")] [])
    "bogus"
    rfl (by decide) rfl (by decide) (by decide) (by decide) (by decide)



theorem lowerChar_of_ws (c : Char) (h : isWsGo c = true) : lowerChar c = c := by
  unfold isWsGo at h
  simp only [decide_eq_true_eq, Bool.or_eq_true] at h
  rcases h with rfl | rfl | rfl | rfl | rfl | rfl <;> decide

theorem matchLitCI_append (lit cs s r : List Char)
    (h : matchLitCI lit cs = some r) :
    matchLitCI lit (cs ++ s) = some (r ++ s) := by
  induction lit generalizing cs with
  | nil =>
    unfold matchLitCI at h ⊢
    rw [Option.some.injEq] at h
    rw [h]
  | cons l ls ih =>
    cases cs with
    | nil => exact absurd h (by simp [matchLitCI])
    | cons c cs2 =>
      rw [List.cons_append]
      simp only [matchLitCI] at h ⊢
      by_cases hc : lowerChar c = l
      · rw [if_pos hc] at h ⊢
        exact ih cs2 h
      · rw [if_neg hc] at h
        cases h

theorem matchLitCI_self (lit : List Char) (hlo : ∀ c ∈ lit, lowerChar c = c) :
    ∀ r, matchLitCI lit (lit ++ r) = some r := by
  induction lit with
  | nil => intro r; rfl
  | cons l ls ih =>
    intro r
    rw [List.cons_append]
    simp only [matchLitCI]
    rw [if_pos (hlo l (List.mem_cons_self _ _))]
    exact ih (fun c hc => hlo c (List.mem_cons_of_mem _ hc)) r

theorem matchLitCI_cons_inv (l : Char) (ls cs r : List Char)
    (h : matchLitCI (l :: ls) cs = some r) :
    ∃ c t, cs = c :: t ∧ lowerChar c = l ∧ matchLitCI ls t = some r := by
  cases cs with
  | nil => exact absurd h (by simp [matchLitCI])
  | cons c t =>
    simp only [matchLitCI] at h
    by_cases hc : lowerChar c = l
    · rw [if_pos hc] at h
      exact ⟨c, t, rfl, hc, h⟩
    · rw [if_neg hc] at h
      cases h

theorem takeExactDigits_append (n : Nat) (cs s ds r : List Char)
    (h : takeExactDigits n cs = some (ds, r)) :
    takeExactDigits n (cs ++ s) = some (ds, r ++ s) := by
  induction n generalizing cs ds r with
  | zero =>
    unfold takeExactDigits at h ⊢
    rw [Option.some.injEq, Prod.mk.injEq] at h
    rw [← h.1, ← h.2]
  | succ m ih =>
    cases cs with
    | nil => exact absurd h (by simp [takeExactDigits])
    | cons c cs2 =>
      rw [List.cons_append]
      simp only [takeExactDigits] at h ⊢
      by_cases hc : isDigitChar c = true
      · rw [if_pos hc] at h ⊢
        rcases ht : takeExactDigits m cs2 with _ | ⟨ds2, r2⟩ <;> rw [ht] at h <;>
          simp only at h
        · cases h
        · rw [Option.some.injEq, Prod.mk.injEq] at h
          rw [ih cs2 ds2 r2 ht]
          simp only
          rw [Option.some.injEq, Prod.mk.injEq]
          exact ⟨by rw [← h.1], by rw [← h.2]⟩
      · rw [if_neg hc] at h
        cases h

theorem dropWhile_head_false (p : Char → Bool) (l : List Char) (c : Char)
    (t : List Char) (h : l.dropWhile p = c :: t) : p c = false := by
  induction l with
  | nil => cases h
  | cons x xs ih =>
    rw [List.dropWhile_cons] at h
    by_cases hx : p x = true
    · rw [if_pos hx] at h
      exact ih h
    · rw [if_neg hx] at h
      cases h
      exact (Bool.not_eq_true _).mp hx

theorem takeWhile_all_append (p : Char → Bool) (l : List Char) (c : Char)
    (r : List Char) (hl : ∀ x ∈ l, p x = true) (hc : p c = false) :
    (l ++ c :: r).takeWhile p = l ∧ (l ++ c :: r).dropWhile p = c :: r := by
  induction l with
  | nil =>
    simp [List.takeWhile_cons, List.dropWhile_cons, hc]
  | cons x xs ih =>
    have hx : p x = true := hl x (List.mem_cons_self _ _)
    have ihr := ih (fun y hy => hl y (List.mem_cons_of_mem _ hy))
    simp only [List.cons_append, List.takeWhile_cons, List.dropWhile_cons, hx,
      if_true]
    exact ⟨by rw [ihr.1], by rw [ihr.2]⟩

theorem digitRun_split (rest s : List Char) (c : Char) (t : List Char)
    (hdrop : rest.dropWhile isDigitChar = c :: t) :
    (rest ++ s).takeWhile isDigitChar = rest.takeWhile isDigitChar ∧
    (rest ++ s).dropWhile isDigitChar = c :: (t ++ s) := by
  have hall : ∀ x ∈ rest.takeWhile isDigitChar, isDigitChar x = true :=
    fun x hx => List.mem_takeWhile_imp hx
  have hcfalse : isDigitChar c = false := dropWhile_head_false _ rest c t hdrop
  have hrest : rest.takeWhile isDigitChar ++ c :: t = rest := by
    rw [← hdrop]
    exact List.takeWhile_append_dropWhile isDigitChar rest
  have hconcat : rest ++ s = rest.takeWhile isDigitChar ++ c :: (t ++ s) := by
    conv_lhs => rw [← hrest]
    simp [List.append_assoc]
  have h2 := takeWhile_all_append isDigitChar (rest.takeWhile isDigitChar) c
    (t ++ s) hall hcfalse
  rw [hconcat, h2.1, h2.2]
  exact ⟨rfl, rfl⟩

theorem newerAt_inv (cs : List Char) (n : Nat) (h : newerAt cs = some n) :
    ∃ rest c t, matchLitCI "newer_than:".toList cs = some rest ∧
      rest.takeWhile isDigitChar ≠ [] ∧
      rest.dropWhile isDigitChar = c :: t ∧ lowerChar c = 'd' ∧
      n = digitsToNat (rest.takeWhile isDigitChar) := by
  unfold newerAt at h
  rcases hm : matchLitCI "newer_than:".toList cs with _ | rest <;> rw [hm] at h
  · cases h
  simp only at h
  by_cases hds : rest.takeWhile isDigitChar = []
  · rw [if_pos hds] at h
    cases h
  rw [if_neg hds] at h
  rcases hdrop : rest.dropWhile isDigitChar with _ | ⟨c, t⟩ <;> rw [hdrop] at h <;>
    simp only at h
  · cases h
  by_cases hc : lowerChar c = 'd'
  · rw [if_pos hc, Option.some.injEq] at h
    exact ⟨rest, c, t, rfl, hds, hdrop, hc, h.symm⟩
  · rw [if_neg hc] at h
    cases h

theorem newerAt_intro (cs rest : List Char) (c : Char) (t : List Char)
    (hm : matchLitCI "newer_than:".toList cs = some rest)
    (hds : rest.takeWhile isDigitChar ≠ [])
    (hdrop : rest.dropWhile isDigitChar = c :: t)
    (hc : lowerChar c = 'd') :
    newerAt cs = some (digitsToNat (rest.takeWhile isDigitChar)) := by
  unfold newerAt
  rw [hm]
  simp only
  rw [if_neg hds, hdrop]
  simp only
  rw [if_pos hc]

theorem newerAt_append (cs s : List Char) (n : Nat)
    (h : newerAt cs = some n) : newerAt (cs ++ s) = some n := by
  obtain ⟨rest, c, t, hm, hds, hdrop, hc, hn⟩ := newerAt_inv cs n h
  have hsp := digitRun_split rest s c t hdrop
  have := newerAt_intro (cs ++ s) (rest ++ s) c (t ++ s)
    (matchLitCI_append _ cs s rest hm)
    (by rw [hsp.1]; exact hds)
    hsp.2 hc
  rw [this, hsp.1, hn]

theorem newerAt_head (cs : List Char) (n : Nat) (h : newerAt cs = some n) :
    ∃ c t, cs = c :: t ∧ isWsGo c = false := by
  obtain ⟨rest, _, _, hm, _, _, _, _⟩ := newerAt_inv cs n h
  obtain ⟨c, t, hcs, hlc, _⟩ := matchLitCI_cons_inv _ _ cs rest hm
  refine ⟨c, t, hcs, ?_⟩
  by_cases hws : isWsGo c = true
  · have := lowerChar_of_ws c hws
    rw [this] at hlc
    subst hlc
    exact absurd hws (by decide)
  · exact (Bool.not_eq_true _).mp hws

theorem afterAt_inv (cs : List Char) (v : Nat × Nat × Nat)
    (h : afterAt cs = some v) :
    ∃ rest ys r2 ms r4 ds rr,
      matchLitCI "after:".toList cs = some rest ∧
      takeExactDigits 4 rest = some (ys, '/' :: r2) ∧
      takeExactDigits 2 r2 = some (ms, '/' :: r4) ∧
      takeExactDigits 2 r4 = some (ds, rr) ∧
      v = (digitsToNat ys, digitsToNat ms, digitsToNat ds) := by
  unfold afterAt at h
  rcases hm : matchLitCI "after:".toList cs with _ | rest <;> rw [hm] at h
  · cases h
  simp only at h
  rcases h4 : takeExactDigits 4 rest with _ | ⟨ys, r1⟩ <;> rw [h4] at h <;>
    simp only at h
  · cases h
  split at h
  case _ r2 =>
    rcases h2 : takeExactDigits 2 r2 with _ | ⟨ms, r3⟩ <;> rw [h2] at h <;>
      simp only at h
    · cases h
    split at h
    case _ r4 =>
      rcases h3 : takeExactDigits 2 r4 with _ | ⟨ds, rr⟩ <;> rw [h3] at h <;>
        simp only at h
      · cases h
      rw [Option.some.injEq] at h
      exact ⟨rest, ys, r2, ms, r4, ds, rr, rfl, h4, h2, h3, h.symm⟩
    case _ =>
      cases h
  case _ =>
    cases h

theorem afterAt_intro (cs rest ys r2 ms r4 ds rr : List Char)
    (hm : matchLitCI "after:".toList cs = some rest)
    (h4 : takeExactDigits 4 rest = some (ys, '/' :: r2))
    (h2 : takeExactDigits 2 r2 = some (ms, '/' :: r4))
    (h3 : takeExactDigits 2 r4 = some (ds, rr)) :
    afterAt cs = some (digitsToNat ys, digitsToNat ms, digitsToNat ds) := by
  unfold afterAt
  rw [hm]
  simp only
  rw [h4]
  simp only
  rw [h2]
  simp only
  rw [h3]

theorem afterAt_append (cs s : List Char) (v : Nat × Nat × Nat)
    (h : afterAt cs = some v) : afterAt (cs ++ s) = some v := by
  obtain ⟨rest, ys, r2, ms, r4, ds, rr, hm, h4, h2, h3, hv⟩ := afterAt_inv cs v h
  have h4a := takeExactDigits_append 4 rest s ys ('/' :: r2) h4
  rw [List.cons_append] at h4a
  have h2a := takeExactDigits_append 2 r2 s ms ('/' :: r4) h2
  rw [List.cons_append] at h2a
  have h3a := takeExactDigits_append 2 r4 s ds rr h3
  rw [hv]
  exact afterAt_intro (cs ++ s) (rest ++ s) ys (r2 ++ s) ms (r4 ++ s) ds (rr ++ s)
    (matchLitCI_append _ cs s rest hm) h4a h2a h3a

theorem afterAt_head (cs : List Char) (v : Nat × Nat × Nat)
    (h : afterAt cs = some v) :
    ∃ c t, cs = c :: t ∧ isWsGo c = false := by
  obtain ⟨rest, _, _, _, _, _, _, hm, _⟩ := afterAt_inv cs v h
  obtain ⟨c, t, hcs, hlc, _⟩ := matchLitCI_cons_inv _ _ cs rest hm
  refine ⟨c, t, hcs, ?_⟩
  by_cases hws : isWsGo c = true
  · have := lowerChar_of_ws c hws
    rw [this] at hlc
    subst hlc
    exact absurd hws (by decide)
  · exact (Bool.not_eq_true _).mp hws

theorem clauseAt_append {α : Type} (f : List Char → Option α)
    (hf : ∀ r s v, f r = some v → f (r ++ s) = some v)
    (cs s : List Char) (v : α) (h : clauseAt f cs v) : clauseAt f (cs ++ s) v := by
  obtain ⟨pre, rest, rfl, hb, hv⟩ := h
  exact ⟨pre, rest ++ s, by rw [List.append_assoc], hb, hf rest s v hv⟩

theorem clauseAt_dropWhile {α : Type} (f : List Char → Option α)
    (hhead : ∀ r v, f r = some v → ∃ c t, r = c :: t ∧ isWsGo c = false)
    (cs : List Char) (v : α) (h : clauseAt f cs v) :
    clauseAt f (cs.dropWhile isWsGo) v := by
  obtain ⟨pre, rest, rfl, hb, hv⟩ := h
  revert hb
  induction pre with
  | nil =>
    intro _
    rw [List.nil_append]
    obtain ⟨c, t, rfl, hcw⟩ := hhead rest v hv
    rw [List.dropWhile_cons, if_neg (by rw [hcw]; exact Bool.false_ne_true)]
    exact ⟨[], c :: t, rfl, Or.inl rfl, hv⟩
  | cons x xs ih =>
    intro hb
    rw [List.cons_append, List.dropWhile_cons]
    by_cases hx : isWsGo x = true
    · rw [if_pos hx]
      apply ih
      cases xs with
      | nil => exact Or.inl rfl
      | cons y ys =>
        rcases hb with hb | ⟨c, hlast, hw⟩
        · cases hb
        · rw [List.getLast?_cons_cons] at hlast
          exact Or.inr ⟨c, hlast, hw⟩
    · rw [if_neg hx]
      exact ⟨x :: xs, rest, by rw [List.cons_append], hb, hv⟩

theorem dropTrailing_eq (p : Char → Bool) (cs : List Char) (c : Char)
    (hlast : cs.getLast? = some c) (hc : p c = false) : dropTrailing p cs = cs := by
  unfold dropTrailing
  have hrev : cs.reverse.head? = some c := by
    rw [List.head?_reverse]
    exact hlast
  rcases hr : cs.reverse with _ | ⟨x, t⟩
  · rw [hr] at hrev
    cases hrev
  · rw [hr] at hrev
    rw [List.head?_cons, Option.some.injEq] at hrev
    subst hrev
    rw [List.dropWhile_cons, if_neg (by rw [hc]; exact Bool.false_ne_true)]
    rw [← hr, List.reverse_reverse]

theorem scanNewer_decompose (cs : List Char) : ∀ (b : Bool) (n : Nat),
    scanNewer b cs = some n →
    ∃ pre rest, cs = pre ++ rest ∧ newerAt rest = some n ∧
      ((pre = [] ∧ b = false) ∨ ∃ c, pre.getLast? = some c ∧ isWordChar c = false) := by
  induction cs with
  | nil => intro b n h; cases h
  | cons c cs ih =>
    intro b n h
    have step : scanNewer (isWordChar c) cs = some n →
        ∃ pre rest, c :: cs = pre ++ rest ∧ newerAt rest = some n ∧
          ((pre = [] ∧ b = false) ∨
           ∃ c2, pre.getLast? = some c2 ∧ isWordChar c2 = false) := by
      intro h2
      obtain ⟨pre, rest, heq, hat, hbnd⟩ := ih (isWordChar c) n h2
      refine ⟨c :: pre, rest, by rw [List.cons_append, heq], hat, Or.inr ?_⟩
      rcases hbnd with ⟨rfl, hwb⟩ | ⟨c2, hlast, hw⟩
      · exact ⟨c, rfl, hwb⟩
      · cases pre with
        | nil => cases hlast
        | cons y ys =>
          rw [List.getLast?_cons_cons]
          exact ⟨c2, hlast, hw⟩
    unfold scanNewer at h
    by_cases hb : b = true
    · rw [if_pos hb] at h
      exact step h
    · have hb0 : b = false := by
        cases b
        · rfl
        · exact absurd rfl hb
      rw [hb0] at h
      rw [if_neg (by exact Bool.false_ne_true)] at h
      rcases hat : newerAt (c :: cs) with _ | n2 <;> rw [hat] at h <;> simp only at h
      · exact step h
      · rw [Option.some.injEq] at h
        subst h
        exact ⟨[], c :: cs, rfl, hat, Or.inl ⟨rfl, hb0⟩⟩

theorem scanAfter_decompose (cs : List Char) : ∀ (b : Bool) (v : Nat × Nat × Nat),
    scanAfter b cs = some v →
    ∃ pre rest, cs = pre ++ rest ∧ afterAt rest = some v ∧
      ((pre = [] ∧ b = false) ∨ ∃ c, pre.getLast? = some c ∧ isWordChar c = false) := by
  induction cs with
  | nil => intro b v h; cases h
  | cons c cs ih =>
    intro b v h
    have step : scanAfter (isWordChar c) cs = some v →
        ∃ pre rest, c :: cs = pre ++ rest ∧ afterAt rest = some v ∧
          ((pre = [] ∧ b = false) ∨
           ∃ c2, pre.getLast? = some c2 ∧ isWordChar c2 = false) := by
      intro h2
      obtain ⟨pre, rest, heq, hat, hbnd⟩ := ih (isWordChar c) v h2
      refine ⟨c :: pre, rest, by rw [List.cons_append, heq], hat, Or.inr ?_⟩
      rcases hbnd with ⟨rfl, hwb⟩ | ⟨c2, hlast, hw⟩
      · exact ⟨c, rfl, hwb⟩
      · cases pre with
        | nil => cases hlast
        | cons y ys =>
          rw [List.getLast?_cons_cons]
          exact ⟨c2, hlast, hw⟩
    unfold scanAfter at h
    by_cases hb : b = true
    · rw [if_pos hb] at h
      exact step h
    · have hb0 : b = false := by
        cases b
        · rfl
        · exact absurd rfl hb
      rw [hb0] at h
      rw [if_neg (by exact Bool.false_ne_true)] at h
      rcases hat : afterAt (c :: cs) with _ | v2 <;> rw [hat] at h <;> simp only at h
      · exact step h
      · rw [Option.some.injEq] at h
        subst h
        exact ⟨[], c :: cs, rfl, hat, Or.inl ⟨rfl, hb0⟩⟩

theorem isDigitChar_digitChar (m : Nat) (h : m < 10) :
    isDigitChar (digitChar m) = true := by
  interval_cases m <;> decide

theorem digitVal_digitChar (m : Nat) (h : m < 10) : digitVal (digitChar m) = m := by
  interval_cases m <;> decide

theorem natToDigitsAux_all (n : Nat) : ∀ (fuel : Nat) (acc : List Char),
    (∀ c ∈ acc, isDigitChar c = true) →
    ∀ c ∈ natToDigitsAux fuel n acc, isDigitChar c = true := by
  induction n using Nat.strong_induction_on with
  | _ n ih =>
    intro fuel acc hacc c hc
    cases fuel with
    | zero =>
      simp only [natToDigitsAux] at hc
      exact hacc c hc
    | succ f =>
      simp only [natToDigitsAux] at hc
      by_cases h10 : n < 10
      · rw [dif_pos h10] at hc
        rcases List.mem_cons.mp hc with rfl | hc2
        · exact isDigitChar_digitChar n h10
        · exact hacc c hc2
      · rw [dif_neg h10] at hc
        refine ih (n / 10) (Nat.div_lt_self (by omega) (by norm_num)) (n / 10)
          (digitChar (n % 10) :: acc) ?_ c hc
        intro x hx
        rcases List.mem_cons.mp hx with rfl | hx2
        · exact isDigitChar_digitChar (n % 10) (Nat.mod_lt _ (by norm_num))
        · exact hacc x hx2

theorem natToDigits_all (n : Nat) : ∀ c ∈ natToDigits n, isDigitChar c = true :=
  natToDigitsAux_all n (n + 1) [] (by intro c hc; cases hc)

theorem natToDigitsAux_ne_nil (n : Nat) : ∀ (fuel : Nat) (acc : List Char),
    acc ≠ [] → natToDigitsAux fuel n acc ≠ [] := by
  induction n using Nat.strong_induction_on with
  | _ n ih =>
    intro fuel acc hacc
    cases fuel with
    | zero =>
      simp only [natToDigitsAux]
      exact hacc
    | succ f =>
      simp only [natToDigitsAux]
      by_cases h10 : n < 10
      · rw [dif_pos h10]
        exact List.cons_ne_nil _ _
      · rw [dif_neg h10]
        exact ih (n / 10) (Nat.div_lt_self (by omega) (by norm_num)) (n / 10) _
          (List.cons_ne_nil _ _)

theorem natToDigits_ne_nil (n : Nat) : natToDigits n ≠ [] := by
  unfold natToDigits
  simp only [natToDigitsAux]
  by_cases h10 : n < 10
  · rw [dif_pos h10]
    exact List.cons_ne_nil _ _
  · rw [dif_neg h10]
    exact natToDigitsAux_ne_nil (n / 10) (n / 10) _ (List.cons_ne_nil _ _)

theorem natToDigitsAux_foldl (n : Nat) : ∀ (fuel : Nat) (acc : List Char),
    1 ≤ fuel →
    (natToDigitsAux fuel n acc).foldl (fun a c => a * 10 + digitVal c) 0 =
      acc.foldl (fun a c => a * 10 + digitVal c) n := by
  induction n using Nat.strong_induction_on with
  | _ n ih =>
    intro fuel acc hf
    cases fuel with
    | zero => omega
    | succ f =>
      simp only [natToDigitsAux]
      by_cases h10 : n < 10
      · rw [dif_pos h10]
        rw [List.foldl_cons]
        rw [digitVal_digitChar n h10]
        norm_num
      · rw [dif_neg h10]
        rw [ih (n / 10) (Nat.div_lt_self (by omega) (by norm_num)) (n / 10) _
          (by omega)]
        rw [List.foldl_cons]
        rw [digitVal_digitChar (n % 10) (Nat.mod_lt _ (by norm_num))]
        have hnd : n / 10 * 10 + n % 10 = n := by omega
        rw [hnd]

theorem digitsToNat_natToDigits (n : Nat) : digitsToNat (natToDigits n) = n := by
  unfold digitsToNat natToDigits
  rw [natToDigitsAux_foldl n (n + 1) [] (by omega)]
  rfl

theorem newerAt_newclause (dl r : List Char)
    (hd : ∀ c ∈ dl, isDigitChar c = true) (hne : dl ≠ []) :
    newerAt ("newer_than:".toList ++ (dl ++ 'd' :: r)) = some (digitsToNat dl) := by
  have hsp := takeWhile_all_append isDigitChar dl 'd' r hd (by decide)
  have := newerAt_intro ("newer_than:".toList ++ (dl ++ 'd' :: r)) (dl ++ 'd' :: r)
    'd' r
    (matchLitCI_self "newer_than:".toList (by decide) (dl ++ 'd' :: r))
    (by rw [hsp.1]; exact hne)
    hsp.2 (by decide)
  rw [this, hsp.1]


/-- Reading back the key just written by setP. -/
theorem getString_setP_self (params : Params) (s : String) (k : String) :
    getString (setP params k (Json.str s)) k = some s := by
  unfold getString
  rw [lookupP_setP, if_pos rfl]

/-- A clause survives TrimSpace when the last character is not white space. -/
theorem clauseAt_goTrim {α : Type} (f : List Char → Option α)
    (hhead : ∀ r v, f r = some v → ∃ c t, r = c :: t ∧ isWsGo c = false)
    (s : String) (v : α) (h : clauseAt f s.toList v)
    (hlast : ∃ c, s.toList.getLast? = some c ∧ isWsGo c = false) :
    clauseAt f (goTrim s).toList v := by
  obtain ⟨cL, hcl, hcw⟩ := hlast
  have h1 : clauseAt f (s.toList.dropWhile isWsGo) v :=
    clauseAt_dropWhile f hhead _ v h
  have hne : s.toList.dropWhile isWsGo ≠ [] := by
    obtain ⟨pre, rest, heq, _, hv⟩ := h1
    obtain ⟨c, t, hr, _⟩ := hhead rest v hv
    rw [heq, hr]
    simp
  have hlast2 : (s.toList.dropWhile isWsGo).getLast? = some cL := by
    have hsplit := List.takeWhile_append_dropWhile isWsGo s.toList
    rw [← hsplit] at hcl
    rw [List.getLast?_append_of_ne_nil _ hne] at hcl
    exact hcl
  show clauseAt f (goTrimList s.toList) v
  unfold goTrimList
  rw [dropTrailing_eq isWsGo _ cL hlast2 hcw]
  exact h1

/-- A clause survives the sender-restriction append. -/
theorem clauseAt_appendSender {α : Type} (f : List Char → Option α)
    (hf : ∀ r s v, f r = some v → f (r ++ s) = some v)
    (hhead : ∀ r v, f r = some v → ∃ c t, r = c :: t ∧ isWsGo c = false)
    (q : String) (senders : List String) (v : α)
    (h : clauseAt f q.toList v) :
    clauseAt f (appendSenderRestriction q senders).toList v := by
  simp only [appendSenderRestriction]
  by_cases hp : (senders.filterMap (fun sender =>
      if goTrim sender = "" then none
      else some ("from:" ++ (if goHasPrefix (goTrim sender) "@" then goTrim sender
        else "@" ++ goTrim sender)))) = []
  · rw [if_pos hp]
    exact h
  · rw [if_neg hp]
    apply clauseAt_goTrim f hhead
    · have hL : (q ++ " (" ++ goJoin (senders.filterMap (fun sender =>
          if goTrim sender = "" then none
          else some ("from:" ++ (if goHasPrefix (goTrim sender) "@" then goTrim sender
            else "@" ++ goTrim sender)))) " OR " ++ ")").toList =
          q.toList ++ (" (".toList ++ ((goJoin (senders.filterMap (fun sender =>
          if goTrim sender = "" then none
          else some ("from:" ++ (if goHasPrefix (goTrim sender) "@" then goTrim sender
            else "@" ++ goTrim sender)))) " OR ").toList ++ ")".toList)) := by
        show (((q.toList ++ " (".toList) ++ _) ++ ")".toList) = _
        simp only [List.append_assoc]
        try rfl
      rw [hL]
      exact clauseAt_append f hf _ _ v h
    · refine ⟨')', ?_, by decide⟩
      show ((((q.toList ++ " (".toList) ++ _) ++ [')']).getLast?) = some ')'
      exact List.getLast?_concat _

/-- A successful newer_than extraction exhibits the clause. -/
theorem extractNewer_clause (q : String) (n : Nat)
    (h : extractNewerThanDays q = some n) : clauseAt newerAt q.toList n := by
  unfold extractNewerThanDays at h
  rcases hscan : scanNewer false q.toList with _ | n2 <;> rw [hscan] at h <;>
    simp only at h
  · cases h
  by_cases hb : n2 ≤ 9223372036854775807
  · rw [if_pos hb, Option.some.injEq] at h
    subst h
    obtain ⟨pre, rest, heq, hat, hbnd⟩ := scanNewer_decompose q.toList false n2 hscan
    refine ⟨pre, rest, heq, ?_, hat⟩
    rcases hbnd with ⟨hpre, _⟩ | hbnd
    · exact Or.inl hpre
    · exact Or.inr hbnd
  · rw [if_neg hb] at h
    cases h

/-- A successful after extraction exhibits the clause and a valid date. -/
theorem extractAfter_clause (q : String) (d : Date)
    (h : extractAfterDate q = some d) :
    clauseAt afterAt q.toList (d.year, d.month, d.day) ∧
      validDate d.year d.month d.day = true := by
  unfold extractAfterDate at h
  rcases hscan : scanAfter false q.toList with _ | ymd <;> rw [hscan] at h <;>
    simp only at h
  · cases h
  obtain ⟨y, m, dd⟩ := ymd
  by_cases hv : validDate y m dd = true
  · rw [if_pos hv, Option.some.injEq] at h
    subst h
    obtain ⟨pre, rest, heq, hat, hbnd⟩ := scanAfter_decompose q.toList false _ hscan
    refine ⟨⟨pre, rest, heq, ?_, hat⟩, hv⟩
    rcases hbnd with ⟨hpre, _⟩ | hbnd
    · exact Or.inl hpre
    · exact Or.inr hbnd
  · rw [if_neg hv] at h
    cases h

/-- The appended newer_than clause is present in the trimmed result. -/
theorem clauseAt_appended_newer (q0 : String) (maxDays : Int) (hpos : 0 < maxDays) :
    clauseAt newerAt
      (goTrim (q0 ++ " newer_than:" ++ intToStr maxDays ++ "d")).toList
      maxDays.toNat := by
  have hstr : intToStr maxDays = (natToDigits maxDays.toNat).asString := by
    unfold intToStr
    rw [if_neg (by omega)]
  have hbase : clauseAt newerAt
      (q0 ++ " newer_than:" ++ intToStr maxDays ++ "d").toList maxDays.toNat := by
    refine ⟨q0.toList ++ [' '],
      "newer_than:".toList ++ (natToDigits maxDays.toNat ++ 'd' :: []), ?_, ?_, ?_⟩
    · show ((q0.toList ++ " newer_than:".toList) ++ (intToStr maxDays).toList)
        ++ "d".toList = _
      rw [hstr]
      show ((q0.toList ++ (' ' :: "newer_than:".toList)) ++
        (natToDigits maxDays.toNat)) ++ ['d'] = _
      simp [List.append_assoc]
    · exact Or.inr ⟨' ', List.getLast?_concat _, by decide⟩
    · rw [newerAt_newclause (natToDigits maxDays.toNat) []
        (natToDigits_all _) (natToDigits_ne_nil _)]
      rw [digitsToNat_natToDigits]
  apply clauseAt_goTrim newerAt newerAt_head _ _ hbase
  refine ⟨'d', ?_, by decide⟩
  show (((q0.toList ++ " newer_than:".toList) ++ (intToStr maxDays).toList)
    ++ ['d']).getLast? = some 'd'
  exact List.getLast?_concat _


/-- Every successful query rewrite under max_days leaves a newer_than clause
within the bound or an after clause at or past the limit instant in the
final query value. -/
theorem rewriteGmailQuery_ok_window (p : Policy) (g : GmailPolicy)
    (limitNs : Int) (params : Params) (w : List String) (params1 : Params)
    (w1 : List String) (hg : p.gmail = some g) (hmax : 0 < g.maxDays)
    (h : rewriteGmailQuery p limitNs params w = Except.ok (params1, w1)) :
    ∃ qF, getString params1 "query" = some qF ∧
      ((∃ n, clauseAt newerAt qF.toList n ∧ (n : Int) ≤ g.maxDays) ∨
       (∃ y m d2, clauseAt afterAt qF.toList (y, m, d2) ∧
         validDate y m d2 = true ∧ limitNs ≤ dateNs (Date.mk y m d2))) := by
  unfold rewriteGmailQuery at h
  rcases hq0 : getString params "query" with _ | q0 <;> rw [hq0] at h <;>
    simp only at h
  · cases h
  by_cases htrim : goTrim q0 = ""
  · rw [if_pos htrim] at h
    cases h
  rw [if_neg htrim, hg] at h
  simp only at h
  rw [if_pos hmax] at h
  rcases hnew : extractNewerThanDays q0 with _ | days <;> rw [hnew] at h <;>
    simp only at h
  · rcases hafter : extractAfterDate q0 with _ | date <;> rw [hafter] at h <;>
      simp only at h
    · have hcl := clauseAt_appended_newer q0 g.maxDays hmax
      by_cases hs : g.allowedSenders ≠ []
      · rw [if_pos hs] at h
        rw [Except.ok.injEq, Prod.mk.injEq] at h
        refine ⟨appendSenderRestriction
          (goTrim (q0 ++ " newer_than:" ++ intToStr g.maxDays ++ "d"))
          g.allowedSenders, ?_, Or.inl ⟨g.maxDays.toNat, ?_, by omega⟩⟩
        · rw [← h.1]
          exact getString_setP_self params _ "query"
        · exact clauseAt_appendSender newerAt newerAt_append newerAt_head _ _ _ hcl
      · rw [if_neg hs] at h
        rw [Except.ok.injEq, Prod.mk.injEq] at h
        refine ⟨goTrim (q0 ++ " newer_than:" ++ intToStr g.maxDays ++ "d"), ?_,
          Or.inl ⟨g.maxDays.toNat, hcl, by omega⟩⟩
        rw [← h.1]
        exact getString_setP_self params _ "query"
    · by_cases hbd : dateNs date < limitNs
      · rw [if_pos hbd] at h
        simp only at h
        cases h
      · rw [if_neg hbd] at h
        simp only at h
        obtain ⟨hcl, hvd⟩ := extractAfter_clause q0 date hafter
        have hdm : Date.mk date.year date.month date.day = date := rfl
        by_cases hs : g.allowedSenders ≠ []
        · rw [if_pos hs] at h
          rw [Except.ok.injEq, Prod.mk.injEq] at h
          refine ⟨appendSenderRestriction q0 g.allowedSenders, ?_,
            Or.inr ⟨date.year, date.month, date.day, ?_, hvd, ?_⟩⟩
          · rw [← h.1]
            exact getString_setP_self params _ "query"
          · exact clauseAt_appendSender afterAt afterAt_append afterAt_head _ _ _ hcl
          · rw [hdm]
            omega
        · rw [if_neg hs] at h
          rw [Except.ok.injEq, Prod.mk.injEq] at h
          refine ⟨q0, ?_, Or.inr ⟨date.year, date.month, date.day, hcl, hvd, ?_⟩⟩
          · rw [← h.1]
            exact getString_setP_self params _ "query"
          · rw [hdm]
            omega
  · by_cases hb : g.maxDays < (days : Int)
    · rw [if_pos hb] at h
      simp only at h
      cases h
    · rw [if_neg hb] at h
      simp only at h
      have hcl := extractNewer_clause q0 days hnew
      by_cases hs : g.allowedSenders ≠ []
      · rw [if_pos hs] at h
        rw [Except.ok.injEq, Prod.mk.injEq] at h
        refine ⟨appendSenderRestriction q0 g.allowedSenders, ?_,
          Or.inl ⟨days, ?_, by omega⟩⟩
        · rw [← h.1]
          exact getString_setP_self params _ "query"
        · exact clauseAt_appendSender newerAt newerAt_append newerAt_head _ _ _ hcl
      · rw [if_neg hs] at h
        rw [Except.ok.injEq, Prod.mk.injEq] at h
        refine ⟨q0, ?_, Or.inl ⟨days, hcl, by omega⟩⟩
        rw [← h.1]
        exact getString_setP_self params _ "query"

/-- A query with neither clause is rewritten by appending newer_than with
the max_days value, warning query_rewritten:newer_than. -/
theorem rewriteGmailQuery_append_branch (p : Policy) (g : GmailPolicy)
    (limitNs : Int) (params : Params) (w : List String) (q0 : String)
    (hg : p.gmail = some g) (hmax : 0 < g.maxDays)
    (hq0 : getString params "query" = some q0) (htrim : goTrim q0 ≠ "")
    (hnew : extractNewerThanDays q0 = none)
    (hafter : extractAfterDate q0 = none) :
    ∃ params1 w1, rewriteGmailQuery p limitNs params w = Except.ok (params1, w1) ∧
      "query_rewritten:newer_than" ∈ w1 ∧
      ∃ qF, getString params1 "query" = some qF ∧
        (qF = goTrim (q0 ++ " newer_than:" ++ intToStr g.maxDays ++ "d") ∨
         qF = appendSenderRestriction
           (goTrim (q0 ++ " newer_than:" ++ intToStr g.maxDays ++ "d"))
           g.allowedSenders) ∧
        clauseAt newerAt qF.toList g.maxDays.toNat := by
  unfold rewriteGmailQuery
  rw [hq0]
  simp only
  rw [if_neg htrim, hg]
  simp only
  rw [if_pos hmax, hnew, hafter]
  simp only
  have hcl := clauseAt_appended_newer q0 g.maxDays hmax
  by_cases hs : g.allowedSenders ≠ []
  · rw [if_pos hs]
    refine ⟨_, _, rfl, ?_, appendSenderRestriction
        (goTrim (q0 ++ " newer_than:" ++ intToStr g.maxDays ++ "d"))
        g.allowedSenders, getString_setP_self params _ "query", Or.inr rfl,
        clauseAt_appendSender newerAt newerAt_append newerAt_head _ _ _ hcl⟩
    simp
  · rw [if_neg hs]
    exact ⟨_, _, rfl, by simp,
        goTrim (q0 ++ " newer_than:" ++ intToStr g.maxDays ++ "d"),
        getString_setP_self params _ "query", Or.inl rfl, hcl⟩

/-- A newer_than clause beyond max_days is rejected. -/
theorem rewriteGmailQuery_reject_newer (p : Policy) (g : GmailPolicy)
    (limitNs : Int) (params : Params) (w : List String) (q0 : String)
    (days : Nat)
    (hg : p.gmail = some g) (hmax : 0 < g.maxDays)
    (hq0 : getString params "query" = some q0) (htrim : goTrim q0 ≠ "")
    (hnew : extractNewerThanDays q0 = some days)
    (hb : g.maxDays < (days : Int)) :
    rewriteGmailQuery p limitNs params w = Except.error
      ("query newer_than exceeds max_days (" ++ intToStr g.maxDays ++ ")") := by
  unfold rewriteGmailQuery
  rw [hq0]
  simp only
  rw [if_neg htrim, hg]
  simp only
  rw [if_pos hmax, hnew]
  simp only
  rw [if_pos hb]

/-- An after clause older than the limit instant is rejected. -/
theorem rewriteGmailQuery_reject_after (p : Policy) (g : GmailPolicy)
    (limitNs : Int) (params : Params) (w : List String) (q0 : String)
    (date : Date)
    (hg : p.gmail = some g) (hmax : 0 < g.maxDays)
    (hq0 : getString params "query" = some q0) (htrim : goTrim q0 ≠ "")
    (hnew : extractNewerThanDays q0 = none)
    (hafter : extractAfterDate q0 = some date)
    (hb : dateNs date < limitNs) :
    rewriteGmailQuery p limitNs params w = Except.error
      ("query after date exceeds max_days (" ++ intToStr g.maxDays ++ ")") := by
  unfold rewriteGmailQuery
  rw [hq0]
  simp only
  rw [if_neg htrim, hg]
  simp only
  rw [if_pos hmax, hnew, hafter]
  simp only
  rw [if_pos hb]


/-- For a spec whose positionals are exactly the query key, the built
argument list starts with the query value. -/
theorem buildArgs_head (spec : ActionSpec) (params1 : Params)
    (args : List String) (qF : String)
    (hpos : spec.positional = ["query"])
    (hlook : lookupP params1 "query" = some (Json.str qF))
    (hba : buildArgs spec params1 = Except.ok args) :
    args.head? = some qF := by
  unfold buildArgs at hba
  have hnp : normalizePositional "query" (Json.str qF) = Except.ok [qF] := by
    unfold normalizePositional normalizeValue
    simp
  have hbp : buildPositional spec.positional params1 = Except.ok ([qF], ["query"]) := by
    rw [hpos]
    unfold buildPositional
    rw [hlook]
    simp only
    rw [hnp]
    simp only
    rfl
  rw [hbp] at hba
  simp only at hba
  rcases hf : buildFlags spec.paramFlags params1 with e | fa <;> rw [hf] at hba <;>
    simp only at hba
  · cases hba
  obtain ⟨flagArgs, flagSeen⟩ := fa
  rcases hm : buildMulti spec.multiValueFlag params1 with e | ma <;> rw [hm] at hba <;>
    simp only at hba
  · cases hba
  obtain ⟨multiArgs, multiSeen⟩ := ma
  split at hba
  · rw [Except.ok.injEq] at hba
    rw [← hba]
    rfl
  · cases hba

/-- A rewrite error surfaces as a forbidden response without any upstream
run. -/
theorem handleCore_forbidden (oracle : GogOracle) (req : Request)
    (limitNs : Int) (fuel : Nat) (account : String) (pol1 : Policy)
    (trace0 : List Invocation) (e : String)
    (hvr : validateAndRewrite pol1 limitNs fuel req.action req.params =
      some (Except.error e)) :
    handleCore oracle req limitNs fuel account pol1 trace0 =
      some (errResponse req.id "forbidden" e, trace0) := by
  unfold handleCore
  rw [hvr]

/-- The Handle-level query-window invariant: an ok gmail.search or
gmail.thread.list answer ran the action once with a query containing a
bounded newer_than clause or an in-window after clause. -/
theorem C2_window_run (oracle : GogOracle) (set : PolicySet) (defAcct : String)
    (limitNs : Int) (fuel : Nat) (req : Request) (pol : Policy)
    (account : String) (g : GmailPolicy) (resp : Response)
    (trace : List Invocation)
    (hact : req.action = "gmail.search" ∨ req.action = "gmail.thread.list")
    (hres : resolveSet set req.account defAcct = Except.ok (pol, account))
    (hg : pol.gmail = some g) (hmax : 0 < g.maxDays)
    (hh : Handle oracle set defAcct limitNs fuel req = some (resp, trace))
    (hok : resp.ok = true) :
    ∃ args qF, Invocation.mk account req.action args ∈ trace ∧
      args.head? = some qF ∧
      ((∃ n, clauseAt newerAt qF.toList n ∧ (n : Int) ≤ g.maxDays) ∨
       (∃ y m d2, clauseAt afterAt qF.toList (y, m, d2) ∧
         validDate y m d2 = true ∧ limitNs ≤ dateNs (Date.mk y m d2))) := by
  have hpa : req.action ≠ "policy.actions" := by
    rcases hact with h1 | h1 <;> rw [h1] <;> decide
  obtain ⟨pol2, account2, pol1, trace0, params1, w1, spec, args, data, clean, rw1,
    hres2, hallow, hvr, hpol1, htr0, hspec, hba, horc, hredact, hresp, htrace⟩ :=
    Handle_ok_run oracle set defAcct limitNs fuel req resp trace hh hok hpa
  rw [hres] at hres2
  rw [Except.ok.injEq, Prod.mk.injEq] at hres2
  obtain ⟨rfl, rfl⟩ := hres2
  have hg1 : pol1.gmail = some g := by
    rcases hpol1 with rfl | ⟨m, rfl⟩
    · exact hg
    · rw [setLabelMap_gmail]
      exact hg
  have hrw : rewriteGmailQuery pol1 limitNs req.params [] =
      Except.ok (params1, w1) := by
    rcases hact with h1 | h1 <;> rw [h1] at hvr <;>
      unfold validateAndRewrite at hvr <;>
      simp only [Option.some.injEq] at hvr <;> exact hvr
  obtain ⟨qF, hqf, hwin⟩ := rewriteGmailQuery_ok_window pol1 g limitNs req.params
    [] params1 w1 hg1 hmax hrw
  have hns : ¬ (req.action = "gmail.send" ∧ draftSendRequired pol1 params1 = true) := by
    intro hc
    rcases hact with h1 | h1 <;> rw [h1] at hc <;> exact absurd hc.1 (by decide)
  rw [if_neg hns] at hspec htrace
  have hposil : spec.positional = ["query"] := by
    rcases hact with h1 | h1 <;> rw [h1] at hspec <;>
    · have h2 : some (ActionSpec.mk ["gmail", "search"] ["query"]
        [("max", "--max"), ("page", "--page"), ("oldest", "--oldest")] []) =
          some spec := hspec
      rw [Option.some.injEq] at h2
      rw [← h2]
  have hhead := buildArgs_head spec params1 args qF hposil
    (getString_eq_some params1 "query" qF hqf) hba
  refine ⟨args, qF, ?_, hhead, hwin⟩
  rw [htrace]
  exact List.mem_append_right _ (List.mem_singleton.mpr rfl)


/-- C2.  The query-window invariant, in five parts: every ok search or
thread list answer sends upstream a query with newer_than at most max_days
or an after date at or past now minus max_days; a query with neither
clause gets newer_than appended with the query_rewritten:newer_than
warning; a newer_than clause over the bound is rejected; an after clause
older than the limit is rejected; and a rewrite error is answered as
forbidden with no upstream run. -/
theorem C2_query_window :
    (∀ (oracle : GogOracle) (set : PolicySet) (defAcct : String) (limitNs : Int)
        (fuel : Nat) (req : Request) (pol : Policy) (account : String)
        (g : GmailPolicy) (resp : Response) (trace : List Invocation),
      (req.action = "gmail.search" ∨ req.action = "gmail.thread.list") →
      resolveSet set req.account defAcct = Except.ok (pol, account) →
      pol.gmail = some g → 0 < g.maxDays →
      Handle oracle set defAcct limitNs fuel req = some (resp, trace) →
      resp.ok = true →
      ∃ args qF, Invocation.mk account req.action args ∈ trace ∧
        args.head? = some qF ∧
        ((∃ n, clauseAt newerAt qF.toList n ∧ (n : Int) ≤ g.maxDays) ∨
         (∃ y m d2, clauseAt afterAt qF.toList (y, m, d2) ∧
           validDate y m d2 = true ∧ limitNs ≤ dateNs (Date.mk y m d2)))) ∧
    (∀ (p : Policy) (g : GmailPolicy) (limitNs : Int) (params : Params)
        (w : List String) (q0 : String),
      p.gmail = some g → 0 < g.maxDays →
      getString params "query" = some q0 → goTrim q0 ≠ "" →
      extractNewerThanDays q0 = none → extractAfterDate q0 = none →
      ∃ params1 w1, rewriteGmailQuery p limitNs params w = Except.ok (params1, w1) ∧
        "query_rewritten:newer_than" ∈ w1 ∧
        ∃ qF, getString params1 "query" = some qF ∧
          (qF = goTrim (q0 ++ " newer_than:" ++ intToStr g.maxDays ++ "d") ∨
           qF = appendSenderRestriction
             (goTrim (q0 ++ " newer_than:" ++ intToStr g.maxDays ++ "d"))
             g.allowedSenders) ∧
          clauseAt newerAt qF.toList g.maxDays.toNat) ∧
    (∀ (p : Policy) (g : GmailPolicy) (limitNs : Int) (params : Params)
        (w : List String) (q0 : String) (days : Nat),
      p.gmail = some g → 0 < g.maxDays →
      getString params "query" = some q0 → goTrim q0 ≠ "" →
      extractNewerThanDays q0 = some days → g.maxDays < (days : Int) →
      rewriteGmailQuery p limitNs params w = Except.error
        ("query newer_than exceeds max_days (" ++ intToStr g.maxDays ++ ")")) ∧
    (∀ (p : Policy) (g : GmailPolicy) (limitNs : Int) (params : Params)
        (w : List String) (q0 : String) (date : Date),
      p.gmail = some g → 0 < g.maxDays →
      getString params "query" = some q0 → goTrim q0 ≠ "" →
      extractNewerThanDays q0 = none → extractAfterDate q0 = some date →
      dateNs date < limitNs →
      rewriteGmailQuery p limitNs params w = Except.error
        ("query after date exceeds max_days (" ++ intToStr g.maxDays ++ ")")) ∧
    (∀ (oracle : GogOracle) (req : Request) (limitNs : Int) (fuel : Nat)
        (account : String) (pol1 : Policy) (trace0 : List Invocation) (e : String),
      validateAndRewrite pol1 limitNs fuel req.action req.params =
        some (Except.error e) →
      handleCore oracle req limitNs fuel account pol1 trace0 =
        some (errResponse req.id "forbidden" e, trace0)) := by
  refine ⟨?_, ?_, ?_, ?_, ?_⟩
  · intro oracle set defAcct limitNs fuel req pol account g resp trace hact hres
      hg hmax hh hok
    exact C2_window_run oracle set defAcct limitNs fuel req pol account g resp
      trace hact hres hg hmax hh hok
  · intro p g limitNs params w q0 hg hmax hq0 htrim hnew hafter
    exact rewriteGmailQuery_append_branch p g limitNs params w q0 hg hmax hq0
      htrim hnew hafter
  · intro p g limitNs params w q0 days hg hmax hq0 htrim hnew hb
    exact rewriteGmailQuery_reject_newer p g limitNs params w q0 days hg hmax
      hq0 htrim hnew hb
  · intro p g limitNs params w q0 date hg hmax hq0 htrim hnew hafter hb
    exact rewriteGmailQuery_reject_after p g limitNs params w q0 date hg hmax
      hq0 htrim hnew hafter hb
  · intro oracle req limitNs fuel account pol1 trace0 e hvr
    exact handleCore_forbidden oracle req limitNs fuel account pol1 trace0 e hvr

/-- Witness for C2 on concrete queries with max_days 7. -/
theorem C2_query_window_witness :
    (∃ args qF, Invocation.mk "a@x.com" "gmail.search" args ∈
        [Invocation.mk "a@x.com" "gmail.search"
          [goTrim ("hello" ++ " newer_than:" ++ intToStr 7 ++ "d")]] ∧
      args.head? = some qF ∧
      ((∃ n, clauseAt newerAt qF.toList n ∧ (n : Int) ≤ (7 : Int)) ∨
       (∃ y m d2, clauseAt afterAt qF.toList (y, m, d2) ∧
         validDate y m d2 = true ∧ (0 : Int) ≤ dateNs (Date.mk y m d2)))) ∧
    (∃ params1 w1, rewriteGmailQuery
        (Policy.mk ["gmail.search"]
          (some (GmailPolicy.mk [] [] [] [] [] 7 false true false false))
          none [] [])
        0 [("query", Json.str "hello")] [] = Except.ok (params1, w1) ∧
      "query_rewritten:newer_than" ∈ w1 ∧
      ∃ qF, getString params1 "query" = some qF ∧
        (qF = goTrim ("hello" ++ " newer_than:" ++ intToStr 7 ++ "d") ∨
         qF = appendSenderRestriction
           (goTrim ("hello" ++ " newer_than:" ++ intToStr 7 ++ "d")) []) ∧
        clauseAt newerAt qF.toList (7 : Int).toNat) ∧
    (rewriteGmailQuery
        (Policy.mk ["gmail.search"]
          (some (GmailPolicy.mk [] [] [] [] [] 7 false true false false))
          none [] [])
        0 [("query", Json.str "newer_than:9d")] [] = Except.error
        ("query newer_than exceeds max_days (" ++ intToStr 7 ++ ")")) ∧
    (rewriteGmailQuery
        (Policy.mk ["gmail.search"]
          (some (GmailPolicy.mk [] [] [] [] [] 7 false true false false))
          none [] [])
        1704067200000000000 [("query", Json.str "after:2020/01/01")] [] =
      Except.error
        ("query after date exceeds max_days (" ++ intToStr 7 ++ ")")) ∧
    handleCore (fun _ _ _ => Except.ok (Json.obj []))
      (Request.mk "r9" "gmail.search" "" [("query", Json.str "newer_than:9d")])
      0 1 "a@x.com"
      (Policy.mk ["gmail.search"]
        (some (GmailPolicy.mk [] [] [] [] [] 7 false true false false))
        none [] [])
      [] = some (errResponse "r9" "forbidden"
        ("query newer_than exceeds max_days (" ++ intToStr 7 ++ ")"), []) := by
  refine ⟨?_, ?_, ?_, ?_, ?_⟩
  · exact C2_query_window.1 (fun _ _ _ => Except.ok (Json.obj []))
      (PolicySet.mk "a@x.com" [("a@x.com", Policy.mk ["gmail.search"]
        (some (GmailPolicy.mk [] [] [] [] [] 7 false true false false))
        none [] [])])
      "" 0 1
      (Request.mk "r2" "gmail.search" "" [("query", Json.str "hello")])
      (Policy.mk ["gmail.search"]
        (some (GmailPolicy.mk [] [] [] [] [] 7 false true false false))
        none [] [])
      "a@x.com"
      (GmailPolicy.mk [] [] [] [] [] 7 false true false false)
      (Response.mk "r2" true (some (Json.obj []))
        ["query_rewritten:newer_than"] none)
      [Invocation.mk "a@x.com" "gmail.search"
        [goTrim ("hello" ++ " newer_than:" ++ intToStr 7 ++ "d")]]
      (Or.inl rfl) rfl rfl (by decide) (by rfl) rfl
  · exact C2_query_window.2.1
      (Policy.mk ["gmail.search"]
        (some (GmailPolicy.mk [] [] [] [] [] 7 false true false false))
        none [] [])
      (GmailPolicy.mk [] [] [] [] [] 7 false true false false)
      0 [("query", Json.str "hello")] [] "hello"
      rfl (by decide) rfl (by decide) rfl rfl
  · exact C2_query_window.2.2.1
      (Policy.mk ["gmail.search"]
        (some (GmailPolicy.mk [] [] [] [] [] 7 false true false false))
        none [] [])
      (GmailPolicy.mk [] [] [] [] [] 7 false true false false)
      0 [("query", Json.str "newer_than:9d")] [] "newer_than:9d" 9
      rfl (by decide) rfl (by decide) rfl (by decide)
  · exact C2_query_window.2.2.2.1
      (Policy.mk ["gmail.search"]
        (some (GmailPolicy.mk [] [] [] [] [] 7 false true false false))
        none [] [])
      (GmailPolicy.mk [] [] [] [] [] 7 false true false false)
      1704067200000000000 [("query", Json.str "after:2020/01/01")] []
      "after:2020/01/01" (Date.mk 2020 1 1)
      rfl (by decide) rfl (by decide) rfl rfl (by decide)
  · exact C2_query_window.2.2.2.2 (fun _ _ _ => Except.ok (Json.obj []))
      (Request.mk "r9" "gmail.search" "" [("query", Json.str "newer_than:9d")])
      0 1 "a@x.com"
      (Policy.mk ["gmail.search"]
        (some (GmailPolicy.mk [] [] [] [] [] 7 false true false false))
        none [] [])
      [] ("query newer_than exceeds max_days (" ++ intToStr 7 ++ ")") (by rfl)

mutual

/-- hasAllowedJson is determined by the first string-bearing label array
alone: found iff one exists, allowed iff that first array intersects the
lowered set. -/
theorem hasJson_char (set : List String) (v : Json) :
    hasAllowedJson set v = (match firstLabelJson v with
      | none => (false, false)
      | some ss => (true, ss.any (fun s => set.contains (lowerStr s)))) := by
  match v with
  | Json.obj fs =>
    rw [show hasAllowedJson set (Json.obj fs) = hasAllowedFields set fs from rfl,
      show firstLabelJson (Json.obj fs) = firstLabelFields fs from rfl]
    exact hasFields_char set fs
  | Json.arr items =>
    rw [show hasAllowedJson set (Json.arr items) = hasAllowedItems set items from rfl,
      show firstLabelJson (Json.arr items) = firstLabelItems items from rfl]
    exact hasItems_char set items
  | Json.null => rfl
  | Json.b b => rfl
  | Json.num n => rfl
  | Json.str s => rfl

theorem hasFields_char (set : List String) (fs : List (String × Json)) :
    hasAllowedFields set fs = (match firstLabelFields fs with
      | none => (false, false)
      | some ss => (true, ss.any (fun s => set.contains (lowerStr s)))) := by
  match fs with
  | [] => rfl
  | (k, item) :: rest =>
    have hgen : (match hasAllowedJson set item with
        | (true, ok) => ((true : Bool), ok)
        | (false, _) => hasAllowedFields set rest) =
        (match (match firstLabelJson item with
          | some ss => some ss
          | none => firstLabelFields rest) with
         | none => ((false : Bool), (false : Bool))
         | some ss => (true, ss.any (fun s => set.contains (lowerStr s)))) := by
      rw [hasJson_char set item, hasFields_char set rest]
      rcases hfl : firstLabelJson item with _ | ss
      · rcases hflr : firstLabelFields rest with _ | ss2 <;> rfl
      · rfl
    simp only [hasAllowedFields, firstLabelFields]
    by_cases hk : labelKeyFold k = true
    · rw [if_pos hk, if_pos hk]
      match item with
      | Json.arr items =>
        simp only
        by_cases hany : (stringsOf items).any (fun s => set.contains (lowerStr s)) = true
        · have hne : stringsOf items ≠ [] := by
            intro hcontra
            rw [hcontra] at hany
            cases hany
          rw [if_pos hany, if_pos hne]
          simp only [hany]
        · rw [if_neg hany]
          by_cases hne : stringsOf items ≠ []
          · have h0 : (stringsOf items).any (fun s => set.contains (lowerStr s)) = false := by
              cases h2 : (stringsOf items).any (fun s => set.contains (lowerStr s))
              · rfl
              · exact absurd h2 hany
            rw [if_pos hne, if_pos hne]
            simp only [h0]
          · rw [if_neg hne, if_neg hne]
            exact hgen
      | Json.obj f2 => exact hgen
      | Json.null => exact hgen
      | Json.b b => exact hgen
      | Json.num n => exact hgen
      | Json.str s => exact hgen
    · rw [if_neg hk, if_neg hk]
      exact hgen

theorem hasItems_char (set : List String) (items : List Json) :
    hasAllowedItems set items = (match firstLabelItems items with
      | none => (false, false)
      | some ss => (true, ss.any (fun s => set.contains (lowerStr s)))) := by
  match items with
  | [] => rfl
  | item :: rest =>
    simp only [hasAllowedItems, firstLabelItems]
    rw [hasJson_char set item, hasItems_char set rest]
    rcases hfl : firstLabelJson item with _ | ss
    · rcases hflr : firstLabelItems rest with _ | ss2 <;> rfl
    · rfl

end


/-- Counterexample for C6: a thread whose second labelIds array intersects
the allow list is still rejected, because only the first array found is
consulted. -/
theorem C6_first_label_counterexample :
    Redact "gmail.thread.get"
      (Json.arr [Json.obj [("labelIds", Json.arr [Json.str "x"])],
        Json.obj [("labelIds", Json.arr [Json.str "L"])]])
      (Policy.mk ["gmail.thread.get"]
        (some (GmailPolicy.mk ["L"] [] [] [] [] 0 false true false false))
        none [] []) =
      Except.error "response does not include allowed labels" ∧
    hasAllowedLabelIDs (Json.obj [("labelIds", Json.arr [Json.str "L"])]) ["L"] =
      (true, true) := ⟨rfl, rfl⟩

/-- C6.  For the five label-checked actions with a non-empty read allow
list, redaction fails with the allowed-labels error exactly when the FIRST
labelIds or label_ids string array in the redacted tree (not every such
array, as the claim states) fails to intersect the allow list
case-insensitively; gmail.send and gmail.drafts.create always skip the
check. -/
theorem C6_first_label :
    (∀ (action : String) (pol : Policy) (g : GmailPolicy) (data : Json),
      (action = "gmail.thread.get" ∨ action = "gmail.get" ∨
       action = "gmail.thread.modify" ∨ action = "gmail.labels.get" ∨
       action = "gmail.labels.modify") →
      pol.gmail = some g → g.allowedReadLabels ≠ [] →
      (Redact action data pol =
          Except.error "response does not include allowed labels" ↔
        ∃ ss, firstLabelJson (redactJson data pol).1 = some ss ∧
          ss.any (fun s =>
            (g.allowedReadLabels.map lowerStr).contains (lowerStr s)) = false)) ∧
    (∀ (action : String) (pol : Policy) (g : GmailPolicy) (data : Json),
      (action = "gmail.send" ∨ action = "gmail.drafts.create") →
      pol.gmail = some g →
      Redact action data pol = Except.ok (redactJson data pol)) := by
  constructor
  · intro action pol g data hact hg hra
    have hcheck : Redact action data pol =
        (match hasAllowedLabelIDs (redactJson data pol).1 g.allowedReadLabels with
         | (true, false) => Except.error "response does not include allowed labels"
         | _ => Except.ok ((redactJson data pol).1, (redactJson data pol).2)) := by
      rcases hrj : redactJson data pol with ⟨clean, w⟩
      unfold Redact
      rcases hact with rfl | rfl | rfl | rfl | rfl <;>
        rw [if_pos (by decide), hg] <;>
        simp only <;>
        rw [hrj] <;>
        simp only <;>
        rw [if_neg (by decide), if_neg (by decide), if_neg (by decide),
          if_pos hra]
    rw [hcheck]
    unfold hasAllowedLabelIDs
    rw [hasJson_char]
    rcases hfl : firstLabelJson (redactJson data pol).1 with _ | ss
    · simp only
      constructor
      · intro hcontra
        cases hcontra
      · intro ⟨ss, hss, _⟩
        cases hss
    · simp only
      by_cases hany : ss.any (fun s =>
          (g.allowedReadLabels.map lowerStr).contains (lowerStr s)) = true
      · rw [hany]
        simp only
        constructor
        · intro hcontra
          cases hcontra
        · intro ⟨ss2, hss2, hany2⟩
          rw [Option.some.injEq] at hss2
          subst hss2
          rw [hany] at hany2
          cases hany2
      · have h0 : ss.any (fun s =>
            (g.allowedReadLabels.map lowerStr).contains (lowerStr s)) = false := by
          cases h2 : ss.any (fun s =>
              (g.allowedReadLabels.map lowerStr).contains (lowerStr s))
          · rfl
          · exact absurd h2 hany
        rw [h0]
        simp only
        constructor
        · intro _
          exact ⟨ss, rfl, h0⟩
        · intro _
          trivial
  · intro action pol g data hact hg
    rcases hrj : redactJson data pol with ⟨clean, w⟩
    unfold Redact
    rcases hact with rfl | rfl <;>
      rw [if_pos (by decide), hg] <;>
      simp only <;>
      rw [hrj] <;>
      simp only <;>
      rw [if_neg (by decide), if_neg (by decide), if_pos (by decide)]

/-- Witness for C6 at the counterexample tree and a send request. -/
theorem C6_first_label_witness :
    (Redact "gmail.thread.get"
        (Json.arr [Json.obj [("labelIds", Json.arr [Json.str "x"])],
          Json.obj [("labelIds", Json.arr [Json.str "L"])]])
        (Policy.mk ["gmail.thread.get"]
          (some (GmailPolicy.mk ["L"] [] [] [] [] 0 false true false false))
          none [] []) =
        Except.error "response does not include allowed labels" ↔
      ∃ ss, firstLabelJson (redactJson
          (Json.arr [Json.obj [("labelIds", Json.arr [Json.str "x"])],
            Json.obj [("labelIds", Json.arr [Json.str "L"])]])
          (Policy.mk ["gmail.thread.get"]
            (some (GmailPolicy.mk ["L"] [] [] [] [] 0 false true false false))
            none [] [])).1 = some ss ∧
        ss.any (fun s => ((["L"].map lowerStr)).contains (lowerStr s)) = false) ∧
    Redact "gmail.send" (Json.str "hi")
      (Policy.mk ["gmail.send"]
        (some (GmailPolicy.mk ["L"] [] [] [] [] 0 false true false false))
        none [] []) =
      Except.ok (redactJson (Json.str "hi")
        (Policy.mk ["gmail.send"]
          (some (GmailPolicy.mk ["L"] [] [] [] [] 0 false true false false))
          none [] [])) := by
  constructor
  · exact C6_first_label.1 "gmail.thread.get"
      (Policy.mk ["gmail.thread.get"]
        (some (GmailPolicy.mk ["L"] [] [] [] [] 0 false true false false))
        none [] [])
      (GmailPolicy.mk ["L"] [] [] [] [] 0 false true false false)
      (Json.arr [Json.obj [("labelIds", Json.arr [Json.str "x"])],
        Json.obj [("labelIds", Json.arr [Json.str "L"])]])
      (Or.inl rfl) rfl (List.cons_ne_nil _ _)
  · exact C6_first_label.2 "gmail.send"
      (Policy.mk ["gmail.send"]
        (some (GmailPolicy.mk ["L"] [] [] [] [] 0 false true false false))
        none [] [])
      (GmailPolicy.mk ["L"] [] [] [] [] 0 false true false false)
      (Json.str "hi") (Or.inl rfl) rfl


/-- No url match can start at a character other than h. -/
theorem isUrlStart_head_ne (c : Char) (l : List Char) (hc : c ≠ 'h') :
    isUrlStart (c :: l) = false := by
  unfold isUrlStart urlLitLen
  have h8 : ¬ (['h', 't', 't', 'p', 's', ':', '/', '/'].isPrefixOf (c :: l) = true) := by
    intro hcontra
    obtain ⟨t, ht⟩ := List.isPrefixOf_iff_prefix.mp hcontra
    rw [List.cons_append] at ht
    cases ht
    exact hc rfl
  have h7 : ¬ (['h', 't', 't', 'p', ':', '/', '/'].isPrefixOf (c :: l) = true) := by
    intro hcontra
    obtain ⟨t, ht⟩ := List.isPrefixOf_iff_prefix.mp hcontra
    rw [List.cons_append] at ht
    cases ht
    exact hc rfl
  rw [if_neg h8, if_neg h7]

/-- A url match starts with h. -/
theorem urlStart_head (cs : List Char) (h : isUrlStart cs = true) :
    ∃ t, cs = 'h' :: t := by
  unfold isUrlStart urlLitLen at h
  by_cases h8 : ['h', 't', 't', 'p', 's', ':', '/', '/'].isPrefixOf cs = true
  · obtain ⟨t, ht⟩ := List.isPrefixOf_iff_prefix.mp h8
    rw [List.cons_append] at ht
    exact ⟨_, ht.symm⟩
  · rw [if_neg h8] at h
    by_cases h7 : ['h', 't', 't', 'p', ':', '/', '/'].isPrefixOf cs = true
    · obtain ⟨t, ht⟩ := List.isPrefixOf_iff_prefix.mp h7
      rw [List.cons_append] at ht
      exact ⟨_, ht.symm⟩
    · rw [if_neg h7] at h
      cases h

/-- agreeShape is preserved by a common head. -/
theorem agreeShape_cons (X Y : List Char) (c : Char) (h : agreeShape X Y) :
    agreeShape (c :: X) (c :: Y) := by
  rcases h with rfl | ⟨j, htake, hXj, hYj⟩
  · exact Or.inl rfl
  · refine Or.inr ⟨j + 1, ?_, ?_, ?_⟩
    · rw [List.take_succ_cons, List.take_succ_cons, htake]
    · rw [List.getElem?_cons_succ]
      exact hXj
    · rw [List.getElem?_cons_succ]
      exact hYj

/-- White space is never the h of a url literal. -/
theorem reSpace_ne_h (c : Char) (h : reSpace c = true) : c ≠ 'h' := by
  unfold reSpace at h
  simp only [decide_eq_true_eq, Bool.or_eq_true] at h
  rcases h with rfl | rfl | rfl | rfl | rfl <;> decide

/-- A bracket-free literal prefix, with its follower character, transfers
across agreeShape to the other list. -/
theorem lit_prefix_transfer (lit X Y : List Char) (j : Nat) (d : Char)
    (hnb : '[' ∉ lit)
    (hpre : lit <+: X)
    (htake : X.take j = Y.take j)
    (hXj : X[j]? = some '[')
    (hYj : Y[j]? = some 'h')
    (hd : X[lit.length]? = some d) :
    lit <+: Y ∧ ∃ e, Y[lit.length]? = some e ∧ (e = 'h' ∨ e = d) := by
  have hjge : lit.length ≤ j := by
    by_contra hlt
    push_neg at hlt
    obtain ⟨t0, ht0⟩ := hpre
    rw [← ht0, List.getElem?_append_left hlt] at hXj
    exact hnb (List.getElem?_mem hXj)
  have htakeY : Y.take lit.length = lit := by
    calc Y.take lit.length
        = (Y.take j).take lit.length := by
          rw [List.take_take, Nat.min_eq_left hjge]
      _ = (X.take j).take lit.length := by rw [htake]
      _ = X.take lit.length := by
          rw [List.take_take, Nat.min_eq_left hjge]
      _ = lit := (List.prefix_iff_eq_take.mp hpre).symm
  have hpreY : lit <+: Y := htakeY ▸ List.take_prefix lit.length Y
  refine ⟨hpreY, ?_⟩
  rcases Nat.lt_or_ge lit.length j with hlt | hge
  · refine ⟨d, ?_, Or.inr rfl⟩
    rw [← List.getElem?_take_of_lt hlt, ← htake, List.getElem?_take_of_lt hlt]
    exact hd
  · have hj : j = lit.length := Nat.le_antisymm hge hjge
    subst hj
    exact ⟨'h', hYj, Or.inl rfl⟩

/-- A url-match start transfers across agreeShape: if the output of the
scan starts a match, so did the input at the same place. -/
theorem urlStart_transfer (X Y : List Char) (h : agreeShape X Y)
    (hX : isUrlStart X = true) : isUrlStart Y = true := by
  rcases h with rfl | ⟨j, htake, hXj, hYj⟩
  · exact hX
  unfold isUrlStart at hX
  rcases hlit : urlLitLen X with _ | L <;> rw [hlit] at hX <;> simp only at hX
  · cases hX
  split at hX
  case _ d t hdrop =>
    have hXL : X[L]? = some d := by
      rw [← List.head?_drop, hdrop]
      rfl
    unfold urlLitLen at hlit
    by_cases h8 : ['h', 't', 't', 'p', 's', ':', '/', '/'].isPrefixOf X = true
    · rw [if_pos h8, Option.some.injEq] at hlit
      subst hlit
      obtain ⟨hpreY, e, hYL, he⟩ := lit_prefix_transfer
        ['h', 't', 't', 'p', 's', ':', '/', '/'] X Y j d (by decide)
        (List.isPrefixOf_iff_prefix.mp h8) htake hXj hYj hXL
      unfold isUrlStart urlLitLen
      rw [if_pos (List.isPrefixOf_iff_prefix.mpr hpreY)]
      have hcons : ∃ t2, Y.drop 8 = e :: t2 := by
        have h0 : (Y.drop 8).head? = some e := by
          rw [List.head?_drop]
          exact hYL
        rcases hh : Y.drop 8 with _ | ⟨e2, t2⟩
        · rw [hh] at h0
          cases h0
        · rw [hh, List.head?_cons, Option.some.injEq] at h0
          subst h0
          exact ⟨t2, rfl⟩
      obtain ⟨t2, ht2⟩ := hcons
      simp only
      rw [ht2]
      simp only
      rcases he with rfl | rfl
      · decide
      · exact hX
    · rw [if_neg h8] at hlit
      by_cases h7 : ['h', 't', 't', 'p', ':', '/', '/'].isPrefixOf X = true
      · rw [if_pos h7, Option.some.injEq] at hlit
        subst hlit
        obtain ⟨hpreY, e, hYL, he⟩ := lit_prefix_transfer
          ['h', 't', 't', 'p', ':', '/', '/'] X Y j d (by decide)
          (List.isPrefixOf_iff_prefix.mp h7) htake hXj hYj hXL
        unfold isUrlStart urlLitLen
        have hY8 : ¬ (['h', 't', 't', 'p', 's', ':', '/', '/'].isPrefixOf Y = true) := by
          intro hcontra
          obtain ⟨t1, ht1⟩ := List.isPrefixOf_iff_prefix.mp hcontra
          obtain ⟨t2, ht2⟩ := hpreY
          rw [← ht2] at ht1
          have e1 : (['h', 't', 't', 'p', ':', '/', '/'] ++ t2)[4]? = some ':' := by
            rw [List.getElem?_append_left (by decide)]
            rfl
          rw [← ht1] at e1
          rw [List.getElem?_append_left (by decide)] at e1
          cases e1
        rw [if_neg hY8, if_pos (List.isPrefixOf_iff_prefix.mpr hpreY)]
        have hcons : ∃ t2, Y.drop 7 = e :: t2 := by
          have h0 : (Y.drop 7).head? = some e := by
            rw [List.head?_drop]
            exact hYL
          rcases hh : Y.drop 7 with _ | ⟨e2, t2⟩
          · rw [hh] at h0
            cases h0
          · rw [hh, List.head?_cons, Option.some.injEq] at h0
            subst h0
            exact ⟨t2, rfl⟩
        obtain ⟨t2, ht2⟩ := hcons
        simp only
        rw [ht2]
        simp only
        rcases he with rfl | rfl
        · decide
        · exact hX
      · rw [if_neg h7] at hlit
        cases hlit
  case _ =>
    cases hX

/-- The url scan output agrees with its input in the agreeShape sense. -/
theorem out_agree (cs : List Char) :
    agreeShape (replaceUrlsGo UrlMode.copy cs) cs := by
  induction cs with
  | nil => exact Or.inl rfl
  | cons c cs ih =>
    simp only [replaceUrlsGo]
    by_cases hm : isUrlStart (c :: cs) = true
    · rw [if_pos hm]
      refine Or.inr ⟨0, rfl, rfl, ?_⟩
      obtain ⟨t, ht⟩ := urlStart_head _ hm
      rw [ht, List.getElem?_cons_zero]
    · rw [if_neg hm]
      exact agreeShape_cons _ _ c ih

theorem redactedList_eq :
    redactedList = ['[', 'r', 'e', 'd', 'a', 'c', 't', 'e', 'd', ']'] := rfl

/-- No url match starts anywhere in the output of the url scan. -/
theorem noUrl_out (cs : List Char) : ∀ (mode : UrlMode) (i : Nat),
    isUrlStart ((replaceUrlsGo mode cs).drop i) = false := by
  induction cs with
  | nil =>
    intro mode i
    have h0 : replaceUrlsGo mode [] = [] := by cases mode <;> rfl
    rw [h0, List.drop_nil]
    rfl
  | cons c cs ih =>
    intro mode i
    match mode with
    | UrlMode.dropRem m =>
      simp only [replaceUrlsGo]
      by_cases hm : m ≤ 1
      · rw [if_pos hm]
        exact ih UrlMode.run i
      · rw [if_neg hm]
        exact ih (UrlMode.dropRem (m - 1)) i
    | UrlMode.run =>
      simp only [replaceUrlsGo]
      by_cases hs : reSpace c = true
      · rw [if_pos hs]
        match i with
        | 0 =>
          rw [List.drop_zero]
          exact isUrlStart_head_ne c _ (reSpace_ne_h c hs)
        | i + 1 =>
          rw [List.drop_succ_cons]
          exact ih UrlMode.copy i
      · rw [if_neg hs]
        exact ih UrlMode.run i
    | UrlMode.copy =>
      simp only [replaceUrlsGo]
      by_cases hm : isUrlStart (c :: cs) = true
      · rw [if_pos hm]
        by_cases hi : i < 10
        · rw [List.drop_append_of_le_length (by rw [redactedList_eq]; simp; omega)]
          rw [redactedList_eq]
          interval_cases i <;>
            exact isUrlStart_head_ne _ _ (by decide)
        · have hieq : i = redactedList.length + (i - 10) := by
            rw [redactedList_eq]
            simp
            omega
          rw [hieq, List.drop_append]
          exact ih (UrlMode.dropRem _) (i - 10)
      · rw [if_neg hm]
        match i with
        | 0 =>
          rw [List.drop_zero]
          cases hstart : isUrlStart (c :: replaceUrlsGo UrlMode.copy cs)
          · rfl
          · have hagree := agreeShape_cons _ _ c (out_agree cs)
            exact absurd (urlStart_transfer _ _ hagree hstart) hm
        | i + 1 =>
          rw [List.drop_succ_cons]
          exact ih UrlMode.copy i

/-- The url scan is the identity on match-free text. -/
theorem out_id_of_noUrl (cs : List Char)
    (h : ∀ i, isUrlStart (cs.drop i) = false) :
    replaceUrlsGo UrlMode.copy cs = cs := by
  induction cs with
  | nil => rfl
  | cons c cs ih =>
    simp only [replaceUrlsGo]
    have h0 := h 0
    rw [List.drop_zero] at h0
    rw [if_neg (by rw [h0]; exact Bool.false_ne_true)]
    congr 1
    apply ih
    intro i
    have := h (i + 1)
    rwa [List.drop_succ_cons] at this

/-- replaceUrls is idempotent. -/
theorem replaceUrls_idem (s : String) :
    replaceUrls (replaceUrls s) = replaceUrls s := by
  unfold replaceUrls
  congr 1
  rw [show ((replaceUrlsGo UrlMode.copy s.toList).asString).toList =
    replaceUrlsGo UrlMode.copy s.toList from rfl]
  exact out_id_of_noUrl _ (fun i => noUrl_out s.toList UrlMode.copy i)

theorem sanitizeString_idem (pol : Policy)
    (hsend : ∀ g, pol.gmail = some g → g.allowedSenders = [])
    (s : String) :
    sanitizeString (sanitizeString s pol) pol = sanitizeString s pol := by
  unfold sanitizeString
  rcases hg : pol.gmail with _ | g
  · rcases hc : pol.calendar with _ | c
    · rfl
    · simp only
      by_cases hd : c.allowDetails = true
      · rw [if_pos hd, if_pos hd]
      · rw [if_neg hd, if_neg hd, replaceUrls_idem]
  · have hs0 : g.allowedSenders = [] := hsend g hg
    have hmask : ¬ (g.allowedSenders ≠ []) := by
      rw [hs0]
      intro hcontra
      exact hcontra rfl
    simp only
    rw [if_neg hmask, if_neg hmask]
    rcases hc : pol.calendar with _ | c
    · simp only
      by_cases hl : g.allowLinks = true
      · rw [if_pos hl, if_pos hl]
      · rw [if_neg hl, if_neg hl, replaceUrls_idem]
    · simp only
      by_cases hl : g.allowLinks = true
      · rw [if_pos hl, if_pos hl]
        by_cases hd : c.allowDetails = true
        · rw [if_pos hd, if_pos hd]
        · rw [if_neg hd, if_neg hd, replaceUrls_idem]
      · rw [if_neg hl, if_neg hl]
        by_cases hd : c.allowDetails = true
        · rw [if_pos hd, if_pos hd, replaceUrls_idem]
        · rw [if_neg hd, if_neg hd, replaceUrls_idem, replaceUrls_idem]


mutual

theorem redactJson_of_clean (pol : Policy) (j : Json)
    (h : cleanJson pol j = true) : redactJson j pol = (j, []) := by
  match j with
  | Json.obj fs =>
    rw [show cleanJson pol (Json.obj fs) = cleanFields pol fs from rfl] at h
    simp only [redactJson]
    rw [redactFields_of_clean pol fs h]
  | Json.arr xs =>
    rw [show cleanJson pol (Json.arr xs) = cleanList pol xs from rfl] at h
    simp only [redactJson]
    rw [redactList_of_clean pol xs h]
  | Json.str s =>
    rw [show cleanJson pol (Json.str s) = (sanitizeString s pol == s) from rfl,
      beq_iff_eq] at h
    simp only [redactJson]
    rw [h]
    rw [if_neg (by intro hc; exact hc rfl)]
  | Json.null => rfl
  | Json.b b => rfl
  | Json.num n => rfl

theorem redactFields_of_clean (pol : Policy) (fs : List (String × Json))
    (h : cleanFields pol fs = true) : redactFields fs pol = (fs, []) := by
  match fs with
  | [] => rfl
  | (k, v) :: rest =>
    rw [show cleanFields pol ((k, v) :: rest) =
      (!shouldDropKey k pol && cleanJson pol v && cleanFields pol rest) from rfl] at h
    rw [Bool.and_eq_true, Bool.and_eq_true] at h
    obtain ⟨⟨hk, hv⟩, hrest⟩ := h
    simp only [redactFields]
    rw [if_neg (by rw [Bool.not_eq_true'] at hk; rw [hk]; exact Bool.false_ne_true)]
    rw [redactJson_of_clean pol v hv, redactFields_of_clean pol rest hrest]
    rfl

theorem redactList_of_clean (pol : Policy) (xs : List Json)
    (h : cleanList pol xs = true) : redactList xs pol = (xs, []) := by
  match xs with
  | [] => rfl
  | x :: rest =>
    rw [show cleanList pol (x :: rest) =
      (cleanJson pol x && cleanList pol rest) from rfl] at h
    rw [Bool.and_eq_true] at h
    obtain ⟨hx, hrest⟩ := h
    simp only [redactList]
    rw [redactJson_of_clean pol x hx, redactList_of_clean pol rest hrest]
    rfl

end

mutual

theorem redactJson_clean (pol : Policy)
    (hsend : ∀ g, pol.gmail = some g → g.allowedSenders = []) (j : Json) :
    cleanJson pol (redactJson j pol).1 = true := by
  match j with
  | Json.obj fs =>
    rcases hrf : redactFields fs pol with ⟨fs2, w⟩
    simp only [redactJson, hrf]
    have := redactFields_clean pol hsend fs
    rw [hrf] at this
    exact this
  | Json.arr xs =>
    rcases hrl : redactList xs pol with ⟨xs2, w⟩
    simp only [redactJson, hrl]
    have := redactList_clean pol hsend xs
    rw [hrl] at this
    exact this
  | Json.str s =>
    simp only [redactJson]
    by_cases hchg : sanitizeString s pol ≠ s
    · rw [if_pos hchg]
      rw [show cleanJson pol (Json.str (sanitizeString s pol)) =
        (sanitizeString (sanitizeString s pol) pol == sanitizeString s pol) from rfl]
      rw [sanitizeString_idem pol hsend s]
      exact beq_self_eq_true _
    · rw [if_neg hchg]
      push_neg at hchg
      rw [show cleanJson pol (Json.str s) = (sanitizeString s pol == s) from rfl]
      rw [hchg]
      exact beq_self_eq_true _
  | Json.null => rfl
  | Json.b b => rfl
  | Json.num n => rfl

theorem redactFields_clean (pol : Policy)
    (hsend : ∀ g, pol.gmail = some g → g.allowedSenders = [])
    (fs : List (String × Json)) :
    cleanFields pol (redactFields fs pol).1 = true := by
  match fs with
  | [] => rfl
  | (k, v) :: rest =>
    simp only [redactFields]
    by_cases hk : shouldDropKey k pol = true
    · rw [if_pos hk]
      rcases hrr : redactFields rest pol with ⟨r2, w2⟩
      simp only
      have := redactFields_clean pol hsend rest
      rw [hrr] at this
      exact this
    · rw [if_neg hk]
      rcases hrv : redactJson v pol with ⟨v2, w1⟩
      rcases hrr : redactFields rest pol with ⟨r2, w2⟩
      simp only
      rw [show cleanFields pol ((k, v2) :: r2) =
        (!shouldDropKey k pol && cleanJson pol v2 && cleanFields pol r2) from rfl]
      rw [Bool.and_eq_true, Bool.and_eq_true]
      refine ⟨⟨?_, ?_⟩, ?_⟩
      · rw [Bool.not_eq_true']
        cases h2 : shouldDropKey k pol
        · rfl
        · exact absurd h2 hk
      · have := redactJson_clean pol hsend v
        rw [hrv] at this
        exact this
      · have := redactFields_clean pol hsend rest
        rw [hrr] at this
        exact this

theorem redactList_clean (pol : Policy)
    (hsend : ∀ g, pol.gmail = some g → g.allowedSenders = [])
    (xs : List Json) :
    cleanList pol (redactList xs pol).1 = true := by
  match xs with
  | [] => rfl
  | x :: rest =>
    simp only [redactList]
    rcases hrv : redactJson x pol with ⟨x2, w1⟩
    rcases hrr : redactList rest pol with ⟨r2, w2⟩
    simp only
    rw [show cleanList pol (x2 :: r2) =
      (cleanJson pol x2 && cleanList pol r2) from rfl]
    rw [Bool.and_eq_true]
    constructor
    · have := redactJson_clean pol hsend x
      rw [hrv] at this
      exact this
    · have := redactList_clean pol hsend rest
      rw [hrr] at this
      exact this

end

theorem filter_self_idem {α : Type} (l : List α) (p : α → Bool) :
    (l.filter p).filter p = l.filter p := by
  apply List.filter_eq_self.mpr
  intro a ha
  exact List.of_mem_filter ha

theorem cleanList_filter (pol : Policy) (p : Json → Bool) (xs : List Json)
    (h : cleanList pol xs = true) : cleanList pol (xs.filter p) = true := by
  induction xs with
  | nil => rfl
  | cons x rest ih =>
    rw [show cleanList pol (x :: rest) =
      (cleanJson pol x && cleanList pol rest) from rfl, Bool.and_eq_true] at h
    rw [List.filter_cons]
    by_cases hp : p x = true
    · rw [if_pos hp]
      rw [show cleanList pol (x :: rest.filter p) =
        (cleanJson pol x && cleanList pol (rest.filter p)) from rfl,
        Bool.and_eq_true]
      exact ⟨h.1, ih h.2⟩
    · rw [if_neg hp]
      exact ih h.2

theorem cleanFields_lookup (pol : Policy) (fs : List (String × Json))
    (k : String) (v : Json) (h : cleanFields pol fs = true)
    (hl : lookupP fs k = some v) : cleanJson pol v = true := by
  induction fs with
  | nil => cases hl
  | cons kv rest ih =>
    obtain ⟨k1, v1⟩ := kv
    rw [show cleanFields pol ((k1, v1) :: rest) =
      (!shouldDropKey k1 pol && cleanJson pol v1 && cleanFields pol rest) from rfl,
      Bool.and_eq_true, Bool.and_eq_true] at h
    simp only [lookupP] at hl
    by_cases hk : k1 = k
    · rw [if_pos hk, Option.some.injEq] at hl
      rw [← hl]
      exact h.1.2
    · rw [if_neg hk] at hl
      exact ih h.2 hl

theorem cleanFields_setP (pol : Policy) (fs : List (String × Json))
    (k : String) (v : Json) (h : cleanFields pol fs = true)
    (hk : shouldDropKey k pol = false) (hv : cleanJson pol v = true) :
    cleanFields pol (setP fs k v) = true := by
  induction fs with
  | nil =>
    rw [show setP ([] : Params) k v = [(k, v)] from rfl]
    rw [show cleanFields pol [(k, v)] =
      (!shouldDropKey k pol && cleanJson pol v && cleanFields pol []) from rfl,
      Bool.and_eq_true, Bool.and_eq_true]
    exact ⟨⟨by rw [Bool.not_eq_true', hk], hv⟩, rfl⟩
  | cons kv rest ih =>
    obtain ⟨k1, v1⟩ := kv
    rw [show cleanFields pol ((k1, v1) :: rest) =
      (!shouldDropKey k1 pol && cleanJson pol v1 && cleanFields pol rest) from rfl,
      Bool.and_eq_true, Bool.and_eq_true] at h
    simp only [setP]
    by_cases hkk : k1 = k
    · rw [if_pos hkk]
      rw [show cleanFields pol ((k1, v) :: rest) =
        (!shouldDropKey k1 pol && cleanJson pol v && cleanFields pol rest) from rfl,
        Bool.and_eq_true, Bool.and_eq_true]
      exact ⟨⟨by rw [Bool.not_eq_true', hkk, hk], hv⟩, h.2⟩
    · rw [if_neg hkk]
      rw [show cleanFields pol ((k1, v1) :: setP rest k v) =
        (!shouldDropKey k1 pol && cleanJson pol v1 && cleanFields pol (setP rest k v)) from rfl,
        Bool.and_eq_true, Bool.and_eq_true]
      exact ⟨h.1, ih h.2⟩

theorem shouldDropKey_threads (pol : Policy) :
    shouldDropKey "threads" pol = false := by
  unfold shouldDropKey
  rcases pol.gmail with _ | g <;> rcases pol.calendar with _ | c <;>
    simp [alwaysDropKeys, snippetKeys, bodyKeys, calendarDetailKeys]

theorem shouldDropKey_labels (pol : Policy) :
    shouldDropKey "labels" pol = false := by
  unfold shouldDropKey
  rcases pol.gmail with _ | g <;> rcases pol.calendar with _ | c <;>
    simp [alwaysDropKeys, snippetKeys, bodyKeys, calendarDetailKeys]

theorem shouldDropKey_calendars (pol : Policy) :
    shouldDropKey "calendars" pol = false := by
  unfold shouldDropKey
  rcases pol.gmail with _ | g <;> rcases pol.calendar with _ | c <;>
    simp [alwaysDropKeys, snippetKeys, bodyKeys, calendarDetailKeys]

theorem filterSearchResults_clean (pol : Policy) (d : Json) (allowed : List String)
    (h : cleanJson pol d = true) :
    cleanJson pol (filterSearchResults d allowed pol).1 = true := by
  unfold filterSearchResults
  by_cases ha : allowed = []
  · rw [if_pos ha]
    exact h
  rw [if_neg ha]
  match d with
  | Json.obj root =>
    simp only
    rcases hlook : lookupP root "threads" with _ | v
    · exact h
    match v with
    | Json.arr items =>
      simp only
      by_cases hlen : (items.filter (fun item =>
          allowedLabelForItem item allowed pol)).length ≠ items.length
      · rw [if_pos hlen]
        rw [show cleanJson pol (Json.obj (setP root "threads"
          (Json.arr (items.filter (fun item => allowedLabelForItem item allowed pol))))) =
          cleanFields pol (setP root "threads"
          (Json.arr (items.filter (fun item => allowedLabelForItem item allowed pol)))) from rfl]
        apply cleanFields_setP pol root _ _ h (shouldDropKey_threads pol)
        have hclarr : cleanJson pol (Json.arr items) = true :=
          cleanFields_lookup pol root "threads" (Json.arr items) h hlook
        rw [show cleanJson pol (Json.arr items) = cleanList pol items from rfl] at hclarr
        rw [show cleanJson pol (Json.arr (items.filter
          (fun item => allowedLabelForItem item allowed pol))) =
          cleanList pol (items.filter
          (fun item => allowedLabelForItem item allowed pol)) from rfl]
        exact cleanList_filter pol _ items hclarr
      · rw [if_neg hlen]
        exact h
    | Json.obj f2 => exact h
    | Json.null => exact h
    | Json.b b => exact h
    | Json.num n => exact h
    | Json.str s => exact h
  | Json.arr xs => exact h
  | Json.null => exact h
  | Json.b b => exact h
  | Json.num n => exact h
  | Json.str s => exact h

theorem filterSearchResults_of_fixed (pol : Policy) (allowed : List String)
    (d : Json)
    (hfix : allowed ≠ [] → ∀ root items, d = Json.obj root →
      lookupP root "threads" = some (Json.arr items) →
      ∀ x ∈ items, allowedLabelForItem x allowed pol = true) :
    filterSearchResults d allowed pol = (d, []) := by
  unfold filterSearchResults
  by_cases ha : allowed = []
  · rw [if_pos ha]
  rw [if_neg ha]
  match d with
  | Json.obj root =>
    simp only
    rcases hlook : lookupP root "threads" with _ | v
    · rfl
    match v with
    | Json.arr items =>
      simp only
      have hall : items.filter (fun item => allowedLabelForItem item allowed pol) =
          items :=
        List.filter_eq_self.mpr (hfix ha root items rfl hlook)
      rw [hall]
      rw [if_neg (by intro hcontra; exact hcontra rfl)]
    | Json.obj f2 => rfl
    | Json.null => rfl
    | Json.b b => rfl
    | Json.num n => rfl
    | Json.str s => rfl
  | Json.arr xs => rfl
  | Json.null => rfl
  | Json.b b => rfl
  | Json.num n => rfl
  | Json.str s => rfl

theorem filterSearchResults_fixed (pol : Policy) (allowed : List String)
    (d : Json) (ha : allowed ≠ []) :
    ∀ root items, (filterSearchResults d allowed pol).1 = Json.obj root →
      lookupP root "threads" = some (Json.arr items) →
      ∀ x ∈ items, allowedLabelForItem x allowed pol = true := by
  intro root items heq hlook x hx
  unfold filterSearchResults at heq
  rw [if_neg ha] at heq
  match d, heq with
  | Json.obj root0, heq =>
    simp only at heq
    rcases hlook0 : lookupP root0 "threads" with _ | v <;> rw [hlook0] at heq
    · simp only [Json.obj.injEq] at heq
      subst heq
      rw [hlook0] at hlook
      cases hlook
    match v, heq with
    | Json.arr items0, heq =>
      simp only at heq
      by_cases hlen : (items0.filter (fun item =>
          allowedLabelForItem item allowed pol)).length ≠ items0.length
      · rw [if_pos hlen] at heq
        simp only [Json.obj.injEq] at heq
        subst heq
        rw [lookupP_setP, if_pos rfl, Option.some.injEq, Json.arr.injEq] at hlook
        subst hlook
        have hmem := List.of_mem_filter hx
        simpa using hmem
      · rw [if_neg hlen] at heq
        simp only [Json.obj.injEq] at heq
        subst heq
        rw [hlook0, Option.some.injEq, Json.arr.injEq] at hlook
        subst hlook
        push_neg at hlen
        have hall := List.filter_length_eq_length.mp hlen
        exact hall x hx
    | Json.obj f2, heq => ?_
    | Json.null, heq => ?_
    | Json.b b, heq => ?_
    | Json.num n, heq => ?_
    | Json.str s, heq => ?_
    all_goals
      simp only [Json.obj.injEq] at heq
    all_goals
      subst heq
    all_goals
      rw [hlook0] at hlook
    all_goals
      cases hlook
  | Json.arr xs, heq => cases heq
  | Json.null, heq => cases heq
  | Json.b b, heq => cases heq
  | Json.num n, heq => cases heq
  | Json.str s, heq => cases heq

theorem filterSearchResults_stable (pol : Policy) (d : Json)
    (allowed : List String) :
    filterSearchResults (filterSearchResults d allowed pol).1 allowed pol =
      ((filterSearchResults d allowed pol).1, []) := by
  apply filterSearchResults_of_fixed
  intro ha
  exact filterSearchResults_fixed pol allowed d ha

theorem filterLabelsList_clean (pol : Policy) (d : Json) (allowed : List String)
    (h : cleanJson pol d = true) :
    cleanJson pol (filterLabelsList d allowed).1 = true := by
  unfold filterLabelsList
  by_cases ha : allowed = []
  · rw [if_pos ha]
    exact h
  rw [if_neg ha]
  rcases d with _ | b | n | s | xs | root <;> try exact h
  simp only
  rcases hlook : lookupP root "labels" with _ | v
  · exact h
  rcases v with _ | b2 | n2 | s2 | items | f2 <;> try exact h
  simp only
  split
  · rw [show ∀ l, cleanJson pol (Json.obj l) = cleanFields pol l from fun _ => rfl]
    apply cleanFields_setP pol root _ _ h (shouldDropKey_labels pol)
    have hclarr : cleanJson pol (Json.arr items) = true :=
      cleanFields_lookup pol root "labels" (Json.arr items) h hlook
    rw [show cleanJson pol (Json.arr items) = cleanList pol items from rfl] at hclarr
    rw [show ∀ l, cleanJson pol (Json.arr l) = cleanList pol l from fun _ => rfl]
    exact cleanList_filter pol _ items hclarr
  · exact h

theorem filterLabelsList_stable (d : Json) (allowed : List String) :
    filterLabelsList (filterLabelsList d allowed).1 allowed =
      ((filterLabelsList d allowed).1, []) := by
  rcases hout : filterLabelsList d allowed with ⟨d1, w1⟩
  simp only
  unfold filterLabelsList at hout
  by_cases ha : allowed = []
  · rw [if_pos ha, Prod.mk.injEq] at hout
    unfold filterLabelsList
    rw [if_pos ha]
  rw [if_neg ha] at hout
  unfold filterLabelsList
  rw [if_neg ha]
  simp only at hout ⊢
  rcases d with _ | b | n | s | xs | root
  · simp only at hout
    rw [Prod.mk.injEq] at hout
    rw [← hout.1]
  · simp only at hout
    rw [Prod.mk.injEq] at hout
    rw [← hout.1]
  · simp only at hout
    rw [Prod.mk.injEq] at hout
    rw [← hout.1]
  · simp only at hout
    rw [Prod.mk.injEq] at hout
    rw [← hout.1]
  · simp only at hout
    rw [Prod.mk.injEq] at hout
    rw [← hout.1]
  · simp only at hout
    rcases hlook : lookupP root "labels" with _ | v <;> rw [hlook] at hout
    · rw [Prod.mk.injEq] at hout
      rw [← hout.1]
      simp only
      rw [hlook]
    rcases v with _ | b2 | n2 | s2 | items | f2 <;> simp only at hout <;>
      try (rw [Prod.mk.injEq] at hout; rw [← hout.1]; simp only; rw [hlook])
    split at hout
    · rw [Prod.mk.injEq] at hout
      rw [← hout.1]
      simp only
      rw [lookupP_setP, if_pos rfl]
      simp only
      rw [filter_self_idem]
      rw [if_neg (by intro hcontra; exact hcontra rfl)]
    · rw [Prod.mk.injEq] at hout
      rw [← hout.1]
      simp only
      rw [hlook]
      simp only
      next hlen => rw [if_neg hlen]

theorem filterCalendarList_clean (pol : Policy) (d : Json) (allowed : List String)
    (h : cleanJson pol d = true) :
    cleanJson pol (filterCalendarList d allowed).1 = true := by
  unfold filterCalendarList
  by_cases ha : allowed = []
  · rw [if_pos ha]
    exact h
  rw [if_neg ha]
  rcases d with _ | b | n | s | xs | root <;> try exact h
  simp only
  rcases hlook : lookupP root "calendars" with _ | v
  · exact h
  rcases v with _ | b2 | n2 | s2 | items | f2 <;> try exact h
  simp only
  split
  · rw [show ∀ l, cleanJson pol (Json.obj l) = cleanFields pol l from fun _ => rfl]
    apply cleanFields_setP pol root _ _ h (shouldDropKey_calendars pol)
    have hclarr : cleanJson pol (Json.arr items) = true :=
      cleanFields_lookup pol root "calendars" (Json.arr items) h hlook
    rw [show cleanJson pol (Json.arr items) = cleanList pol items from rfl] at hclarr
    rw [show ∀ l, cleanJson pol (Json.arr l) = cleanList pol l from fun _ => rfl]
    exact cleanList_filter pol _ items hclarr
  · exact h

theorem filterCalendarList_stable (d : Json) (allowed : List String) :
    filterCalendarList (filterCalendarList d allowed).1 allowed =
      ((filterCalendarList d allowed).1, []) := by
  rcases hout : filterCalendarList d allowed with ⟨d1, w1⟩
  simp only
  unfold filterCalendarList at hout
  by_cases ha : allowed = []
  · rw [if_pos ha, Prod.mk.injEq] at hout
    unfold filterCalendarList
    rw [if_pos ha]
  rw [if_neg ha] at hout
  unfold filterCalendarList
  rw [if_neg ha]
  simp only at hout ⊢
  rcases d with _ | b | n | s | xs | root
  · simp only at hout
    rw [Prod.mk.injEq] at hout
    rw [← hout.1]
  · simp only at hout
    rw [Prod.mk.injEq] at hout
    rw [← hout.1]
  · simp only at hout
    rw [Prod.mk.injEq] at hout
    rw [← hout.1]
  · simp only at hout
    rw [Prod.mk.injEq] at hout
    rw [← hout.1]
  · simp only at hout
    rw [Prod.mk.injEq] at hout
    rw [← hout.1]
  · simp only at hout
    rcases hlook : lookupP root "calendars" with _ | v <;> rw [hlook] at hout
    · rw [Prod.mk.injEq] at hout
      rw [← hout.1]
      simp only
      rw [hlook]
    rcases v with _ | b2 | n2 | s2 | items | f2 <;> simp only at hout <;>
      try (rw [Prod.mk.injEq] at hout; rw [← hout.1]; simp only; rw [hlook])
    split at hout
    · rw [Prod.mk.injEq] at hout
      rw [← hout.1]
      simp only
      rw [lookupP_setP, if_pos rfl]
      simp only
      rw [filter_self_idem]
      rw [if_neg (by intro hcontra; exact hcontra rfl)]
    · rw [Prod.mk.injEq] at hout
      rw [← hout.1]
      simp only
      rw [hlook]
      simp only
      next hlen => rw [if_neg hlen]

/-- C9: redaction is idempotent when the gmail policy allows no sender
addresses (allowedSenders empty): a second Redact pass on the cleaned data
returns the same data (with possibly different warnings).  The unrestricted
claim is false: see the counterexample, where an allowed-sender local part
followed by a URL is redacted differently on the second pass. -/
theorem C9_idempotent_no_senders (action : String) (data : Json) (pol : Policy)
    (clean : Json) (w : List String)
    (hsend : ∀ g, pol.gmail = some g → g.allowedSenders = [])
    (h : Redact action data pol = Except.ok (clean, w)) :
    ∃ w2, Redact action clean pol = Except.ok (clean, w2) := by
  unfold Redact at h ⊢
  by_cases hg : gmailActions.contains action = true
  · rw [if_pos hg] at h ⊢
    rcases hpol : pol.gmail with _ | g <;> rw [hpol] at h <;> simp only at h ⊢
    · exact absurd h (by simp)
    rcases hr : redactJson data pol with ⟨c0, w0⟩
    rw [hr] at h
    simp only at h
    have hc0 : cleanJson pol c0 = true := by
      have := redactJson_clean pol hsend data
      rw [hr] at this
      exact this
    by_cases hact1 : action = "gmail.search" ∨ action = "gmail.thread.list"
    · rw [if_pos hact1] at h ⊢
      by_cases hra : g.allowedReadLabels = []
      · rw [if_neg (by simpa using hra)] at h
        rw [Except.ok.injEq, Prod.mk.injEq] at h
        rw [← h.1]
        rw [redactJson_of_clean pol c0 hc0]
        simp only
        rw [if_neg (by simpa using hra)]
        exact ⟨[], rfl⟩
      · rw [if_pos (by simpa using hra)] at h
        rcases hf : filterSearchResults c0 g.allowedReadLabels pol with ⟨f1, fw1⟩
        rw [hf] at h
        simp only at h
        rw [Except.ok.injEq, Prod.mk.injEq] at h
        rw [← h.1]
        have hfc : cleanJson pol f1 = true := by
          have := filterSearchResults_clean pol c0 g.allowedReadLabels hc0
          rw [hf] at this
          exact this
        rw [redactJson_of_clean pol f1 hfc]
        simp only
        rw [if_pos (by simpa using hra)]
        have hst := filterSearchResults_stable pol c0 g.allowedReadLabels
        rw [hf] at hst
        simp only at hst
        rw [hst]
        exact ⟨[], rfl⟩
    · rw [if_neg hact1] at h ⊢
      by_cases hact2 : action = "gmail.labels.list"
      · rw [if_pos hact2] at h ⊢
        by_cases hlu : allowedLabelUnion g = []
        · rw [if_neg (by simpa using hlu)] at h
          rw [Except.ok.injEq, Prod.mk.injEq] at h
          rw [← h.1]
          rw [redactJson_of_clean pol c0 hc0]
          simp only
          rw [if_neg (by simpa using hlu)]
          exact ⟨[], rfl⟩
        · rw [if_pos (by simpa using hlu)] at h
          rcases hf : filterLabelsList c0 (allowedLabelUnion g) with ⟨f1, fw1⟩
          rw [hf] at h
          simp only at h
          rw [Except.ok.injEq, Prod.mk.injEq] at h
          rw [← h.1]
          have hfc : cleanJson pol f1 = true := by
            have := filterLabelsList_clean pol c0 (allowedLabelUnion g) hc0
            rw [hf] at this
            exact this
          rw [redactJson_of_clean pol f1 hfc]
          simp only
          rw [if_pos (by simpa using hlu)]
          have hst := filterLabelsList_stable c0 (allowedLabelUnion g)
          rw [hf] at hst
          simp only at hst
          rw [hst]
          exact ⟨[], rfl⟩
      · rw [if_neg hact2] at h ⊢
        by_cases hact3 : action = "gmail.send" ∨ action = "gmail.drafts.create"
        · rw [if_pos hact3] at h ⊢
          rw [Except.ok.injEq, Prod.mk.injEq] at h
          rw [← h.1]
          rw [redactJson_of_clean pol c0 hc0]
          exact ⟨[], rfl⟩
        · rw [if_neg hact3] at h ⊢
          by_cases hra : g.allowedReadLabels = []
          · rw [if_neg (by simpa using hra)] at h
            rw [Except.ok.injEq, Prod.mk.injEq] at h
            rw [← h.1]
            rw [redactJson_of_clean pol c0 hc0]
            simp only
            rw [if_neg (by simpa using hra)]
            exact ⟨[], rfl⟩
          · rw [if_pos (by simpa using hra)] at h
            rcases hlab : hasAllowedLabelIDs c0 g.allowedReadLabels with ⟨b1, b2⟩
            rw [hlab] at h
            rcases b1 <;> rcases b2 <;> simp only at h <;>
              [skip; skip; skip; skip]
            · rw [Except.ok.injEq, Prod.mk.injEq] at h
              rw [← h.1]
              rw [redactJson_of_clean pol c0 hc0]
              simp only
              rw [if_pos (by simpa using hra), hlab]
              exact ⟨[], rfl⟩
            · rw [Except.ok.injEq, Prod.mk.injEq] at h
              rw [← h.1]
              rw [redactJson_of_clean pol c0 hc0]
              simp only
              rw [if_pos (by simpa using hra), hlab]
              exact ⟨[], rfl⟩
            · exact absurd h (by simp)
            · rw [Except.ok.injEq, Prod.mk.injEq] at h
              rw [← h.1]
              rw [redactJson_of_clean pol c0 hc0]
              simp only
              rw [if_pos (by simpa using hra), hlab]
              exact ⟨[], rfl⟩
  · rw [if_neg hg] at h ⊢
    by_cases hcal : calendarActions.contains action = true
    · rw [if_pos hcal] at h ⊢
      rcases hpolc : pol.calendar with _ | c <;> rw [hpolc] at h <;> simp only at h ⊢
      · exact absurd h (by simp)
      rcases hr : redactJson data pol with ⟨c0, w0⟩
      rw [hr] at h
      simp only at h
      have hc0 : cleanJson pol c0 = true := by
        have := redactJson_clean pol hsend data
        rw [hr] at this
        exact this
      by_cases hcl : action = "calendar.list" ∧ c.allowedCalendars ≠ []
      · rw [if_pos hcl] at h
        rcases hf : filterCalendarList c0 c.allowedCalendars with ⟨f1, fw1⟩
        rw [hf] at h
        simp only at h
        rw [Except.ok.injEq, Prod.mk.injEq] at h
        rw [← h.1]
        have hfc : cleanJson pol f1 = true := by
          have := filterCalendarList_clean pol c0 c.allowedCalendars hc0
          rw [hf] at this
          exact this
        rw [redactJson_of_clean pol f1 hfc]
        simp only
        rw [if_pos hcl]
        have hst := filterCalendarList_stable c0 c.allowedCalendars
        rw [hf] at hst
        simp only at hst
        rw [hst]
        exact ⟨[], rfl⟩
      · rw [if_neg hcl] at h
        rw [Except.ok.injEq, Prod.mk.injEq] at h
        rw [← h.1]
        rw [redactJson_of_clean pol c0 hc0]
        simp only
        rw [if_neg hcl]
        exact ⟨[], rfl⟩
    · rw [if_neg hcal] at h ⊢
      rw [Except.ok.injEq, Prod.mk.injEq] at h
      rw [← h.1]
      exact ⟨[], rfl⟩

theorem C9_idempotent_counterexample :
    Redact "calendar.list" (Json.str "a@ok.iohttp://x") cexPol9 =
      Except.ok (Json.str "a@ok.io[redacted]", ["redacted:string"]) ∧
    Redact "calendar.list" (Json.str "a@ok.io[redacted]") cexPol9 =
      Except.ok (Json.str "[redacted][redacted]", ["redacted:string"]) ∧
    Json.str "a@ok.io[redacted]" ≠ Json.str "[redacted][redacted]" := by
  refine ⟨rfl, rfl, ?_⟩
  intro hc
  injection hc with h2
  exact absurd h2 (by decide)

theorem C9_idempotent_no_senders_witness :
    ∃ w2, Redact "gmail.send" (Json.str "hi")
        (Policy.mk [] (some (GmailPolicy.mk [] [] [] [] [] 0 true true false true))
          none [] []) =
      Except.ok (Json.str "hi", w2) :=
  C9_idempotent_no_senders "gmail.send" (Json.str "hi")
    (Policy.mk [] (some (GmailPolicy.mk [] [] [] [] [] 0 true true false true))
      none [] [])
    (Json.str "hi") []
    (fun g h => by
      injection h with h2
      rw [← h2])
    (by rfl)

end Gogcli
